import Mathlib

/-!
# WeeChat layout engine (`src/gui/gui-layout.c`)

A shallow embedding of the layout functions of WeeChat and the properties of
the buffer layout store and of the window layout tree.

Conventions of the embedding.

* A C pointer to a tree node is the subtree itself; the `NULL` pointer is the
  constructor `null`.
* Windows are identified by the address of their `struct t_gui_window`, a
  natural number (`GuiWindow.id`).
* `int` values are `Int`: the counters count the windows on screen and the
  buffers, far below the range of `int`.
* `malloc` and `strdup` succeed, except in the two memory models, where the
  caller of the model tells whether each `malloc` succeeds.
-/

namespace GuiLayout

/-! ## Data model -/

/-- The fields of `struct t_gui_buffer` that the layout code reads or writes.
`plugin_name` is the value of `plugin_get_name (buffer->plugin)`. -/
structure GuiBuffer where
  plugin_name : String
  name : String
  number : Int
  layout_number : Int
  layout_applied : Int
  deriving DecidableEq, Repr

/-- The fields of `struct t_gui_window` that the layout code reads or writes.
`id` is the address of the structure, `buffer` the buffer it displays. -/
structure GuiWindow where
  id : Nat
  buffer : GuiBuffer
  layout_plugin_name : Option String
  layout_buffer_name : Option String
  deriving DecidableEq, Repr

/-- The live tree of windows, `struct t_gui_window_tree`: a node holds a window
(`window != NULL`, a leaf region) or is a split (`window == NULL`). -/
inductive WindowTree where
  | null : WindowTree
  | node (window : Option GuiWindow) (split_pct : Int) (split_horizontal : Int)
      (child1 child2 : WindowTree) : WindowTree
  deriving DecidableEq, Repr

/-- A leaf of the live tree holding the window `w`. -/
def WindowTree.leaf (w : GuiWindow) : WindowTree :=
  .node (some w) 0 0 .null .null

/-- The stored tree of windows, `struct t_gui_layout_window`. The field
`parent_node` is the position of the node in the tree. -/
inductive LayoutWindow where
  | null : LayoutWindow
  | node (internal_id : Int) (split_pct : Int) (split_horiz : Int)
      (child1 child2 : LayoutWindow)
      (plugin_name buffer_name : Option String) : LayoutWindow
  deriving DecidableEq, Repr

/-- An entry of the buffer layout store, `struct t_gui_layout_buffer`; the
links `prev_layout` and `next_layout` are the order of the list. -/
structure LayoutBuffer where
  plugin_name : String
  buffer_name : String
  number : Int
  deriving DecidableEq, Repr

/-- The global variables of `gui-layout.c` used when windows are saved. -/
structure LayoutGlobals where
  gui_layout_windows : LayoutWindow
  gui_layout_internal_id : Int
  gui_layout_internal_id_current_window : Int
  deriving DecidableEq, Repr

/-! ## Saving the tree of windows -/

/-- The linking step of `gui_layout_window_add` for a parent that is not
`NULL`: the new node becomes `child1` if the parent has none, else `child2` if
the parent has none, else it is not linked. A `null` new node stands for a
child that the caller did not create (`if (tree->child1)` was false). -/
def gui_layout_window_link (parent new_layout_window : LayoutWindow) : LayoutWindow :=
  match new_layout_window, parent with
  | .null, _ => parent
  | _, .null => .null
  | n, .node id pct horiz c1 c2 pn bn =>
    if c1 = .null then .node id pct horiz n c2 pn bn
    else if c2 = .null then .node id pct horiz c1 n pn bn
    else .node id pct horiz c1 c2 pn bn

/-- The node that `gui_layout_window_add` creates: no children yet. -/
def gui_layout_window_add (internal_id : Int) (split_pct split_horiz : Int)
    (plugin_name buffer_name : Option String) : LayoutWindow :=
  .node internal_id split_pct split_horiz .null .null plugin_name buffer_name

/-- The function `gui_layout_window_save_tree`, returning the node built for `tree`
(with everything below it) together with the two counters. The caller links
the returned node under its parent, or stores it in the root slot when there
is no parent. On `null` nothing happens: the C code tests the child pointer
before the call. -/
def gui_layout_window_save_tree (gui_current_window : Nat) :
    WindowTree → Int × Int → LayoutWindow × (Int × Int)
  | .null, st => (.null, st)
  | .node window split_pct split_horizontal child1 child2, (internal_id, id_current) =>
    let id_current1 : Int :=
      match window with
      | some w => if w.id = gui_current_window then internal_id else id_current
      | none => id_current
    let layout_window : LayoutWindow :=
      match window with
      | some w =>
        gui_layout_window_add internal_id 0 0 (some w.buffer.plugin_name) (some w.buffer.name)
      | none => gui_layout_window_add internal_id split_pct split_horizontal none none
    let r1 := gui_layout_window_save_tree gui_current_window child1 (internal_id + 1, id_current1)
    let layout_window1 := gui_layout_window_link layout_window r1.1
    let r2 := gui_layout_window_save_tree gui_current_window child2 r1.2
    (gui_layout_window_link layout_window1 r2.1, r2.2)

/-- The function `gui_layout_window_save`: the previous tree is removed, the counters are
reset, the live tree is walked; the result is the new global state and the
returned id of the current window. -/
def gui_layout_window_save (_globals : LayoutGlobals) (gui_windows_tree : WindowTree)
    (gui_current_window : Nat) : LayoutGlobals × Int :=
  let r := gui_layout_window_save_tree gui_current_window gui_windows_tree (1, -1)
  ({ gui_layout_windows := r.1,
     gui_layout_internal_id := r.2.1,
     gui_layout_internal_id_current_window := r.2.2 }, r.2.2)

/-! ## Measures on the two trees -/

/-- Number of leaf regions of the live tree: the nodes that hold a window. -/
def WindowTree.leafRegions : WindowTree → Nat
  | .null => 0
  | .node w _ _ c1 c2 => (if w.isSome then 1 else 0) + c1.leafRegions + c2.leafRegions

/-- Number of split nodes of the live tree: the nodes that hold no window. -/
def WindowTree.splitNodes : WindowTree → Nat
  | .null => 0
  | .node w _ _ c1 c2 => (if w.isSome then 0 else 1) + c1.splitNodes + c2.splitNodes

/-- Every split node of the live tree has a percentage different from 0. -/
def WindowTree.splitsNonzero : WindowTree → Bool
  | .null => true
  | .node w pct _ c1 c2 =>
    (w.isSome || decide (pct ≠ 0)) && c1.splitsNonzero && c2.splitsNonzero

/-- The `internal_id` of the nodes of a stored tree in preorder: the node, the
subtree of `child1`, the subtree of `child2`. -/
def LayoutWindow.preorderIds : LayoutWindow → List Int
  | .null => []
  | .node id _ _ c1 c2 _ _ => id :: (c1.preorderIds ++ c2.preorderIds)

/-- Number of leaves of a stored tree, a leaf being a node with `split_pct == 0`
(the test of `gui_layout_window_apply_tree`). -/
def LayoutWindow.leaves : LayoutWindow → Nat
  | .null => 0
  | .node _ pct _ c1 c2 _ _ => (if pct = 0 then 1 else 0) + c1.leaves + c2.leaves

/-- Number of internal nodes of a stored tree: the nodes with `split_pct != 0`. -/
def LayoutWindow.internalNodes : LayoutWindow → Nat
  | .null => 0
  | .node _ pct _ c1 c2 _ _ => (if pct = 0 then 0 else 1) + c1.internalNodes + c2.internalNodes

/-- Number of nodes of a stored tree that carry a plugin name (what
`gui_layout_print_log_window` prints as "leaf"). -/
def LayoutWindow.namedNodes : LayoutWindow → Nat
  | .null => 0
  | .node _ _ _ c1 c2 pn _ => (if pn.isSome then 1 else 0) + c1.namedNodes + c2.namedNodes

/-- Number of nodes of a stored tree that carry no plugin name (what
`gui_layout_print_log_window` prints as "node"). -/
def LayoutWindow.unnamedNodes : LayoutWindow → Nat
  | .null => 0
  | .node _ _ _ c1 c2 pn _ => (if pn.isSome then 0 else 1) + c1.unnamedNodes + c2.unnamedNodes

/-- The fields that `gui_layout_window_save_tree` gives to the node of a live
node: percentage, orientation, plugin name, buffer name. -/
def savedFields (window : Option GuiWindow) (split_pct split_horizontal : Int) :
    Int × Int × Option String × Option String :=
  match window with
  | some w => (0, 0, some w.buffer.plugin_name, some w.buffer.name)
  | none => (split_pct, split_horizontal, none, none)

/-! ## The buffer layout store -/

/-- The code of a character with an upper case letter `A`..`Z` replaced by
the lower case letter. -/
def lowerCode (c : Char) : Nat :=
  if 65 ≤ c.toNat ∧ c.toNat ≤ 90 then c.toNat + 32 else c.toNat

/-- Comparison of two lists of characters ignoring letter case: 0 when they
are equal up to case, else the sign of the first difference. -/
def strcasecmpChars : List Char → List Char → Int
  | [], [] => 0
  | [], _ :: _ => -1
  | _ :: _, [] => 1
  | a :: as, b :: bs =>
    if lowerCode a = lowerCode b then strcasecmpChars as bs
    else if lowerCode a < lowerCode b then -1 else 1

/-- Modelled from the spec: `string_strcasecmp` of `wee-string.c`, the
"case-insensitive" comparison of two strings; the result is 0 exactly when
the strings are equal ignoring letter case. -/
def string_strcasecmp (string1 string2 : String) : Int :=
  strcasecmpChars string1.data string2.data

/-- Two strings are equal ignoring letter case. -/
def equalIgnoringCase (s1 s2 : String) : Prop :=
  s1.data.map lowerCode = s2.data.map lowerCode

instance (s1 s2 : String) : Decidable (equalIgnoringCase s1 s2) :=
  inferInstanceAs (Decidable (s1.data.map lowerCode = s2.data.map lowerCode))

/-- The function `gui_layout_buffer_add`: the new entry is appended to the list. -/
def gui_layout_buffer_add (layout_buffers : List LayoutBuffer)
    (plugin_name buffer_name : String) (number : Int) : List LayoutBuffer :=
  layout_buffers ++
    [{ plugin_name := plugin_name, buffer_name := buffer_name, number := number }]

/-- The function `gui_layout_buffer_remove`: the entry at position `i` is freed and
unlinked. -/
def gui_layout_buffer_remove (layout_buffers : List LayoutBuffer) (i : Nat) :
    List LayoutBuffer :=
  layout_buffers.eraseIdx i

/-- The function `gui_layout_buffer_remove_all`: the first entry is removed while
there is one (the recursive call is on the list without its first entry, which
is `gui_layout_buffer_remove` at position 0). -/
def gui_layout_buffer_remove_all : List LayoutBuffer → List LayoutBuffer
  | [] => []
  | _ :: rest => gui_layout_buffer_remove_all rest

/-- The function `gui_layout_buffer_save`. The argument is `none` when one of the
two pointers to the list variables is `NULL` (the function returns at once),
else the list they designate. -/
def gui_layout_buffer_save (layout_buffers : Option (List LayoutBuffer))
    (gui_buffers : List GuiBuffer) : Option (List LayoutBuffer) :=
  match layout_buffers with
  | none => none
  | some layout =>
    some (gui_buffers.foldl
      (fun store ptr_buffer =>
        gui_layout_buffer_add store ptr_buffer.plugin_name ptr_buffer.name ptr_buffer.number)
      (gui_layout_buffer_remove_all layout))

/-- The function `gui_layout_buffer_get_number`. -/
def gui_layout_buffer_get_number :
    List LayoutBuffer → String → String → Int
  | [], _, _ => 0
  | ptr_layout_buffer :: rest, plugin_name, buffer_name =>
    if string_strcasecmp ptr_layout_buffer.plugin_name plugin_name = 0
        ∧ string_strcasecmp ptr_layout_buffer.buffer_name buffer_name = 0 then
      ptr_layout_buffer.number
    else gui_layout_buffer_get_number rest plugin_name buffer_name

/-- The state of `gui_layout_buffer_apply`: the live list of buffers, the calls
of `gui_buffer_move_to_number` made so far (the buffer as it is when the call
is made, and the number asked) and, as a trace, the buffers processed so far
(each as it is when its turn comes). -/
structure ApplyState where
  gui_buffers : List GuiBuffer
  moves : List (GuiBuffer × Int)
  processed : List GuiBuffer
  deriving DecidableEq, Repr

/-- One turn of the `while (1)` loop of `gui_layout_buffer_apply`: the first
buffer of the live list on which the layout has not been applied is marked,
its `layout_number` is looked up, and the buffer is moved when that number is
positive and is not its number. The result is `none` when the layout has been
applied on all buffers (the loop exits). The collaborator
`gui_buffer_move_to_number` is a parameter: it receives the live list, the
position of the buffer and the number. -/
def gui_layout_buffer_apply_turn
    (gui_buffer_move_to_number : List GuiBuffer → Nat → Int → List GuiBuffer)
    (layout_buffers : List LayoutBuffer) (st : ApplyState) : Option ApplyState :=
  match st.gui_buffers.findIdx? (fun b => decide (b.layout_applied = 0)) with
  | none => none
  | some i =>
    match st.gui_buffers[i]? with
    | none => none
    | some ptr_buffer =>
      let marked : GuiBuffer :=
        { ptr_buffer with
          layout_applied := 1,
          layout_number :=
            gui_layout_buffer_get_number layout_buffers ptr_buffer.plugin_name ptr_buffer.name }
      let buffers := st.gui_buffers.set i marked
      if marked.layout_number > 0 ∧ marked.layout_number ≠ marked.number then
        some { gui_buffers := gui_buffer_move_to_number buffers i marked.layout_number,
               moves := st.moves ++ [(marked, marked.layout_number)],
               processed := st.processed ++ [ptr_buffer] }
      else
        some { gui_buffers := buffers, moves := st.moves,
               processed := st.processed ++ [ptr_buffer] }

/-- The `while (1)` loop of `gui_layout_buffer_apply`, run for at most `fuel`
turns. -/
def gui_layout_buffer_apply_loop
    (gui_buffer_move_to_number : List GuiBuffer → Nat → Int → List GuiBuffer)
    (layout_buffers : List LayoutBuffer) : Nat → ApplyState → ApplyState
  | 0, st => st
  | fuel + 1, st =>
    match gui_layout_buffer_apply_turn gui_buffer_move_to_number layout_buffers st with
    | none => st
    | some st1 =>
      gui_layout_buffer_apply_loop gui_buffer_move_to_number layout_buffers fuel st1

/-- The function `gui_layout_buffer_apply`, run for at most `fuel` turns of its loop:
`none` when the loop has not exited within these turns. With an empty store
nothing is done. -/
def gui_layout_buffer_apply
    (gui_buffer_move_to_number : List GuiBuffer → Nat → Int → List GuiBuffer)
    (layout_buffers : List LayoutBuffer) (fuel : Nat) (gui_buffers : List GuiBuffer) :
    Option ApplyState :=
  match layout_buffers with
  | [] => some { gui_buffers := gui_buffers, moves := [], processed := [] }
  | _ :: _ =>
    let st := gui_layout_buffer_apply_loop gui_buffer_move_to_number layout_buffers fuel
      { gui_buffers := gui_buffers.map (fun b => { b with layout_applied := 0 }),
        moves := [], processed := [] }
    if st.gui_buffers.all (fun b => decide (b.layout_applied ≠ 0)) then some st else none

/-- The live buffers numbered 1, 2, ... in list order, from `k + 1`. -/
def renumberFrom : Nat → List GuiBuffer → List GuiBuffer
  | _, [] => []
  | k, b :: rest => { b with number := (k : Int) + 1 } :: renumberFrom (k + 1) rest

/-- Modelled from the spec: `gui_buffer_move_to_number` of `gui-buffer.c`, the
"renumber operation" on the "ordered sequence of buffers": the buffer at
position `i` is moved to the position `number` of the list (the first one when
the number is below 1, the last one when it is too big) and the buffers are
numbered 1, 2, ... in list order. -/
def gui_buffer_move_to_number (gui_buffers : List GuiBuffer) (i : Nat) (number : Int) :
    List GuiBuffer :=
  match gui_buffers[i]? with
  | none => gui_buffers
  | some buffer =>
    let others := gui_buffers.eraseIdx i
    let pos := (number - 1).toNat
    renumberFrom 0 (others.take pos ++ buffer :: others.drop pos)

/-- The entry that `gui_layout_buffer_save` records for a live buffer. -/
def layoutEntry (b : GuiBuffer) : LayoutBuffer :=
  { plugin_name := b.plugin_name, buffer_name := b.name, number := b.number }

/-- The entry `e` of the store matches the plugin name and buffer name,
ignoring letter case. -/
def LayoutBuffer.matchesName (e : LayoutBuffer) (plugin_name buffer_name : String) : Prop :=
  equalIgnoringCase e.plugin_name plugin_name ∧ equalIgnoringCase e.buffer_name buffer_name

instance (e : LayoutBuffer) (plugin_name buffer_name : String) :
    Decidable (e.matchesName plugin_name buffer_name) :=
  inferInstanceAs (Decidable (_ ∧ _))

/-- Two live buffers have the same plugin name and the same name, ignoring
letter case. -/
def sameIdentity (a b : GuiBuffer) : Prop :=
  equalIgnoringCase a.plugin_name b.plugin_name ∧ equalIgnoringCase a.name b.name

instance (a b : GuiBuffer) : Decidable (sameIdentity a b) :=
  inferInstanceAs (Decidable (_ ∧ _))

/-- The request that the processing of the live buffer `b` must issue: a move
to the number found in the store when that number is positive and is not the
number of the buffer, none otherwise. -/
def expectedMove (layout_buffers : List LayoutBuffer) (b : GuiBuffer) :
    Option (GuiBuffer × Int) :=
  if gui_layout_buffer_get_number layout_buffers b.plugin_name b.name > 0 ∧
      gui_layout_buffer_get_number layout_buffers b.plugin_name b.name ≠ b.number then
    some ({ b with
            layout_applied := 1,
            layout_number := gui_layout_buffer_get_number layout_buffers b.plugin_name b.name },
          gui_layout_buffer_get_number layout_buffers b.plugin_name b.name)
  else none

/-- A live buffer without its number: what a renumbering leaves as it is. -/
def GuiBuffer.unnumbered (b : GuiBuffer) : GuiBuffer :=
  { b with number := 0 }

/-- The collaborator `gui_buffer_move_to_number` only reorders and renumbers
the live list: after a call the list holds the same buffers, in some order,
and nothing but their numbers has changed (the flags `layout_applied` and the
numbers `layout_number` are untouched). -/
def reordersOnly (move : List GuiBuffer → Nat → Int → List GuiBuffer) : Prop :=
  ∀ l i n, ((move l i n).map GuiBuffer.unnumbered).Perm (l.map GuiBuffer.unnumbered)

/-- The layout has not been applied on the buffer yet, or it has and the
buffer carries the flag 1 and the number found in the store for its names. -/
def lookedUp (layout_buffers : List LayoutBuffer) (b : GuiBuffer) : Prop :=
  b.layout_applied = 0 ∨
    (b.layout_applied = 1 ∧
      b.layout_number = gui_layout_buffer_get_number layout_buffers b.plugin_name b.name)

/-- The buffers of a list on which the layout has not been applied yet. -/
def pendingBuffers (l : List GuiBuffer) : List GuiBuffer :=
  l.filter (fun b => decide (b.layout_applied = 0))

/-! ## The buffer layout store in memory

The functions that build and unbuild the store work on a doubly linked list:
each entry holds the addresses of the previous and of the next entry, and two
variables hold the addresses of the first and of the last entry. Here the
entries live in a memory, a list of cells indexed by address; a freed cell is
`none`, `malloc` returns the first address beyond the memory, or fails when
the caller of the model says so. The definitions above are the same functions
seen on the sequence of entries; `LayoutBufferStore.holds` relates the two. -/

/-- One `struct t_gui_layout_buffer` in memory. -/
structure LayoutBufferCell where
  plugin_name : String
  buffer_name : String
  number : Int
  prev_layout : Option Nat
  next_layout : Option Nat
  deriving DecidableEq, Repr

/-- The memory of the entries and the two list variables, `*layout_buffers`
and `*last_layout_buffer` in the functions (`gui_layout_buffers` and
`last_gui_layout_buffer` for the callers). -/
structure LayoutBufferStore where
  memory : List (Option LayoutBufferCell)
  layout_buffers : Option Nat
  last_layout_buffer : Option Nat
  deriving DecidableEq, Repr

/-- The assignment `p->next_layout = next`. -/
def setNextLayout (memory : List (Option LayoutBufferCell)) (p : Nat) (next : Option Nat) :
    List (Option LayoutBufferCell) :=
  match memory[p]? with
  | some (some cell) => memory.set p (some { cell with next_layout := next })
  | _ => memory

/-- The assignment `p->prev_layout = prev`. -/
def setPrevLayout (memory : List (Option LayoutBufferCell)) (p : Nat) (prev : Option Nat) :
    List (Option LayoutBufferCell) :=
  match memory[p]? with
  | some (some cell) => memory.set p (some { cell with prev_layout := prev })
  | _ => memory

/-- The function `gui_layout_buffer_remove` on the memory: the entry at the address
`layout_buffer` is unlinked from its neighbours, the two list variables are
updated and the entry is freed. -/
def Linked.gui_layout_buffer_remove (st : LayoutBufferStore) (layout_buffer : Nat) :
    LayoutBufferStore :=
  match st.memory[layout_buffer]? with
  | some (some cell) =>
    let memory1 :=
      match cell.prev_layout with
      | some prev => setNextLayout st.memory prev cell.next_layout
      | none => st.memory
    let memory2 :=
      match cell.next_layout with
      | some next => setPrevLayout memory1 next cell.prev_layout
      | none => memory1
    { memory := memory2.set layout_buffer none,
      layout_buffers :=
        if st.layout_buffers = some layout_buffer then cell.next_layout else st.layout_buffers,
      last_layout_buffer :=
        if st.last_layout_buffer = some layout_buffer then cell.prev_layout
        else st.last_layout_buffer }
  | _ => st

/-- The loop of `gui_layout_buffer_remove_all`, for at most `fuel` turns:
while the list has a first entry, it is removed. -/
def Linked.remove_all_loop : Nat → LayoutBufferStore → LayoutBufferStore
  | 0, st => st
  | fuel + 1, st =>
    match st.layout_buffers with
    | none => st
    | some first => Linked.remove_all_loop fuel (Linked.gui_layout_buffer_remove st first)

/-- The function `gui_layout_buffer_remove_all` on the memory. Each turn of the loop frees
one cell, so as many turns as the memory has cells are enough: the loop exits
with `*layout_buffers == NULL`. -/
def Linked.gui_layout_buffer_remove_all (st : LayoutBufferStore) : LayoutBufferStore :=
  Linked.remove_all_loop st.memory.length st

/-- The function `gui_layout_buffer_add` on the memory. `malloc_ok` tells whether `malloc`
succeeds; the result is the new store and the returned pointer (`NULL` when
`malloc` has failed). The two calls of `strdup` are taken to succeed. -/
def Linked.gui_layout_buffer_add (st : LayoutBufferStore) (malloc_ok : Bool)
    (plugin_name buffer_name : String) (number : Int) : LayoutBufferStore × Option Nat :=
  if malloc_ok then
    let new_layout_buffer := st.memory.length
    let memory1 := st.memory ++
      [some { plugin_name := plugin_name, buffer_name := buffer_name, number := number,
              prev_layout := st.last_layout_buffer, next_layout := none }]
    match st.layout_buffers with
    | some first =>
      ({ memory :=
           match st.last_layout_buffer with
           | some last => setNextLayout memory1 last (some new_layout_buffer)
           | none => memory1,
         layout_buffers := some first,
         last_layout_buffer := some new_layout_buffer }, some new_layout_buffer)
    | none =>
      ({ memory := memory1,
         layout_buffers := some new_layout_buffer,
         last_layout_buffer := some new_layout_buffer }, some new_layout_buffer)
  else (st, none)

/-- The loop of `gui_layout_buffer_save` over the live buffers, `k` being the
position in the live list of the first buffer still to record and
`malloc_ok j` telling whether the allocation for the buffer at position `j`
succeeds. -/
def Linked.save_loop (malloc_ok : Nat → Bool) :
    Nat → List GuiBuffer → LayoutBufferStore → LayoutBufferStore
  | _, [], st => st
  | k, ptr_buffer :: rest, st =>
    Linked.save_loop malloc_ok (k + 1) rest
      (Linked.gui_layout_buffer_add st (malloc_ok k) ptr_buffer.plugin_name ptr_buffer.name
        ptr_buffer.number).1

/-- The function `gui_layout_buffer_save` on the memory. The argument is `none` when one
of the two pointers to the list variables is `NULL`. -/
def Linked.gui_layout_buffer_save (layout_buffers : Option LayoutBufferStore)
    (malloc_ok : Nat → Bool) (gui_buffers : List GuiBuffer) : Option LayoutBufferStore :=
  match layout_buffers with
  | none => none
  | some st =>
    some (Linked.save_loop malloc_ok 0 gui_buffers (Linked.gui_layout_buffer_remove_all st))

/-- The function `gui_layout_buffer_reset` on the memory: the store is emptied and the
`layout_number` of every live buffer is set to 0. -/
def Linked.gui_layout_buffer_reset (st : LayoutBufferStore) (gui_buffers : List GuiBuffer) :
    LayoutBufferStore × List GuiBuffer :=
  (Linked.gui_layout_buffer_remove_all st,
   gui_buffers.map (fun ptr_buffer => { ptr_buffer with layout_number := 0 }))

/-- The function `gui_layout_buffer_reset` on the sequence of entries. -/
def gui_layout_buffer_reset (layout_buffers : List LayoutBuffer) (gui_buffers : List GuiBuffer) :
    List LayoutBuffer × List GuiBuffer :=
  (gui_layout_buffer_remove_all layout_buffers,
   gui_buffers.map (fun ptr_buffer => { ptr_buffer with layout_number := 0 }))

/-- The cell of the entry `e` between the entries at `prev` and `next`. -/
def LayoutBuffer.cell (e : LayoutBuffer) (prev next : Option Nat) : LayoutBufferCell :=
  { plugin_name := e.plugin_name, buffer_name := e.buffer_name, number := e.number,
    prev_layout := prev, next_layout := next }

/-- The cells at the given addresses form a chain in memory: each holds its
entry, the address of the previous one (`prev` for the first) and the address
of the next one (`NULL` for the last). -/
def Linked.chain (memory : List (Option LayoutBufferCell)) :
    Option Nat → List (Nat × LayoutBuffer) → Bool
  | _, [] => true
  | prev, (a, e) :: rest =>
    decide (memory[a]? = some (some (e.cell prev (rest.head?.map Prod.fst)))) &&
      Linked.chain memory (some a) rest

/-- The store is a well formed list that holds the given entries at the given
addresses, in order: the first variable is the address of the first entry, the
last variable the address of the last one (both `NULL` for no entry), the
addresses are distinct and the cells are chained. -/
def LayoutBufferStore.holds (st : LayoutBufferStore) (cells : List (Nat × LayoutBuffer)) :
    Bool :=
  decide (st.layout_buffers = cells.head?.map Prod.fst) &&
  decide (st.last_layout_buffer = cells.getLast?.map Prod.fst) &&
  decide ((cells.map Prod.fst).Nodup) &&
  Linked.chain st.memory none cells

/-- The address of the last cell of `pre`, or `prev` when `pre` is empty: the
address before the cell that follows `pre` in a chain that starts after
`prev`. -/
def Linked.lastOr (prev : Option Nat) (pre : List (Nat × LayoutBuffer)) : Option Nat :=
  match pre.getLast? with
  | some c => some c.1
  | none => prev

/-- The memory once the cell at the address `a`, whose content is `cell`, has
been unlinked from its neighbours and freed, as `gui_layout_buffer_remove`
does. -/
def Linked.unlink (memory : List (Option LayoutBufferCell)) (a : Nat)
    (cell : LayoutBufferCell) : List (Option LayoutBufferCell) :=
  ((match cell.next_layout with
    | some next =>
      setPrevLayout
        (match cell.prev_layout with
         | some prev => setNextLayout memory prev cell.next_layout
         | none => memory)
        next cell.prev_layout
    | none =>
      match cell.prev_layout with
      | some prev => setNextLayout memory prev cell.next_layout
      | none => memory).set a none)

/-- The traversal `for (ptr = first; ptr; ptr = ptr->next_layout)` of the
store, for at most `fuel` turns: the entries met, in order. -/
def Linked.walk (memory : List (Option LayoutBufferCell)) :
    Nat → Option Nat → List LayoutBuffer
  | 0, _ => []
  | _ + 1, none => []
  | fuel + 1, some a =>
    match memory[a]? with
    | some (some cell) =>
      { plugin_name := cell.plugin_name, buffer_name := cell.buffer_name,
        number := cell.number } :: Linked.walk memory fuel cell.next_layout
    | _ => []

/-- The sequence of entries of the store, read from the first entry along the
`next_layout` pointers. A well formed list has at most as many entries as the
memory has cells. -/
def LayoutBufferStore.entries (st : LayoutBufferStore) : List LayoutBuffer :=
  Linked.walk st.memory st.memory.length st.layout_buffers

/-- The live buffers whose allocation succeeds in the loop of
`gui_layout_buffer_save`, `k` being the position of the first buffer of the
list. -/
def Linked.recorded (malloc_ok : Nat → Bool) : Nat → List GuiBuffer → List GuiBuffer
  | _, [] => []
  | k, b :: rest =>
    if malloc_ok k then b :: Linked.recorded malloc_ok (k + 1) rest
    else Linked.recorded malloc_ok (k + 1) rest

/-- The store at start up: nothing allocated, both list variables `NULL`. -/
def emptyStore : LayoutBufferStore :=
  { memory := [], layout_buffers := none, last_layout_buffer := none }

/-- A store in memory with two entries, built by two calls of
`gui_layout_buffer_add` from the empty store. -/
def exampleLinked : LayoutBufferStore :=
  (Linked.gui_layout_buffer_add
    (Linked.gui_layout_buffer_add emptyStore true "core" "weechat" 1).1
    true "irc" "#test" 2).1

/-- The addresses and entries of `exampleLinked`. -/
def exampleCells : List (Nat × LayoutBuffer) :=
  [(0, { plugin_name := "core", buffer_name := "weechat", number := 1 }),
   (1, { plugin_name := "irc", buffer_name := "#test", number := 2 })]

/-- Every entry of a sequence has a number that is at least 1. -/
def numbersPositive (entries : List LayoutBuffer) : Prop :=
  ∀ e ∈ entries, 1 ≤ e.number

/-! ## The stored tree of windows in memory

The functions that build and free the stored tree work on nodes linked by
addresses: each node holds the addresses of its parent and of its two
children, and the variable `*layout_windows` (the root slot) holds the address
of the root. As for the buffer layout store, the nodes live in a memory, a
list of cells indexed by address; a freed cell is `none` and `malloc` returns
the first address beyond the memory, or fails when the caller of the model
says so. `LayoutWindowStore.tree` reads the tree of the data model from the
memory. -/

/-- One `struct t_gui_layout_window` in memory. -/
structure LayoutWindowCell where
  internal_id : Int
  parent_node : Option Nat
  split_pct : Int
  split_horiz : Int
  child1 : Option Nat
  child2 : Option Nat
  plugin_name : Option String
  buffer_name : Option String
  deriving DecidableEq, Repr

/-- The memory of the nodes with the root slot `*layout_windows` (the
variable `gui_layout_windows` for the callers) and the two counters
`gui_layout_internal_id` and `gui_layout_internal_id_current_window`. -/
structure LayoutWindowStore where
  memory : List (Option LayoutWindowCell)
  gui_layout_windows : Option Nat
  gui_layout_internal_id : Int
  gui_layout_internal_id_current_window : Int
  deriving DecidableEq, Repr

/-- The function `gui_layout_window_remove` on the memory, for a recursion of depth `fuel`
at most: the subtree of `child1` is freed, then the subtree of `child2` (the
pointer is read after the first call), then the node. -/
def Heap.gui_layout_window_remove :
    Nat → List (Option LayoutWindowCell) → Nat → List (Option LayoutWindowCell)
  | 0, memory, _ => memory
  | fuel + 1, memory, layout_window =>
    match memory[layout_window]? with
    | some (some cell) =>
      let memory1 :=
        match cell.child1 with
        | some child1 => Heap.gui_layout_window_remove fuel memory child1
        | none => memory
      let memory2 :=
        match memory1[layout_window]? with
        | some (some cell1) =>
          (match cell1.child2 with
           | some child2 => Heap.gui_layout_window_remove fuel memory1 child2
           | none => memory1)
        | _ => memory1
      memory2.set layout_window none
    | _ => memory

/-- The function `gui_layout_window_remove_all` on the memory. A tree has at most as many
levels as the memory has cells. -/
def Heap.gui_layout_window_remove_all (st : LayoutWindowStore) : LayoutWindowStore :=
  match st.gui_layout_windows with
  | some root =>
    { st with
      memory := Heap.gui_layout_window_remove st.memory.length st.memory root,
      gui_layout_windows := none }
  | none => st

/-- The node after the statements
`if (!parent->child1) parent->child1 = new; else if (!parent->child2) parent->child2 = new;`
of `gui_layout_window_add`. -/
def Heap.attachCell (parent : LayoutWindowCell) (new_layout_window : Nat) : LayoutWindowCell :=
  if parent.child1 = none then { parent with child1 := some new_layout_window }
  else if parent.child2 = none then { parent with child2 := some new_layout_window }
  else parent

/-- The memory after these statements, for the parent at the address given. -/
def Heap.attach (memory : List (Option LayoutWindowCell)) (parent new_layout_window : Nat) :
    List (Option LayoutWindowCell) :=
  match memory[parent]? with
  | some (some cell) => memory.set parent (some (Heap.attachCell cell new_layout_window))
  | _ => memory

/-- The function `gui_layout_window_add` on the memory. `malloc_ok` tells whether `malloc`
succeeds; the result is the new store and the returned pointer (`NULL` when
`malloc` has failed). The calls of `strdup` are taken to succeed. The parent
is a node allocated before, so its cell is written in the memory as it was
before the allocation. -/
def Heap.gui_layout_window_add (st : LayoutWindowStore) (malloc_ok : Bool)
    (internal_id : Int) (parent : Option Nat) (split_pct split_horiz : Int)
    (plugin_name buffer_name : Option String) : LayoutWindowStore × Option Nat :=
  if malloc_ok then
    let new_layout_window := st.memory.length
    let cell : LayoutWindowCell :=
      { internal_id := internal_id, parent_node := parent, split_pct := split_pct,
        split_horiz := split_horiz, child1 := none, child2 := none,
        plugin_name := plugin_name, buffer_name := buffer_name }
    match parent with
    | some p =>
      ({ st with memory := Heap.attach st.memory p new_layout_window ++ [some cell] },
       some new_layout_window)
    | none =>
      ({ st with memory := st.memory ++ [some cell],
                 gui_layout_windows := some new_layout_window },
       some new_layout_window)
  else (st, none)

/-- The function `gui_layout_window_save_tree` on the memory. `malloc_ok id` tells whether
the allocation of the node that gets the id `id` succeeds. On `null` nothing
happens: the C code tests the child pointer before the call. -/
def Heap.gui_layout_window_save_tree (malloc_ok : Int → Bool) (gui_current_window : Nat) :
    WindowTree → Option Nat → LayoutWindowStore → LayoutWindowStore
  | .null, _, st => st
  | .node window split_pct split_horizontal child1 child2, parent_layout, st =>
    let st1 : LayoutWindowStore :=
      match window with
      | some w =>
        if w.id = gui_current_window then
          { st with gui_layout_internal_id_current_window := st.gui_layout_internal_id }
        else st
      | none => st
    let r :=
      match window with
      | some w =>
        Heap.gui_layout_window_add st1 (malloc_ok st1.gui_layout_internal_id)
          st1.gui_layout_internal_id parent_layout 0 0
          (some w.buffer.plugin_name) (some w.buffer.name)
      | none =>
        Heap.gui_layout_window_add st1 (malloc_ok st1.gui_layout_internal_id)
          st1.gui_layout_internal_id parent_layout split_pct split_horizontal none none
    let st2 : LayoutWindowStore :=
      { r.1 with gui_layout_internal_id := r.1.gui_layout_internal_id + 1 }
    let st3 := Heap.gui_layout_window_save_tree malloc_ok gui_current_window child1 r.2 st2
    Heap.gui_layout_window_save_tree malloc_ok gui_current_window child2 r.2 st3

/-- The function `gui_layout_window_save` on the memory: the new store and the returned id
of the current window. -/
def Heap.gui_layout_window_save (st : LayoutWindowStore) (malloc_ok : Int → Bool)
    (gui_windows_tree : WindowTree) (gui_current_window : Nat) : LayoutWindowStore × Int :=
  let st1 := Heap.gui_layout_window_remove_all st
  let st2 : LayoutWindowStore :=
    { st1 with gui_layout_internal_id := 1, gui_layout_internal_id_current_window := -1 }
  let st3 :=
    Heap.gui_layout_window_save_tree malloc_ok gui_current_window gui_windows_tree none st2
  (st3, st3.gui_layout_internal_id_current_window)

/-- The tree found in memory from the address given, following the pointers
`child1` and `child2` down to depth `fuel`. -/
def Heap.read (memory : List (Option LayoutWindowCell)) : Nat → Option Nat → LayoutWindow
  | 0, _ => .null
  | _ + 1, none => .null
  | fuel + 1, some a =>
    match memory[a]? with
    | some (some cell) =>
      .node cell.internal_id cell.split_pct cell.split_horiz
        (Heap.read memory fuel cell.child1) (Heap.read memory fuel cell.child2)
        cell.plugin_name cell.buffer_name
    | _ => .null

/-- The stored tree: what is found in memory from the root slot. -/
def LayoutWindowStore.tree (st : LayoutWindowStore) : LayoutWindow :=
  Heap.read st.memory st.memory.length st.gui_layout_windows

/-- The store at start up: nothing allocated, the root slot `NULL`. -/
def emptyWindowStore : LayoutWindowStore :=
  { memory := [], gui_layout_windows := none, gui_layout_internal_id := 0,
    gui_layout_internal_id_current_window := 0 }

/-- Number of nodes of a stored tree. -/
def LayoutWindow.size : LayoutWindow → Nat
  | .null => 0
  | .node _ _ _ c1 c2 _ _ => 1 + c1.size + c2.size

/-- The pointer to a tree whose root is at the address `base`: `NULL` for the
empty tree. -/
def LayoutWindow.rootAt (t : LayoutWindow) (base : Nat) : Option Nat :=
  if t = .null then none else some base

/-- The cells of a stored tree placed in preorder at consecutive addresses
from `base`, under the parent given: the node, then the subtree of `child1`,
then the subtree of `child2`. -/
def Heap.layout : Nat → Option Nat → LayoutWindow → List LayoutWindowCell
  | _, _, .null => []
  | base, parent, .node id pct horiz c1 c2 pn bn =>
    { internal_id := id, parent_node := parent, split_pct := pct, split_horiz := horiz,
      child1 := c1.rootAt (base + 1), child2 := c2.rootAt (base + 1 + c1.size),
      plugin_name := pn, buffer_name := bn } ::
    (Heap.layout (base + 1) (some base) c1 ++ Heap.layout (base + 1 + c1.size) (some base) c2)

/-- The store once the tree `r.1` has been placed after the cells of the
memory and attached under the parent given, or put in the root slot when there
is no parent, the two counters being `r.2`. -/
def Heap.placed (st : LayoutWindowStore) (parent : Option Nat)
    (r : LayoutWindow × (Int × Int)) : LayoutWindowStore :=
  { memory :=
      (match parent with
       | some p => if r.1 = .null then st.memory else Heap.attach st.memory p st.memory.length
       | none => st.memory) ++ (Heap.layout st.memory.length parent r.1).map some,
    gui_layout_windows :=
      (match parent with
       | some _ => st.gui_layout_windows
       | none => if r.1 = .null then st.gui_layout_windows else some st.memory.length),
    gui_layout_internal_id := r.2.1,
    gui_layout_internal_id_current_window := r.2.2 }

/-- The memory holds the tree `t` from the address given, under the parent
given: each node of the tree has its cell, with the fields of the node, the
parent as `parent_node`, and the two children held from `child1` and
`child2`; the pointer is `NULL` exactly for the empty tree. -/
def Heap.holdsTree (memory : List (Option LayoutWindowCell)) :
    Option Nat → Option Nat → LayoutWindow → Bool
  | none, _, .null => true
  | some a, parent, .node id pct horiz c1 c2 pn bn =>
    match memory[a]? with
    | some (some cell) =>
      decide (cell.internal_id = id) && decide (cell.parent_node = parent) &&
      decide (cell.split_pct = pct) && decide (cell.split_horiz = horiz) &&
      decide (cell.plugin_name = pn) && decide (cell.buffer_name = bn) &&
      Heap.holdsTree memory cell.child1 (some a) c1 &&
      Heap.holdsTree memory cell.child2 (some a) c2
    | _ => false
  | _, _, _ => false

/-- The addresses of the nodes of the tree `t` held from the address given,
in preorder. -/
def Heap.addresses (memory : List (Option LayoutWindowCell)) :
    Option Nat → LayoutWindow → List Nat
  | some a, .node _ _ _ c1 c2 _ _ =>
    match memory[a]? with
    | some (some cell) =>
      a :: (Heap.addresses memory cell.child1 c1 ++ Heap.addresses memory cell.child2 c2)
    | _ => [a]
  | _, _ => []

/-- The store is well formed and holds the tree `t`: the memory holds `t`
from the root slot, the root having no parent, and the nodes are at distinct
addresses. -/
def LayoutWindowStore.wellFormed (st : LayoutWindowStore) (t : LayoutWindow) : Bool :=
  Heap.holdsTree st.memory st.gui_layout_windows none t &&
    decide (Heap.addresses st.memory st.gui_layout_windows t).Nodup

/-! ## Shape of the live tree and correspondence with the stored tree -/

/-- A live split tree: every node is a leaf region (a window and no child) or
a split node (no window and two children). -/
def WindowTree.isSplitTree : WindowTree → Bool
  | .null => false
  | .node w _ _ c1 c2 =>
    match w with
    | some _ => decide (c1 = .null) && decide (c2 = .null)
    | none => c1.isSplitTree && c2.isSplitTree

/-- The stored tree `l` mirrors the live tree `t`: same shape, `child1` under
`child1` and `child2` under `child2`; the node of a live split carries the
percentage and orientation of the split and no name, the node of a live leaf
carries percentage 0 and the plugin name and name of the displayed buffer. -/
def LayoutWindow.mirrors : WindowTree → LayoutWindow → Bool
  | .null, .null => true
  | .node w p h c1 c2, .node _ pct horiz l1 l2 pn bn =>
    (match w with
     | some x =>
       decide (pct = 0) && decide (pn = some x.buffer.plugin_name) &&
         decide (bn = some x.buffer.name)
     | none =>
       decide (pct = p) && decide (horiz = h) && decide (pn = none) && decide (bn = none)) &&
    LayoutWindow.mirrors c1 l1 && LayoutWindow.mirrors c2 l2
  | _, _ => false

/-- The nodes of the live tree in preorder: the window held (if any), the
percentage and the orientation of each node. -/
def WindowTree.preorder : WindowTree → List (Option GuiWindow × Int × Int)
  | .null => []
  | .node w p h c1 c2 => (w, p, h) :: (c1.preorder ++ c2.preorder)

/-- The nodes of a stored tree in preorder: `internal_id`, `split_pct`,
`split_horiz`, `plugin_name` and `buffer_name` of each node. -/
def LayoutWindow.preorder :
    LayoutWindow → List (Int × Int × Int × Option String × Option String)
  | .null => []
  | .node id pct horiz c1 c2 pn bn => (id, pct, horiz, pn, bn) :: (c1.preorder ++ c2.preorder)

/-- What the visit of one live node does to the two counters of
`gui_layout_window_save_tree`: the id of the current window is set when the
node holds the current window, then the id counter is incremented. -/
def saveStep (gui_current_window : Nat) (st : Int × Int)
    (n : Option GuiWindow × Int × Int) : Int × Int :=
  (st.1 + 1,
   match n.1 with
   | some w => if w.id = gui_current_window then st.1 else st.2
   | none => st.2)

/-! ## The live screen and the windowing collaborator

The functions `gui_window_merge_all`, `gui_window_split_horizontal`,
`gui_window_split_vertical`, `gui_window_switch`,
`gui_window_set_layout_plugin_name`, `gui_window_set_layout_buffer_name` and
`gui_window_switch_to_buffer` belong to `gui-window.c` and to the curses
front end. They are modelled from the contract the specification gives. -/

/-- The live state read and written when a layout is applied: the tree of
windows (which holds the windows), the current window, the list of buffers,
the pointer `gui_layout_ptr_current_window` of `gui-layout.c` and the address
that the allocator gives to the next window created. -/
structure Gui where
  gui_windows_tree : WindowTree
  gui_current_window : Nat
  gui_buffers : List GuiBuffer
  gui_layout_ptr_current_window : Option Nat
  next_window : Nat
  deriving DecidableEq, Repr

/-- The addresses of the windows of the live tree, in preorder. -/
def WindowTree.windowIds : WindowTree → List Nat
  | .null => []
  | .node w _ _ c1 c2 =>
    (match w with
     | some x => [x.id]
     | none => []) ++ (c1.windowIds ++ c2.windowIds)

/-- The windows of the live tree, in preorder (the list `gui_windows`). -/
def WindowTree.windows : WindowTree → List GuiWindow
  | .null => []
  | .node w _ _ c1 c2 =>
    (match w with
     | some x => [x]
     | none => []) ++ (c1.windows ++ c2.windows)

/-- The window at address `id` in the live tree. -/
def WindowTree.findWindow : WindowTree → Nat → Option GuiWindow
  | .null, _ => none
  | .node w _ _ c1 c2, id =>
    match w with
    | some x =>
      if x.id = id then some x
      else match c1.findWindow id with
        | some y => some y
        | none => c2.findWindow id
    | none =>
      match c1.findWindow id with
      | some y => some y
      | none => c2.findWindow id

/-- The live tree in which the node holding the window at address `id` is
replaced by the tree `f w`, `w` being that window. -/
def WindowTree.replaceWindow (f : GuiWindow → WindowTree) : WindowTree → Nat → WindowTree
  | .null, _ => .null
  | .node w p h c1 c2, id =>
    match w with
    | some x =>
      if x.id = id then f x
      else .node (some x) p h (c1.replaceWindow f id) (c2.replaceWindow f id)
    | none => .node none p h (c1.replaceWindow f id) (c2.replaceWindow f id)

/-- The live tree in which the window at address `id` is changed by `f`. -/
def WindowTree.updateWindow (f : GuiWindow → GuiWindow) : WindowTree → Nat → WindowTree
  | .null, _ => .null
  | .node w p h c1 c2, id =>
    .node
      (match w with
       | some x => if x.id = id then some (f x) else some x
       | none => none)
      p h (c1.updateWindow f id) (c2.updateWindow f id)

/-- Modelled from the spec: `gui_window_merge_all` of `gui-window.c`, "merge
all live regions into one (collapse to a single full-screen region)"; the
region kept is the given window. -/
def gui_window_merge_all (g : Gui) (window : Nat) : Gui :=
  match g.gui_windows_tree.findWindow window with
  | some w => { g with gui_windows_tree := .leaf w }
  | none => g

/-- The window created by a split of the window `w`: it has the address
`id`, shows the buffer of `w` and has no intended buffer. -/
def newWindow (id : Nat) (w : GuiWindow) : GuiWindow :=
  { id := id, buffer := w.buffer, layout_plugin_name := none, layout_buffer_name := none }

/-- Modelled from the spec: the split of a window, common part of
`gui_window_split_horizontal` and `gui_window_split_vertical`, "producing two
live regions where the previously active one becomes the first side" and the
"newly created second region ... becomes active after the split". -/
def gui_window_split (g : Gui) (window : Nat) (pct : Int) (horizontal : Int) : Gui :=
  { g with
    gui_windows_tree :=
      g.gui_windows_tree.replaceWindow
        (fun x => .node none pct horizontal (.leaf x) (.leaf (newWindow g.next_window x)))
        window,
    gui_current_window := g.next_window,
    next_window := g.next_window + 1 }

/-- Modelled from the spec: `gui_window_split_horizontal` of the front end. -/
def gui_window_split_horizontal (g : Gui) (window : Nat) (pct : Int) : Gui :=
  gui_window_split g window pct 1

/-- Modelled from the spec: `gui_window_split_vertical` of the front end. -/
def gui_window_split_vertical (g : Gui) (window : Nat) (pct : Int) : Gui :=
  gui_window_split g window pct 0

/-- Modelled from the spec: `gui_window_switch` of the front end,
"switch-active-region(region)". -/
def gui_window_switch (g : Gui) (window : Nat) : Gui :=
  { g with gui_current_window := window }

/-- Modelled from the spec: `gui_window_set_layout_plugin_name` of
`gui-window.c`, the per-region mutable "intended plugin name". -/
def gui_window_set_layout_plugin_name (g : Gui) (window : Nat) (name : Option String) : Gui :=
  { g with
    gui_windows_tree :=
      g.gui_windows_tree.updateWindow (fun x => { x with layout_plugin_name := name }) window }

/-- Modelled from the spec: `gui_window_set_layout_buffer_name` of
`gui-window.c`, the per-region mutable "intended buffer name". -/
def gui_window_set_layout_buffer_name (g : Gui) (window : Nat) (name : Option String) : Gui :=
  { g with
    gui_windows_tree :=
      g.gui_windows_tree.updateWindow (fun x => { x with layout_buffer_name := name }) window }

/-- Modelled from the spec: `gui_window_switch_to_buffer` of `gui-window.c`,
"bind that buffer to display in that region". -/
def gui_window_switch_to_buffer (g : Gui) (window : Nat) (buffer : GuiBuffer) : Gui :=
  { g with
    gui_windows_tree :=
      g.gui_windows_tree.updateWindow (fun x => { x with buffer := buffer }) window }

/-! ## Applying the stored tree of windows -/

/-- The calls of `gui_window_switch_to_buffer` made by
`gui_layout_window_check_all_buffers`, in order: for each window of the list
that has both intended names, the first buffer of the list whose plugin name
and name are equal to them (`strcmp`), if there is one. -/
def gui_layout_window_check_all_buffers (gui_windows : List GuiWindow)
    (gui_buffers : List GuiBuffer) : List (Nat × GuiBuffer) :=
  gui_windows.filterMap (fun ptr_win =>
    match ptr_win.layout_plugin_name, ptr_win.layout_buffer_name with
    | some pn, some bn =>
      match gui_buffers.find? (fun ptr_buffer =>
          decide (pn = ptr_buffer.plugin_name) && decide (bn = ptr_buffer.name)) with
      | some ptr_buffer => some (ptr_win.id, ptr_buffer)
      | none => none
    | _, _ => none)

/-- The function `gui_layout_window_apply_tree`. On `null` nothing happens: the C code
tests the child pointer before the call. -/
def gui_layout_window_apply_tree (internal_id_current_window : Int) :
    LayoutWindow → Gui → Gui
  | .null, g => g
  | .node internal_id split_pct split_horiz child1 child2 plugin_name buffer_name, g =>
    if split_pct ≠ 0 then
      let old_window := g.gui_current_window
      let g1 :=
        if split_horiz ≠ 0 then gui_window_split_horizontal g g.gui_current_window split_pct
        else gui_window_split_vertical g g.gui_current_window split_pct
      let g2 := gui_layout_window_apply_tree internal_id_current_window child2 g1
      let g3 := if old_window ≠ g2.gui_current_window then gui_window_switch g2 old_window else g2
      gui_layout_window_apply_tree internal_id_current_window child1 g3
    else
      let g1 :=
        if internal_id = internal_id_current_window then
          { g with gui_layout_ptr_current_window := some g.gui_current_window }
        else g
      let g2 := gui_window_set_layout_plugin_name g1 g1.gui_current_window plugin_name
      gui_window_set_layout_buffer_name g2 g2.gui_current_window buffer_name

/-- The function `gui_layout_window_apply`. The calls that
`gui_layout_window_check_all_buffers` makes are computed from the windows as
they are after the replay and then made in order: a call changes the buffer
shown by one window only, which no later test of the loop reads. -/
def gui_layout_window_apply (layout_windows : LayoutWindow)
    (internal_id_current_window : Int) (g : Gui) : Gui :=
  match layout_windows with
  | .null => g
  | .node _ _ _ _ _ _ _ =>
    let g1 := gui_window_merge_all g g.gui_current_window
    let old_window := g1.gui_current_window
    let g2 := { g1 with gui_layout_ptr_current_window := none }
    let g3 := gui_layout_window_apply_tree internal_id_current_window layout_windows g2
    let g4 :=
      (gui_layout_window_check_all_buffers g3.gui_windows_tree.windows g3.gui_buffers).foldl
        (fun g b => gui_window_switch_to_buffer g b.1 b.2) g3
    gui_window_switch g4
      (match g4.gui_layout_ptr_current_window with
       | some w => w
       | none => old_window)

/-- The calls of `gui_window_switch_to_buffer` made by
`gui_layout_window_check_buffer` for the buffer `buffer`, in order: one for
each window of the list whose two intended names are present and equal
(`strcmp`) to the plugin name and the name of the buffer. -/
def gui_layout_window_check_buffer (gui_windows : List GuiWindow) (buffer : GuiBuffer) :
    List (Nat × GuiBuffer) :=
  gui_windows.filterMap (fun ptr_win =>
    match ptr_win.layout_plugin_name, ptr_win.layout_buffer_name with
    | some pn, some bn =>
      if pn = buffer.plugin_name ∧ bn = buffer.name then some (ptr_win.id, buffer) else none
    | _, _ => none)

/-- A call of a function of the windowing collaborator, with its arguments. -/
inductive WindowCall where
  | merge_all (window : Nat) : WindowCall
  | split_horizontal (window : Nat) (pct : Int) : WindowCall
  | split_vertical (window : Nat) (pct : Int) : WindowCall
  | switch (window : Nat) : WindowCall
  | set_layout_plugin_name (window : Nat) (name : Option String) : WindowCall
  | set_layout_buffer_name (window : Nat) (name : Option String) : WindowCall
  | switch_to_buffer (window : Nat) (buffer : GuiBuffer) : WindowCall
  deriving DecidableEq, Repr

/-- The effect of a call of the windowing collaborator on the live screen. -/
def WindowCall.run (g : Gui) : WindowCall → Gui
  | .merge_all w => gui_window_merge_all g w
  | .split_horizontal w pct => gui_window_split_horizontal g w pct
  | .split_vertical w pct => gui_window_split_vertical g w pct
  | .switch w => gui_window_switch g w
  | .set_layout_plugin_name w name => gui_window_set_layout_plugin_name g w name
  | .set_layout_buffer_name w name => gui_window_set_layout_buffer_name g w name
  | .switch_to_buffer w b => gui_window_switch_to_buffer g w b

/-- The calls of the windowing collaborator made by
`gui_layout_window_apply_tree`, in order. -/
def gui_layout_window_apply_tree_calls (internal_id_current_window : Int) :
    LayoutWindow → Gui → List WindowCall
  | .null, _ => []
  | .node _ split_pct split_horiz child1 child2 plugin_name buffer_name, g =>
    if split_pct ≠ 0 then
      let old_window := g.gui_current_window
      let g1 :=
        if split_horiz ≠ 0 then gui_window_split_horizontal g g.gui_current_window split_pct
        else gui_window_split_vertical g g.gui_current_window split_pct
      let g2 := gui_layout_window_apply_tree internal_id_current_window child2 g1
      let g3 := if old_window ≠ g2.gui_current_window then gui_window_switch g2 old_window else g2
      (if split_horiz ≠ 0 then [WindowCall.split_horizontal g.gui_current_window split_pct]
        else [WindowCall.split_vertical g.gui_current_window split_pct]) ++
      gui_layout_window_apply_tree_calls internal_id_current_window child2 g1 ++
      (if old_window ≠ g2.gui_current_window then [WindowCall.switch old_window] else []) ++
      gui_layout_window_apply_tree_calls internal_id_current_window child1 g3
    else
      [WindowCall.set_layout_plugin_name g.gui_current_window plugin_name,
       WindowCall.set_layout_buffer_name g.gui_current_window buffer_name]

/-- The calls of the windowing collaborator made by `gui_layout_window_apply`,
in order: none when the stored tree is empty. -/
def gui_layout_window_apply_calls (layout_windows : LayoutWindow)
    (internal_id_current_window : Int) (g : Gui) : List WindowCall :=
  match layout_windows with
  | .null => []
  | .node _ _ _ _ _ _ _ =>
    let g1 := gui_window_merge_all g g.gui_current_window
    let old_window := g1.gui_current_window
    let g2 := { g1 with gui_layout_ptr_current_window := none }
    let g3 := gui_layout_window_apply_tree internal_id_current_window layout_windows g2
    let binds := gui_layout_window_check_all_buffers g3.gui_windows_tree.windows g3.gui_buffers
    let g4 := binds.foldl (fun g b => gui_window_switch_to_buffer g b.1 b.2) g3
    [WindowCall.merge_all g.gui_current_window] ++
    gui_layout_window_apply_tree_calls internal_id_current_window layout_windows g2 ++
    binds.map (fun b => WindowCall.switch_to_buffer b.1 b.2) ++
    [WindowCall.switch
      (match g4.gui_layout_ptr_current_window with
       | some w => w
       | none => old_window)]

/-- The part of the live state that the windowing collaborator reads and
writes: the tree of windows, the current window, the buffers and the next
address. -/
def Gui.screen (g : Gui) : WindowTree × Nat × List GuiBuffer × Nat :=
  (g.gui_windows_tree, g.gui_current_window, g.gui_buffers, g.next_window)

/-- Every split node of the live tree has a percentage from 1 to 99. -/
def WindowTree.splitsInRange : WindowTree → Bool
  | .null => true
  | .node w pct _ c1 c2 =>
    (w.isSome || (decide (1 ≤ pct) && decide (pct ≤ 99))) &&
      c1.splitsInRange && c2.splitsInRange

/-- Every node of the stored tree is a leaf or a split: `split_pct == 0` if
and only if the node has no child, and if and only if it carries a plugin name
and a buffer name; any other node has a `split_pct` from 1 to 99 and carries
neither name. -/
def LayoutWindow.leafOrSplit : LayoutWindow → Bool
  | .null => true
  | .node _ pct _ c1 c2 pn bn =>
    decide (pct = 0 ↔ (c1 = .null ∧ c2 = .null)) &&
    decide (pct = 0 ↔ (pn.isSome = true ∧ bn.isSome = true)) &&
    decide (pct ≠ 0 → (1 ≤ pct ∧ pct ≤ 99 ∧ pn = none ∧ bn = none)) &&
    c1.leafOrSplit && c2.leafOrSplit

/-! ## Searching the stored tree -/

/-- The function `gui_layout_window_search_by_id`. The result is the node found, with what
is below it, or `null` for `NULL`. -/
def gui_layout_window_search_by_id : LayoutWindow → Int → LayoutWindow
  | .null, _ => .null
  | .node internal_id split_pct split_horiz child1 child2 plugin_name buffer_name, id =>
    if internal_id = id then
      .node internal_id split_pct split_horiz child1 child2 plugin_name buffer_name
    else
      match gui_layout_window_search_by_id child1 id with
      | .node a b c d e f g => .node a b c d e f g
      | .null => gui_layout_window_search_by_id child2 id

/-- The nodes of a stored tree in preorder (the node, the subtree of `child1`,
the subtree of `child2`), each with what is below it. -/
def LayoutWindow.nodes : LayoutWindow → List LayoutWindow
  | .null => []
  | .node id pct horiz c1 c2 pn bn =>
    .node id pct horiz c1 c2 pn bn :: (c1.nodes ++ c2.nodes)

/-- The node has the `internal_id` given. -/
def LayoutWindow.hasId (id : Int) : LayoutWindow → Bool
  | .null => false
  | .node i _ _ _ _ _ _ => decide (i = id)

/-! ## The tree built by a replay -/

/-- Every window of the live tree is held by a leaf: percentage 0,
orientation 0, no child. -/
def WindowTree.flat : WindowTree → Bool
  | .null => true
  | .node w p h c1 c2 =>
    match w with
    | some _ => decide (p = 0) && decide (h = 0) && decide (c1 = .null) && decide (c2 = .null)
    | none => c1.flat && c2.flat

/-- Number of split nodes that a replay of the stored tree visits: the nodes
with `split_pct != 0` reached through such nodes only. -/
def LayoutWindow.visitedSplits : LayoutWindow → Nat
  | .null => 0
  | .node _ pct _ c1 c2 _ _ =>
    if pct ≠ 0 then 1 + c2.visitedSplits + c1.visitedSplits else 0

/-- The live subtree that a replay of the stored tree puts in place of the
leaf holding the window `w`, when `n` is the address of the next window
created. -/
def replay : LayoutWindow → GuiWindow → Nat → WindowTree
  | .null, w, _ => .leaf w
  | .node _ pct horiz c1 c2 pn bn, w, n =>
    if pct ≠ 0 then
      .node none pct (if horiz ≠ 0 then 1 else 0)
        (replay c1 w (n + 1 + c2.visitedSplits))
        (replay c2 (newWindow n w) (n + 1))
    else .leaf { w with layout_plugin_name := pn, layout_buffer_name := bn }

/-- The value of `gui_layout_ptr_current_window` after a replay of the stored
tree against the window at address `c`, when `n` is the address of the next
window created and `ptr` the value before. -/
def replayFocus (fid : Int) : LayoutWindow → Nat → Nat → Option Nat → Option Nat
  | .null, _, _, ptr => ptr
  | .node id pct _ c1 c2 _ _, c, n, ptr =>
    if pct ≠ 0 then
      replayFocus fid c1 c (n + 1 + c2.visitedSplits) (replayFocus fid c2 n (n + 1) ptr)
    else if id = fid then some c else ptr

/-- The live screen is consistent: the current window is a window of the tree
and the addresses of the live windows are below the next address given by the
allocator. -/
def Gui.consistent (g : Gui) : Bool :=
  (g.gui_windows_tree.findWindow g.gui_current_window).isSome &&
    g.gui_windows_tree.windowIds.all (fun id => decide (id < g.next_window))

/-- The live tree `t` restores the live split tree `T`: same shape, the same
percentage and the same orientation (horizontal or not) at every split, and at
every leaf a window whose intended plugin name and buffer name are those of
the buffer shown by the leaf of `T` at that position. -/
def WindowTree.restores : WindowTree → WindowTree → Bool
  | .node w p h a b, .node w' p' h' a' b' =>
    match w, w' with
    | some x, some y =>
      decide (a = .null) && decide (b = .null) && decide (a' = .null) && decide (b' = .null) &&
        decide (y.layout_plugin_name = some x.buffer.plugin_name) &&
        decide (y.layout_buffer_name = some x.buffer.name)
    | none, none =>
      decide (p' = p) && decide (h' ≠ 0 ↔ h ≠ 0) &&
        WindowTree.restores a a' && WindowTree.restores b b'
    | _, _ => false
  | _, _ => false

/-- The window held by the node of the live tree at the end of a path from
the root (`false` is `child1`, `true` is `child2`). -/
def WindowTree.windowAt : WindowTree → List Bool → Option GuiWindow
  | .null, _ => none
  | .node w _ _ _ _, [] => w
  | .node _ _ _ c1 _, false :: rest => c1.windowAt rest
  | .node _ _ _ _ c2, true :: rest => c2.windowAt rest

/-- The leaf (`split_pct == 0`) of the stored tree at the end of a path from
the root that goes through nodes with `split_pct != 0` only: these are the
leaves that `gui_layout_window_apply_tree` visits. The result is the
`internal_id`, `plugin_name` and `buffer_name` of the leaf. -/
def LayoutWindow.visitedLeaf :
    LayoutWindow → List Bool → Option (Int × Option String × Option String)
  | .null, _ => none
  | .node id pct _ c1 c2 pn bn, path =>
    if pct ≠ 0 then
      match path with
      | [] => none
      | false :: rest => c1.visitedLeaf rest
      | true :: rest => c2.visitedLeaf rest
    else
      match path with
      | [] => some (id, pn, bn)
      | _ :: _ => none

/-! ## Reset of the layout of windows -/

/-- One turn of the loop of `gui_layout_window_reset`: each of the two
intended names of the window, when there is one, is freed and set to `NULL`. -/
def resetWindow (ptr_win : GuiWindow) : GuiWindow :=
  let ptr_win1 : GuiWindow :=
    match ptr_win.layout_plugin_name with
    | some _ => { ptr_win with layout_plugin_name := none }
    | none => ptr_win
  match ptr_win1.layout_buffer_name with
  | some _ => { ptr_win1 with layout_buffer_name := none }
  | none => ptr_win1

/-- The live tree in which every window is changed by `f`. -/
def WindowTree.mapWindows (f : GuiWindow → GuiWindow) : WindowTree → WindowTree
  | .null => .null
  | .node w p h c1 c2 => .node (w.map f) p h (c1.mapWindows f) (c2.mapWindows f)

/-- The function `gui_layout_window_reset` on the memory and the live screen: the stored
tree is removed and the loop over `gui_windows` clears the intended names of
every live window. -/
def Heap.gui_layout_window_reset (st : LayoutWindowStore) (g : Gui) : LayoutWindowStore × Gui :=
  (Heap.gui_layout_window_remove_all st,
   { g with gui_windows_tree := g.gui_windows_tree.mapWindows resetWindow })

/-! ## The two reconciliation passes -/

/-- The list of windows after a bind, the bind being the setting of the
buffer displayed by the window at the address given. -/
def bindWindow (ws : List GuiWindow) (b : Nat × GuiBuffer) : List GuiWindow :=
  ws.map (fun w => if w.id = b.1 then { w with buffer := b.2 } else w)

/-- The first buffer of the live list whose plugin name and name are the
intended names of the window, if the window has both and there is one. -/
def GuiWindow.firstBuffer (w : GuiWindow) (bufs : List GuiBuffer) : Option GuiBuffer :=
  match w.layout_plugin_name, w.layout_buffer_name with
  | some pn, some bn => bufs.find? (fun b => decide (pn = b.plugin_name) && decide (bn = b.name))
  | _, _ => none

/-- The buffer `b` when its plugin name and name are the intended names of
the window. -/
def GuiWindow.bufferIf (w : GuiWindow) (b : GuiBuffer) : Option GuiBuffer :=
  match w.layout_plugin_name, w.layout_buffer_name with
  | some pn, some bn => if pn = b.plugin_name ∧ bn = b.name then some b else none
  | _, _ => none

/-- The window displaying the buffer given, if one is given. -/
def GuiWindow.showing (w : GuiWindow) (b : Option GuiBuffer) : GuiWindow :=
  match b with
  | some x => { w with buffer := x }
  | none => w

/-! ## The requests of a replay -/

/-- Number of leaves that a replay of the stored tree visits: the nodes with
`split_pct == 0` reached through nodes with `split_pct != 0` only. -/
def LayoutWindow.visitedLeaves : LayoutWindow → Nat
  | .null => 0
  | .node _ pct _ c1 c2 _ _ =>
    if pct ≠ 0 then c2.visitedLeaves + c1.visitedLeaves else 1

/-- The requests of a replay as the specification words them, for the stored
tree replayed on the region `active` when `next` is the address of the next
region created: for a split node, the split of the active region (horizontal
when `split_horiz` is not 0) at the percentage of the node, then the requests
of `child2` on the new region, then the switch back to the region that was
active, then the requests of `child1` on it; for a leaf, the tagging of the
active region with the two names of the leaf. -/
def layoutCalls : LayoutWindow → Nat → Nat → List WindowCall
  | .null, _, _ => []
  | .node _ pct horiz c1 c2 pn bn, active, next =>
    if pct ≠ 0 then
      (if horiz ≠ 0 then WindowCall.split_horizontal active pct
        else WindowCall.split_vertical active pct) ::
      (layoutCalls c2 next (next + 1) ++
        WindowCall.switch active :: layoutCalls c1 active (next + 1 + c2.visitedSplits))
    else
      [WindowCall.set_layout_plugin_name active pn, WindowCall.set_layout_buffer_name active bn]

/-- The call is a split request. -/
def WindowCall.isSplit : WindowCall → Bool
  | .split_horizontal _ _ => true
  | .split_vertical _ _ => true
  | _ => false

/-- The call is a switch of the active region. -/
def WindowCall.isSwitch : WindowCall → Bool
  | .switch _ => true
  | _ => false

/-- The call sets the intended plugin name of a region. -/
def WindowCall.isSetPluginName : WindowCall → Bool
  | .set_layout_plugin_name _ _ => true
  | _ => false

/-- The call sets the intended buffer name of a region. -/
def WindowCall.isSetBufferName : WindowCall → Bool
  | .set_layout_buffer_name _ _ => true
  | _ => false

/-! ## A concrete screen

The screen of the example of the specification: a horizontal split at 50 with
the window showing `core/status` as first side and, as second side, a vertical
split at 30 of the windows showing `irc/#a` and `irc/#b`. -/

/-- A live buffer with the given plugin name, name and number. -/
def mkBuffer (plugin_name name : String) (number : Int) : GuiBuffer :=
  { plugin_name := plugin_name, name := name, number := number,
    layout_number := 0, layout_applied := 0 }

/-- A live window at address `id` showing `buffer`, with no intended buffer. -/
def mkWindow (id : Nat) (buffer : GuiBuffer) : GuiWindow :=
  { id := id, buffer := buffer, layout_plugin_name := none, layout_buffer_name := none }

/-- The live tree of the example. -/
def exampleTree : WindowTree :=
  .node none 50 1
    (.leaf (mkWindow 1 (mkBuffer "core" "status" 1)))
    (.node none 30 0
      (.leaf (mkWindow 2 (mkBuffer "irc" "#a" 2)))
      (.leaf (mkWindow 3 (mkBuffer "irc" "#b" 3))))

/-- Some previous content of the global variables. -/
def exampleGlobals : LayoutGlobals :=
  { gui_layout_windows := .node 7 0 0 .null .null (some "old") (some "tree"),
    gui_layout_internal_id := 12,
    gui_layout_internal_id_current_window := 4 }

/-- A live screen before a layout is applied: two windows with intended
names left by a previous layout, the second one current. -/
def exampleGui : Gui :=
  { gui_windows_tree :=
      .node none 40 0
        (.leaf { id := 10, buffer := mkBuffer "core" "status" 1,
                 layout_plugin_name := some "irc", layout_buffer_name := some "#old" })
        (.leaf (mkWindow 11 (mkBuffer "irc" "#b" 3))),
    gui_current_window := 11,
    gui_buffers := [mkBuffer "core" "status" 1, mkBuffer "irc" "#a" 2, mkBuffer "irc" "#b" 3],
    gui_layout_ptr_current_window := some 10,
    next_window := 12 }

/-- The stored tree of the example: what `gui_layout_window_save` stores for
`exampleTree`. -/
def exampleLayout : LayoutWindow :=
  .node 1 50 1
    (.node 2 0 0 .null .null (some "core") (some "status"))
    (.node 3 30 0
      (.node 4 0 0 .null .null (some "irc") (some "#a"))
      (.node 5 0 0 .null .null (some "irc") (some "#b")) none none) none none

/-- Live buffers of the example of the specification. -/
def exampleBuffers : List GuiBuffer :=
  [mkBuffer "irc" "#test" 1, mkBuffer "irc" "#dev" 2]

/-- A previous content of the buffer layout store. -/
def exampleStore : List LayoutBuffer :=
  [{ plugin_name := "core", buffer_name := "weechat", number := 1 },
   { plugin_name := "irc", buffer_name := "#Test", number := 7 },
   { plugin_name := "irc", buffer_name := "#test", number := 3 }]

/-- The live list of the example after the two buffers have been exchanged
by hand: `#dev` is number 1 and `#test` number 2. -/
def exchangedBuffers : List GuiBuffer :=
  [mkBuffer "irc" "#dev" 1, mkBuffer "irc" "#test" 2]

/-- Two live buffers whose names differ in letter case only. -/
def caseBuffers : List GuiBuffer :=
  [mkBuffer "irc" "#a" 1, mkBuffer "irc" "#A" 2]

/-- The state in which `gui_layout_buffer_apply` enters its loop: the flag
`layout_applied` is reset on all buffers. -/
def applyStart (gui_buffers : List GuiBuffer) : ApplyState :=
  { gui_buffers := gui_buffers.map (fun b => { b with layout_applied := 0 }),
    moves := [], processed := [] }

/-- Four live buffers numbered 1 to 4, as they are when the layout is saved. -/
def savedFour : List GuiBuffer :=
  [mkBuffer "irc" "#a" 1, mkBuffer "irc" "#b" 2, mkBuffer "irc" "#c" 3, mkBuffer "irc" "#d" 4]

/-- The same four buffers in another order, numbered by their position. -/
def liveFour : List GuiBuffer :=
  [mkBuffer "irc" "#c" 1, mkBuffer "irc" "#d" 2, mkBuffer "irc" "#b" 3, mkBuffer "irc" "#a" 4]

/-- The name and number of each buffer of a list. -/
def namesAndNumbers (l : List GuiBuffer) : List (String × Int) :=
  l.map (fun b => (b.name, b.number))

/-- The name of the buffer and the number asked, for each request of a list. -/
def requestedMoves (l : List (GuiBuffer × Int)) : List (String × Int) :=
  l.map (fun m => (m.1.name, m.2))

/-- The live buffer `b` is on its target: the number found for it in the
store is not positive (no entry, or an entry without a usable number) or is
its live number. -/
def onTarget (layout_buffers : List LayoutBuffer) (b : GuiBuffer) : Prop :=
  ¬ (0 < gui_layout_buffer_get_number layout_buffers b.plugin_name b.name ∧
      gui_layout_buffer_get_number layout_buffers b.plugin_name b.name ≠ b.number)

instance (layout_buffers : List LayoutBuffer) (b : GuiBuffer) :
    Decidable (onTarget layout_buffers b) :=
  inferInstanceAs (Decidable (¬ _))

/-- The buffer `b` once processed by `gui_layout_buffer_apply`: marked, with
the number found in the store as `layout_number`. -/
def markApplied (layout_buffers : List LayoutBuffer) (b : GuiBuffer) : GuiBuffer :=
  { b with
    layout_applied := 1,
    layout_number := gui_layout_buffer_get_number layout_buffers b.plugin_name b.name }

/-- Live windows with intended names: one waiting for `irc/#a`, one without
intended names, one waiting for `IRC/#a`, one waiting for `irc/#a` again. -/
def exampleWindows : List GuiWindow :=
  [{ id := 1, buffer := mkBuffer "core" "weechat" 1,
     layout_plugin_name := some "irc", layout_buffer_name := some "#a" },
   mkWindow 2 (mkBuffer "core" "weechat" 1),
   { id := 3, buffer := mkBuffer "core" "weechat" 1,
     layout_plugin_name := some "IRC", layout_buffer_name := some "#a" },
   { id := 4, buffer := mkBuffer "core" "weechat" 1,
     layout_plugin_name := some "irc", layout_buffer_name := some "#a" }]

/-- A screen of one window that waits for `irc/#a`, with two live buffers
that both have the plugin name `irc` and the name `#a`. -/
def twinGui : Gui :=
  { gui_windows_tree :=
      .leaf { id := 1, buffer := mkBuffer "core" "weechat" 1,
              layout_plugin_name := some "irc", layout_buffer_name := some "#a" },
    gui_current_window := 1,
    gui_buffers := [mkBuffer "core" "weechat" 1, mkBuffer "irc" "#a" 2, mkBuffer "irc" "#a" 3],
    gui_layout_ptr_current_window := none,
    next_window := 2 }

/-- A screen of four windows that all display `core/status`: the window at
address 10 waits for `irc/#gone`, which is no live buffer, the windows at 12
and 14 wait for `irc/#a` and the window at 13 waits for `irc/#b`. -/
def waitingGui : Gui :=
  { gui_windows_tree :=
      .node none 50 1
        (.leaf { id := 10, buffer := mkBuffer "core" "status" 1,
                 layout_plugin_name := some "irc", layout_buffer_name := some "#gone" })
        (.node none 30 0
          (.leaf { id := 12, buffer := mkBuffer "core" "status" 1,
                   layout_plugin_name := some "irc", layout_buffer_name := some "#a" })
          (.node none 60 1
            (.leaf { id := 13, buffer := mkBuffer "core" "status" 1,
                     layout_plugin_name := some "irc", layout_buffer_name := some "#b" })
            (.leaf { id := 14, buffer := mkBuffer "core" "status" 1,
                     layout_plugin_name := some "irc", layout_buffer_name := some "#a" }))),
    gui_current_window := 10,
    gui_buffers := [mkBuffer "core" "status" 1, mkBuffer "irc" "#b" 2, mkBuffer "irc" "#a" 3],
    gui_layout_ptr_current_window := none,
    next_window := 15 }

/-- The store in memory after the windows of the example have been saved,
every allocation successful: the root is at address 0, its children at 1 and
2, the children of the second one at 3 and 4. -/
def exampleWindowStore : LayoutWindowStore :=
  (Heap.gui_layout_window_save emptyWindowStore (fun _ => true) exampleTree 3).1

/-! # Theorems -/

/-! ## Properties of the saved tree -/

theorem save_tree_null_iff (cur : Nat) (t : WindowTree) (st : Int × Int) :
    (gui_layout_window_save_tree cur t st).1 = .null ↔ t = .null := by
  cases t with
  | null => simp [gui_layout_window_save_tree]
  | node w p h c1 c2 =>
    obtain ⟨i, c⟩ := st
    simp only [gui_layout_window_save_tree, reduceCtorEq, iff_false]
    cases w <;>
    · simp only [gui_layout_window_add]
      generalize (gui_layout_window_save_tree cur c1 _) = r1
      generalize (gui_layout_window_save_tree cur c2 _) = r2
      rcases r1 with ⟨a, s1⟩
      rcases r2 with ⟨b, s2⟩
      cases a <;> cases b <;> simp [gui_layout_window_link]

/-- The node built for a live node, with the linking of the children made
explicit: when `child1` is absent the node of `child2` takes the first slot. -/
theorem save_tree_node (cur : Nat) (w : Option GuiWindow) (p h : Int)
    (c1 c2 : WindowTree) (i c : Int) :
    gui_layout_window_save_tree cur (.node w p h c1 c2) (i, c) =
      let c' := match w with
        | some x => if x.id = cur then i else c
        | none => c
      let f := savedFields w p h
      let r1 := gui_layout_window_save_tree cur c1 (i + 1, c')
      let r2 := gui_layout_window_save_tree cur c2 r1.2
      (if r1.1 = .null then .node i f.1 f.2.1 r2.1 .null f.2.2.1 f.2.2.2
       else .node i f.1 f.2.1 r1.1 r2.1 f.2.2.1 f.2.2.2, r2.2) := by
  simp only [gui_layout_window_save_tree]
  cases w <;>
  · simp only [gui_layout_window_add, savedFields]
    generalize (gui_layout_window_save_tree cur c1 _) = r1
    generalize (gui_layout_window_save_tree cur c2 _) = r2
    rcases r1 with ⟨a, s1⟩
    rcases r2 with ⟨b, s2⟩
    cases a <;> cases b <;> simp [gui_layout_window_link]

theorem range_map_cons (i : Int) (n : Nat) :
    (List.range (n + 1)).map (fun (k : Nat) => i + (k : Int)) =
      i :: (List.range n).map (fun (k : Nat) => (i + 1) + (k : Int)) := by
  rw [List.range_succ_eq_map]
  simp only [List.map_cons, List.map_map, Nat.cast_zero, add_zero, List.cons.injEq, true_and]
  apply List.map_congr_left
  intro k _
  simp only [Function.comp, Nat.succ_eq_add_one, Nat.cast_add, Nat.cast_one]
  ring

theorem range_map_append (i : Int) (m n : Nat) :
    (List.range (m + n)).map (fun (k : Nat) => i + (k : Int)) =
      (List.range m).map (fun (k : Nat) => i + (k : Int)) ++
        (List.range n).map (fun (k : Nat) => (i + m) + (k : Int)) := by
  rw [List.range_add, List.map_append, List.map_map]
  congr 1
  apply List.map_congr_left
  intro k _
  simp only [Function.comp, Nat.cast_add]
  ring

/-- The counter after the walk, and the ids of the built nodes in preorder. -/
theorem save_tree_ids (cur : Nat) (t : WindowTree) (i c : Int) :
    (gui_layout_window_save_tree cur t (i, c)).2.1 = i + ((t.leafRegions + t.splitNodes : Nat) : Int) ∧
    (gui_layout_window_save_tree cur t (i, c)).1.preorderIds =
      (List.range (t.leafRegions + t.splitNodes)).map (fun (k : Nat) => i + (k : Int)) := by
  induction t generalizing i c with
  | null =>
    simp [gui_layout_window_save_tree, WindowTree.leafRegions, WindowTree.splitNodes,
      LayoutWindow.preorderIds]
  | node w p h c1 c2 ih1 ih2 =>
    rw [save_tree_node]
    simp only
    generalize hc : (match w with
      | some x => if x.id = cur then i else c
      | none => c) = c'
    have h1 := ih1 (i + 1) c'
    generalize hr1 : gui_layout_window_save_tree cur c1 (i + 1, c') = r1 at h1
    obtain ⟨a, j, d⟩ := r1
    have h2 := ih2 j d
    generalize hr2 : gui_layout_window_save_tree cur c2 (j, d) = r2 at h2
    obtain ⟨b, k, e⟩ := r2
    simp only at h1 h2 ⊢
    have hN : (WindowTree.node w p h c1 c2).leafRegions + (WindowTree.node w p h c1 c2).splitNodes
        = (c1.leafRegions + c1.splitNodes) + (c2.leafRegions + c2.splitNodes) + 1 := by
      cases w <;> simp [WindowTree.leafRegions, WindowTree.splitNodes] <;> omega
    rw [hN]
    constructor
    · rw [h2.1, h1.1]; push_cast; ring
    · have hids : a.preorderIds ++ b.preorderIds =
          (List.range ((c1.leafRegions + c1.splitNodes) + (c2.leafRegions + c2.splitNodes))).map
            (fun (k : Nat) => (i + 1) + (k : Int)) := by
        rw [range_map_append, h1.2, h2.2, h1.1]
      rw [range_map_cons, ← hids]
      by_cases ha : a = .null
      · subst ha
        simp [LayoutWindow.preorderIds]
      · simp [ha, LayoutWindow.preorderIds]

/-- The number of named and unnamed nodes built by the walk. -/
theorem save_tree_named (cur : Nat) (t : WindowTree) (i c : Int) :
    (gui_layout_window_save_tree cur t (i, c)).1.namedNodes = t.leafRegions ∧
    (gui_layout_window_save_tree cur t (i, c)).1.unnamedNodes = t.splitNodes := by
  induction t generalizing i c with
  | null =>
    simp [gui_layout_window_save_tree, WindowTree.leafRegions, WindowTree.splitNodes,
      LayoutWindow.namedNodes, LayoutWindow.unnamedNodes]
  | node w p h c1 c2 ih1 ih2 =>
    rw [save_tree_node]
    simp only
    generalize hc : (match w with
      | some x => if x.id = cur then i else c
      | none => c) = c'
    have h1 := ih1 (i + 1) c'
    generalize hr1 : gui_layout_window_save_tree cur c1 (i + 1, c') = r1 at h1
    obtain ⟨a, j, d⟩ := r1
    have h2 := ih2 j d
    generalize hr2 : gui_layout_window_save_tree cur c2 (j, d) = r2 at h2
    obtain ⟨b, k, e⟩ := r2
    simp only at h1 h2 ⊢
    by_cases ha : a = .null
    · subst ha
      cases w <;>
        simp [savedFields, LayoutWindow.namedNodes, LayoutWindow.unnamedNodes,
          WindowTree.leafRegions, WindowTree.splitNodes, ← h1.1, ← h1.2, ← h2.1, ← h2.2]
    · cases w <;>
        simp [ha, savedFields, LayoutWindow.namedNodes, LayoutWindow.unnamedNodes,
          WindowTree.leafRegions, WindowTree.splitNodes, ← h1.1, ← h1.2, ← h2.1, ← h2.2]

/-- The number of leaves and internal nodes, by `split_pct`, built by the walk
when the live splits have a percentage different from 0. -/
theorem save_tree_leaves (cur : Nat) (t : WindowTree) (i c : Int)
    (hz : t.splitsNonzero = true) :
    (gui_layout_window_save_tree cur t (i, c)).1.leaves = t.leafRegions ∧
    (gui_layout_window_save_tree cur t (i, c)).1.internalNodes = t.splitNodes := by
  induction t generalizing i c with
  | null =>
    simp [gui_layout_window_save_tree, WindowTree.leafRegions, WindowTree.splitNodes,
      LayoutWindow.leaves, LayoutWindow.internalNodes]
  | node w p h c1 c2 ih1 ih2 =>
    rw [save_tree_node]
    simp only
    simp only [WindowTree.splitsNonzero, Bool.and_eq_true, Bool.or_eq_true,
      decide_eq_true_eq] at hz
    obtain ⟨⟨hw, hz1⟩, hz2⟩ := hz
    generalize hc : (match w with
      | some x => if x.id = cur then i else c
      | none => c) = c'
    have h1 := ih1 (i + 1) c' hz1
    generalize hr1 : gui_layout_window_save_tree cur c1 (i + 1, c') = r1 at h1
    obtain ⟨a, j, d⟩ := r1
    have h2 := ih2 j d hz2
    generalize hr2 : gui_layout_window_save_tree cur c2 (j, d) = r2 at h2
    obtain ⟨b, k, e⟩ := r2
    simp only at h1 h2 ⊢
    by_cases ha : a = .null
    · subst ha
      cases w with
      | some x =>
        simp [savedFields, LayoutWindow.leaves, LayoutWindow.internalNodes,
          WindowTree.leafRegions, WindowTree.splitNodes, ← h1.1, ← h1.2, ← h2.1, ← h2.2]
      | none =>
        have hp : p ≠ 0 := by simpa using hw
        simp [hp, savedFields, LayoutWindow.leaves, LayoutWindow.internalNodes,
          WindowTree.leafRegions, WindowTree.splitNodes, ← h1.1, ← h1.2, ← h2.1, ← h2.2]
    · cases w with
      | some x =>
        simp [ha, savedFields, LayoutWindow.leaves, LayoutWindow.internalNodes,
          WindowTree.leafRegions, WindowTree.splitNodes, ← h1.1, ← h1.2, ← h2.1, ← h2.2]
      | none =>
        have hp : p ≠ 0 := by simpa using hw
        simp [ha, hp, savedFields, LayoutWindow.leaves, LayoutWindow.internalNodes,
          WindowTree.leafRegions, WindowTree.splitNodes, ← h1.1, ← h1.2, ← h2.1, ← h2.2]

/-- C1: for every live tree with N leaf regions (nodes holding a window) and M
split nodes, the tree stored by `gui_layout_window_save` has N nodes carrying
a buffer identity and M carrying none, its ids listed in preorder are exactly
1, 2, ..., N+M, and when the live splits have a percentage different from 0
it has N leaves (`split_pct == 0`) and M internal nodes (`split_pct != 0`). -/
theorem save_counts_and_preorder_ids (globals : LayoutGlobals) (t : WindowTree) (cur : Nat) :
    ((gui_layout_window_save globals t cur).1.gui_layout_windows.namedNodes = t.leafRegions ∧
     (gui_layout_window_save globals t cur).1.gui_layout_windows.unnamedNodes = t.splitNodes) ∧
    (gui_layout_window_save globals t cur).1.gui_layout_windows.preorderIds =
      (List.range' 1 (t.leafRegions + t.splitNodes)).map (fun (k : Nat) => (k : Int)) ∧
    (t.splitsNonzero = true →
      (gui_layout_window_save globals t cur).1.gui_layout_windows.leaves = t.leafRegions ∧
      (gui_layout_window_save globals t cur).1.gui_layout_windows.internalNodes = t.splitNodes) := by
  refine ⟨?_, ?_, ?_⟩
  · exact save_tree_named cur t 1 (-1)
  · simp only [gui_layout_window_save]
    rw [(save_tree_ids cur t 1 (-1)).2, List.range'_eq_map_range, List.map_map]
    apply List.map_congr_left
    intro k _
    simp
  · intro hz
    exact save_tree_leaves cur t 1 (-1) hz

/-- C1 on the example screen: 3 leaves, 2 internal nodes, ids 1 to 5. -/
theorem save_counts_and_preorder_ids_witness :
    exampleTree.splitsNonzero = true ∧
    (gui_layout_window_save exampleGlobals exampleTree 3).1.gui_layout_windows.leaves = 3 ∧
    (gui_layout_window_save exampleGlobals exampleTree 3).1.gui_layout_windows.internalNodes = 2 ∧
    (gui_layout_window_save exampleGlobals exampleTree 3).1.gui_layout_windows.preorderIds =
      [1, 2, 3, 4, 5] :=
  ⟨by decide,
   ((save_counts_and_preorder_ids exampleGlobals exampleTree 3).2.2 (by decide)).1,
   ((save_counts_and_preorder_ids exampleGlobals exampleTree 3).2.2 (by decide)).2,
   (save_counts_and_preorder_ids exampleGlobals exampleTree 3).2.1⟩

theorem save_tree_mirrors (cur : Nat) (t : WindowTree) (i c : Int)
    (ht : t = .null ∨ t.isSplitTree = true) :
    LayoutWindow.mirrors t (gui_layout_window_save_tree cur t (i, c)).1 = true := by
  induction t generalizing i c with
  | null => simp [gui_layout_window_save_tree, LayoutWindow.mirrors]
  | node w p h c1 c2 ih1 ih2 =>
    rcases ht with ht | ht
    · cases ht
    rw [save_tree_node]
    simp only
    generalize hc : (match w with
      | some x => if x.id = cur then i else c
      | none => c) = c'
    cases w with
    | some x =>
      simp only [WindowTree.isSplitTree, Bool.and_eq_true, decide_eq_true_eq] at ht
      obtain ⟨e1, e2⟩ := ht
      subst e1 e2
      simp [gui_layout_window_save_tree, savedFields, LayoutWindow.mirrors]
    | none =>
      simp only [WindowTree.isSplitTree, Bool.and_eq_true] at ht
      have h1 := ih1 (i + 1) c' (Or.inr ht.1)
      have n1 : (gui_layout_window_save_tree cur c1 (i + 1, c')).1 ≠ .null := by
        rw [Ne, save_tree_null_iff]
        intro e
        rw [e] at ht
        simp [WindowTree.isSplitTree] at ht
      have h2 := ih2 (gui_layout_window_save_tree cur c1 (i + 1, c')).2.1
        (gui_layout_window_save_tree cur c1 (i + 1, c')).2.2 (Or.inr ht.2)
      simp [n1, savedFields, LayoutWindow.mirrors, h1, h2]

/-- C2: for every live split tree (leaf regions without children, split nodes
with two children) the tree stored by `gui_layout_window_save` mirrors it:
same shape with `child1` under `child1` and `child2` under `child2`, the
percentage and orientation of each split and no name on its node, percentage
0 and the plugin name and name of the displayed buffer on the node of each
leaf region. -/
theorem save_mirrors_live_tree (globals : LayoutGlobals) (t : WindowTree) (cur : Nat)
    (ht : t.isSplitTree = true) :
    LayoutWindow.mirrors t (gui_layout_window_save globals t cur).1.gui_layout_windows = true :=
  save_tree_mirrors cur t 1 (-1) (Or.inr ht)

/-- C2 on the example screen, with the stored tree written out. -/
theorem save_mirrors_live_tree_witness :
    exampleTree.isSplitTree = true ∧
    (gui_layout_window_save exampleGlobals exampleTree 3).1.gui_layout_windows =
      .node 1 50 1
        (.node 2 0 0 .null .null (some "core") (some "status"))
        (.node 3 30 0
          (.node 4 0 0 .null .null (some "irc") (some "#a"))
          (.node 5 0 0 .null .null (some "irc") (some "#b")) none none) none none ∧
    LayoutWindow.mirrors exampleTree
      (gui_layout_window_save exampleGlobals exampleTree 3).1.gui_layout_windows = true :=
  ⟨by decide, by decide, save_mirrors_live_tree exampleGlobals exampleTree 3 (by decide)⟩

theorem preorder_length (t : WindowTree) :
    t.preorder.length = t.leafRegions + t.splitNodes := by
  induction t with
  | null => simp [WindowTree.preorder, WindowTree.leafRegions, WindowTree.splitNodes]
  | node w p h c1 c2 ih1 ih2 =>
    cases w <;>
      simp [WindowTree.preorder, WindowTree.leafRegions, WindowTree.splitNodes, ih1, ih2] <;>
      omega

/-- The two counters after the walk are those of a left-to-right pass over
the preorder list of the live nodes. -/
theorem save_tree_counters (cur : Nat) (t : WindowTree) (st : Int × Int) :
    (gui_layout_window_save_tree cur t st).2 = t.preorder.foldl (saveStep cur) st := by
  induction t generalizing st with
  | null => simp [gui_layout_window_save_tree, WindowTree.preorder]
  | node w p h c1 c2 ih1 ih2 =>
    obtain ⟨i, c⟩ := st
    rw [save_tree_node]
    simp only [WindowTree.preorder, List.foldl_cons, List.foldl_append]
    rw [ih2, ih1]
    rfl

/-- The nodes built by the walk, in preorder: the node at position `k` has id
`i + k` and the fields of the live node at position `k`. -/
theorem save_tree_preorder (cur : Nat) (t : WindowTree) (i c : Int) :
    (gui_layout_window_save_tree cur t (i, c)).1.preorder =
      t.preorder.mapIdx (fun k n => (i + (k : Int), savedFields n.1 n.2.1 n.2.2)) := by
  induction t generalizing i c with
  | null => simp [gui_layout_window_save_tree, WindowTree.preorder, LayoutWindow.preorder]
  | node w p h c1 c2 ih1 ih2 =>
    rw [save_tree_node]
    simp only
    generalize hc : (match w with
      | some x => if x.id = cur then i else c
      | none => c) = c'
    have h1 := ih1 (i + 1) c'
    have hj := (save_tree_ids cur c1 (i + 1) c').1
    generalize hr1 : gui_layout_window_save_tree cur c1 (i + 1, c') = r1 at h1 hj
    obtain ⟨a, j, d⟩ := r1
    have h2 := ih2 j d
    generalize hr2 : gui_layout_window_save_tree cur c2 (j, d) = r2 at h2
    obtain ⟨b, k, e⟩ := r2
    simp only at h1 h2 hj ⊢
    have hab : a.preorder ++ b.preorder =
        (c1.preorder ++ c2.preorder).mapIdx
          (fun k n => (i + ((k + 1 : Nat) : Int), savedFields n.1 n.2.1 n.2.2)) := by
      rw [List.mapIdx_append, h1, h2, hj, preorder_length]
      congr 1
      · apply List.ext_getElem? ; intro m
        simp only [List.getElem?_mapIdx]
        cases c1.preorder[m]? <;> simp
        ring
      · apply List.ext_getElem? ; intro m
        simp only [List.getElem?_mapIdx]
        cases c2.preorder[m]? <;> simp
        ring
    simp only [WindowTree.preorder, List.mapIdx_cons, Nat.cast_zero, add_zero]
    rw [← hab]
    by_cases ha : a = .null
    · subst ha
      simp [LayoutWindow.preorder]
    · simp [ha, LayoutWindow.preorder]

/-- A pass of `saveStep` over a list of live nodes: the id counter advances by
the length, the id of the current window is kept when no node holds the
current window and is the id given to the last node that holds it. -/
theorem foldl_saveStep (cur : Nat) (l : List (Option GuiWindow × Int × Int)) (i c : Int) :
    ((∀ n ∈ l, ∀ w, n.1 = some w → w.id ≠ cur) → (l.foldl (saveStep cur) (i, c)).2 = c) ∧
    (∀ (k : Nat) (w : GuiWindow) (p h : Int), l[k]? = some (some w, p, h) → w.id = cur →
      (∀ (j : Nat) (w' : GuiWindow) (p' h' : Int), k < j → l[j]? = some (some w', p', h') →
        w'.id ≠ cur) →
      (l.foldl (saveStep cur) (i, c)).2 = i + (k : Int)) := by
  induction l generalizing i c with
  | nil => simp
  | cons n l ih =>
    obtain ⟨ih1, ih2⟩ := ih (i + 1) (saveStep cur (i, c) n).2
    have hs : saveStep cur (i, c) n = (i + 1, (saveStep cur (i, c) n).2) := rfl
    constructor
    · intro hno
      rw [List.foldl_cons, hs, ih1 (fun m hm => hno m (List.mem_cons_of_mem _ hm))]
      obtain ⟨w, p, h⟩ := n
      cases w with
      | none => rfl
      | some x =>
        have := hno (some x, p, h) (List.mem_cons_self _ _) x rfl
        simp [saveStep, this]
    · intro k w p h hk hw hlast
      rw [List.foldl_cons, hs]
      cases k with
      | zero =>
        simp only [List.getElem?_cons_zero, Option.some.injEq] at hk
        subst hk
        rw [ih1]
        · simp [saveStep, hw]
        · intro m hm w' hw'
          obtain ⟨j, hj⟩ := List.getElem?_of_mem hm
          obtain ⟨mw, mp, mh⟩ := m
          simp only at hw'
          subst hw'
          exact hlast (j + 1) w' mp mh (Nat.succ_pos j) (by simpa using hj)
      | succ k =>
        rw [ih2 k w p h (by simpa using hk) hw]
        · push_cast; ring
        · intro j w' p' h' hkj hj
          exact hlast (j + 1) w' p' h' (by omega) (by simpa using hj)

/-- C4: `gui_layout_window_save` returns -1 when no node of the live tree
holds the current window; when the leaf region at position `k` of the preorder
walk is the current window (and no later node holds the same window), it
returns the `internal_id` of the stored node at that position, which is the
leaf stored for that region. -/
theorem save_returns_current_leaf_id (globals : LayoutGlobals) (t : WindowTree) (cur : Nat) :
    ((∀ n ∈ t.preorder, ∀ w, n.1 = some w → w.id ≠ cur) →
      (gui_layout_window_save globals t cur).2 = -1) ∧
    (∀ (k : Nat) (w : GuiWindow) (p h : Int), t.preorder[k]? = some (some w, p, h) →
      w.id = cur →
      (∀ (j : Nat) (w' : GuiWindow) (p' h' : Int), k < j →
        t.preorder[j]? = some (some w', p', h') → w'.id ≠ cur) →
      (gui_layout_window_save globals t cur).1.gui_layout_windows.preorder[k]? =
        some ((gui_layout_window_save globals t cur).2, 0, 0,
          some w.buffer.plugin_name, some w.buffer.name)) := by
  simp only [gui_layout_window_save]
  rw [save_tree_counters, save_tree_preorder]
  obtain ⟨h1, h2⟩ := foldl_saveStep cur t.preorder 1 (-1)
  refine ⟨h1, ?_⟩
  intro k w p h hk hw hlast
  rw [h2 k w p h hk hw hlast]
  simp [List.getElem?_mapIdx, hk, savedFields]

/-- C4 on the example screen: with the window of `irc/#b` (address 3) current
the returned id is 5, the id of the stored leaf of `irc/#b`; with a current
window that is no leaf of the tree the returned id is -1. -/
theorem save_returns_current_leaf_id_witness :
    (gui_layout_window_save exampleGlobals exampleTree 3).2 = 5 ∧
    (gui_layout_window_save exampleGlobals exampleTree 3).1.gui_layout_windows.preorder[4]? =
      some (5, 0, 0, some "irc", some "#b") ∧
    (gui_layout_window_save exampleGlobals exampleTree 9).2 = -1 :=
  ⟨by decide,
   (save_returns_current_leaf_id exampleGlobals exampleTree 3).2 4
     (mkWindow 3 (mkBuffer "irc" "#b" 3)) 0 0 (by decide) (by decide)
     (by
       intro j w' p' h' hj hget
       have hlen : j < exampleTree.preorder.length := by
         by_contra hcon
         rw [List.getElem?_eq_none (by omega)] at hget
         cases hget
       have : exampleTree.preorder.length = 5 := by decide
       omega),
   (save_returns_current_leaf_id exampleGlobals exampleTree 9).1 (by decide)⟩

/-! ## Replacement of a window in the live tree -/

theorem replaceWindow_not_mem (f : GuiWindow → WindowTree) (t : WindowTree) (c : Nat)
    (hc : c ∉ t.windowIds) : t.replaceWindow f c = t := by
  induction t with
  | null => rfl
  | node w p h c1 c2 ih1 ih2 =>
    cases w with
    | none =>
      simp only [WindowTree.windowIds, List.nil_append, List.mem_append, not_or] at hc
      simp [WindowTree.replaceWindow, ih1 hc.1, ih2 hc.2]
    | some x =>
      simp only [WindowTree.windowIds, List.singleton_append, List.mem_cons, List.mem_append,
        not_or] at hc
      have hx : x.id ≠ c := fun e => hc.1 e.symm
      simp [WindowTree.replaceWindow, hx, ih1 hc.2.1, ih2 hc.2.2]

theorem replaceWindow_congr (f f' : GuiWindow → WindowTree) (t : WindowTree) (c : Nat)
    (hf : ∀ x, x.id = c → f x = f' x) : t.replaceWindow f c = t.replaceWindow f' c := by
  induction t with
  | null => rfl
  | node w p h c1 c2 ih1 ih2 =>
    cases w with
    | none => simp [WindowTree.replaceWindow, ih1, ih2]
    | some x =>
      by_cases hx : x.id = c
      · simp [WindowTree.replaceWindow, hx, hf x hx]
      · simp [WindowTree.replaceWindow, hx, ih1, ih2]

theorem replaceWindow_replaceWindow (f k : GuiWindow → WindowTree) (t : WindowTree)
    (c d : Nat) (hd : d ∈ t.windowIds → d = c) :
    (t.replaceWindow f c).replaceWindow k d =
      t.replaceWindow (fun x => (f x).replaceWindow k d) c := by
  induction t with
  | null => rfl
  | node w p h c1 c2 ih1 ih2 =>
    cases w with
    | none =>
      simp only [WindowTree.windowIds, List.nil_append, List.mem_append] at hd
      simp [WindowTree.replaceWindow, ih1 (fun m => hd (Or.inl m)), ih2 (fun m => hd (Or.inr m))]
    | some x =>
      simp only [WindowTree.windowIds, List.singleton_append, List.mem_cons,
        List.mem_append] at hd
      by_cases hx : x.id = c
      · simp [WindowTree.replaceWindow, hx]
      · have hxd : x.id ≠ d := by
          intro e
          exact hx (e.trans (hd (Or.inl e.symm)))
        simp [WindowTree.replaceWindow, hx, hxd, ih1 (fun m => hd (Or.inr (Or.inl m))),
          ih2 (fun m => hd (Or.inr (Or.inr m)))]

theorem windowIds_replaceWindow (f : GuiWindow → WindowTree) (t : WindowTree) (c n m : Nat)
    (ht : ∀ id ∈ t.windowIds, id < n) (hnm : n ≤ m)
    (hf : ∀ x, x.id = c → x.id < n → ∀ id ∈ (f x).windowIds, id < m) :
    ∀ id ∈ (t.replaceWindow f c).windowIds, id < m := by
  induction t with
  | null => simp [WindowTree.replaceWindow, WindowTree.windowIds]
  | node w p h c1 c2 ih1 ih2 =>
    cases w with
    | none =>
      simp only [WindowTree.windowIds, List.nil_append, List.mem_append] at ht
      intro id hid
      simp only [WindowTree.replaceWindow, WindowTree.windowIds, List.nil_append,
        List.mem_append] at hid
      rcases hid with hid | hid
      · exact ih1 (fun i hi => ht i (Or.inl hi)) id hid
      · exact ih2 (fun i hi => ht i (Or.inr hi)) id hid
    | some x =>
      simp only [WindowTree.windowIds, List.singleton_append, List.mem_cons,
        List.mem_append] at ht
      by_cases hx : x.id = c
      · simp only [WindowTree.replaceWindow, hx, if_true]
        exact hf x hx (ht x.id (Or.inl rfl))
      · intro id hid
        simp only [WindowTree.replaceWindow, hx, if_false, WindowTree.windowIds,
          List.singleton_append, List.mem_cons, List.mem_append] at hid
        rcases hid with hid | hid | hid
        · subst hid
          exact lt_of_lt_of_le (ht x.id (Or.inl rfl)) hnm
        · exact ih1 (fun i hi => ht i (Or.inr (Or.inl hi))) id hid
        · exact ih2 (fun i hi => ht i (Or.inr (Or.inr hi))) id hid

theorem flat_replaceWindow (f : GuiWindow → WindowTree) (t : WindowTree) (c : Nat)
    (ht : t.flat = true) (hf : ∀ x, (f x).flat = true) : (t.replaceWindow f c).flat = true := by
  induction t with
  | null => rfl
  | node w p h c1 c2 ih1 ih2 =>
    cases w with
    | none =>
      simp only [WindowTree.flat, Bool.and_eq_true] at ht
      simp [WindowTree.replaceWindow, WindowTree.flat, ih1 ht.1, ih2 ht.2]
    | some x =>
      by_cases hx : x.id = c
      · simp [WindowTree.replaceWindow, hx, hf x]
      · simp only [WindowTree.flat, Bool.and_eq_true, decide_eq_true_eq] at ht
        obtain ⟨⟨⟨hp, hh⟩, e1⟩, e2⟩ := ht
        subst e1 e2
        simp [WindowTree.replaceWindow, hx, WindowTree.flat, hp, hh]

theorem updateWindow_eq_replaceWindow (f : GuiWindow → GuiWindow) (t : WindowTree) (c : Nat)
    (ht : t.flat = true) :
    t.updateWindow f c = t.replaceWindow (fun x => .leaf (f x)) c := by
  induction t with
  | null => rfl
  | node w p h c1 c2 ih1 ih2 =>
    cases w with
    | none =>
      simp only [WindowTree.flat, Bool.and_eq_true] at ht
      simp [WindowTree.replaceWindow, WindowTree.updateWindow, ih1 ht.1, ih2 ht.2]
    | some x =>
      simp only [WindowTree.flat, Bool.and_eq_true, decide_eq_true_eq] at ht
      obtain ⟨⟨⟨hp, hh⟩, e1⟩, e2⟩ := ht
      subst e1 e2 hp hh
      by_cases hx : x.id = c
      · simp [WindowTree.replaceWindow, WindowTree.updateWindow, hx, WindowTree.leaf]
      · simp [WindowTree.replaceWindow, WindowTree.updateWindow, hx]

theorem replaceWindow_leaf (t : WindowTree) (c : Nat) (ht : t.flat = true) :
    t.replaceWindow (fun x => .leaf x) c = t := by
  rw [← updateWindow_eq_replaceWindow (fun x => x) t c ht]
  clear ht
  induction t with
  | null => rfl
  | node w p h c1 c2 ih1 ih2 =>
    cases w with
    | none => simp [WindowTree.updateWindow, ih1, ih2]
    | some x => simp [WindowTree.updateWindow, ih1, ih2]

theorem flat_replay (lw : LayoutWindow) (w : GuiWindow) (n : Nat) :
    (replay lw w n).flat = true := by
  induction lw generalizing w n with
  | null => simp [replay, WindowTree.leaf, WindowTree.flat]
  | node id pct horiz c1 c2 pn bn ih1 ih2 =>
    by_cases hp : pct = 0
    · simp [replay, hp, WindowTree.leaf, WindowTree.flat]
    · simp [replay, hp, WindowTree.flat, ih1, ih2]

theorem windowIds_replay (lw : LayoutWindow) (w : GuiWindow) (n : Nat) :
    ∀ id ∈ (replay lw w n).windowIds, id = w.id ∨ (n ≤ id ∧ id < n + lw.visitedSplits) := by
  induction lw generalizing w n with
  | null => simp [replay, WindowTree.leaf, WindowTree.windowIds]
  | node i pct horiz c1 c2 pn bn ih1 ih2 =>
    by_cases hp : pct = 0
    · simp [replay, hp, WindowTree.leaf, WindowTree.windowIds]
    · intro id hid
      simp only [replay, hp, ne_eq, not_false_eq_true, if_true, WindowTree.windowIds,
        List.nil_append, List.mem_append] at hid
      simp only [LayoutWindow.visitedSplits, hp, ne_eq, not_false_eq_true, if_true]
      rcases hid with hid | hid
      · rcases ih1 w _ id hid with e | ⟨h1, h2⟩
        · exact Or.inl e
        · right; omega
      · rcases ih2 (newWindow n w) _ id hid with e | ⟨h1, h2⟩
        · right
          simp only [newWindow] at e
          omega
        · right; omega

/-! ## The effect of a replay on the live screen -/

theorem replaceWindow_split_node (k : GuiWindow → WindowTree) (pct h : Int) (x : GuiWindow)
    (n d : Nat) (hx : x.id ≠ d) (hn : n = d) :
    (WindowTree.node none pct h (.leaf x) (.leaf (newWindow n x))).replaceWindow k d =
      .node none pct h (.leaf x) (k (newWindow n x)) := by
  simp [WindowTree.replaceWindow, WindowTree.leaf, hx, newWindow, hn]

/-- The effect of `gui_layout_window_apply_tree` on the live screen: the leaf
of the current window is replaced by the replayed subtree, windows are
created at consecutive addresses and the current window is the same at the
end. -/
theorem apply_tree_eq (fid : Int) (lw : LayoutWindow) (g : Gui)
    (hflat : g.gui_windows_tree.flat = true)
    (hids : ∀ id ∈ g.gui_windows_tree.windowIds, id < g.next_window) :
    gui_layout_window_apply_tree fid lw g =
      { g with
        gui_windows_tree :=
          g.gui_windows_tree.replaceWindow (fun x => replay lw x g.next_window)
            g.gui_current_window,
        next_window := g.next_window + lw.visitedSplits,
        gui_layout_ptr_current_window :=
          replayFocus fid lw g.gui_current_window g.next_window
            g.gui_layout_ptr_current_window } := by
  induction lw generalizing g with
  | null =>
    obtain ⟨t, c, bufs, ptr, n⟩ := g
    simp only at hflat
    simp only [gui_layout_window_apply_tree, replay, replayFocus, LayoutWindow.visitedSplits,
      add_zero]
    rw [replaceWindow_leaf t c hflat]
  | node id pct horiz c1 c2 pn bn ih1 ih2 =>
    obtain ⟨t, c, bufs, ptr, n⟩ := g
    simp only at hflat hids
    by_cases hp : pct = 0
    · subst hp
      simp only [gui_layout_window_apply_tree, ne_eq, not_true_eq_false, if_false,
        gui_window_set_layout_plugin_name, gui_window_set_layout_buffer_name, replay,
        replayFocus, LayoutWindow.visitedSplits, add_zero]
      have e1 : ∀ (f : GuiWindow → GuiWindow), t.updateWindow f c =
          t.replaceWindow (fun x => .leaf (f x)) c :=
        fun f => updateWindow_eq_replaceWindow f t c hflat
      have key : (t.updateWindow (fun x => { x with layout_plugin_name := pn }) c).updateWindow
            (fun x => { x with layout_buffer_name := bn }) c =
          t.replaceWindow
            (fun x => .leaf { x with layout_plugin_name := pn, layout_buffer_name := bn }) c := by
        rw [updateWindow_eq_replaceWindow _ _ _
          (by rw [e1]; exact flat_replaceWindow _ t c hflat (fun x => by
            simp [WindowTree.leaf, WindowTree.flat])), e1,
          replaceWindow_replaceWindow _ _ t c c (fun _ => rfl)]
        apply replaceWindow_congr
        intro x hx
        simp [WindowTree.replaceWindow, WindowTree.leaf, hx]
      by_cases hid : id = fid
      · simp only [hid, if_true, key]
      · simp only [hid, if_false, key]
    · have hsplit : (if horiz ≠ 0 then gui_window_split_horizontal ⟨t, c, bufs, ptr, n⟩ c pct
          else gui_window_split_vertical ⟨t, c, bufs, ptr, n⟩ c pct) =
          ⟨t.replaceWindow (fun x => .node none pct (if horiz ≠ 0 then 1 else 0) (.leaf x)
              (.leaf (newWindow n x))) c, n, bufs, ptr, n + 1⟩ := by
        by_cases hh : horiz = 0
        · simp [hh, gui_window_split_vertical, gui_window_split]
        · simp [hh, gui_window_split_horizontal, gui_window_split]
      simp only [gui_layout_window_apply_tree, ne_eq, hp, not_false_eq_true, if_true]
      simp only [ne_eq] at hsplit
      rw [hsplit]
      generalize hh01 : (if ¬horiz = 0 then (1 : Int) else 0) = h01
      have hflat1 : (t.replaceWindow (fun x => .node none pct h01 (.leaf x)
          (.leaf (newWindow n x))) c).flat = true :=
        flat_replaceWindow _ t c hflat (fun x => by simp [WindowTree.leaf, WindowTree.flat])
      have hids1 : ∀ i ∈ (t.replaceWindow (fun x => .node none pct h01 (.leaf x)
          (.leaf (newWindow n x))) c).windowIds, i < n + 1 := by
        apply windowIds_replaceWindow _ t c n (n + 1) hids (Nat.le_succ n)
        intro x _ hxn i hi
        simp only [WindowTree.windowIds, WindowTree.leaf, newWindow, List.nil_append,
          List.singleton_append, List.append_nil, List.mem_cons, List.mem_singleton,
          List.not_mem_nil, or_false] at hi
        rcases hi with hi | hi <;> omega
      rw [ih2 _ hflat1 hids1]
      simp only
      have hflat2 : ((t.replaceWindow (fun x => .node none pct h01 (.leaf x)
          (.leaf (newWindow n x))) c).replaceWindow (fun x => replay c2 x (n + 1)) n).flat
          = true :=
        flat_replaceWindow _ _ n hflat1 (fun x => flat_replay c2 x (n + 1))
      have hids2 : ∀ i ∈ ((t.replaceWindow (fun x => .node none pct h01 (.leaf x)
          (.leaf (newWindow n x))) c).replaceWindow (fun x => replay c2 x (n + 1)) n).windowIds,
          i < n + 1 + c2.visitedSplits := by
        apply windowIds_replaceWindow _ _ n (n + 1) (n + 1 + c2.visitedSplits) hids1
          (Nat.le_add_right _ _)
        intro x hx _ i hi
        rcases windowIds_replay c2 x (n + 1) i hi with e | ⟨_, h2⟩
        · omega
        · exact h2
      have hg3 : (if ¬c = n then gui_window_switch
            ⟨(t.replaceWindow (fun x => .node none pct h01 (.leaf x)
              (.leaf (newWindow n x))) c).replaceWindow (fun x => replay c2 x (n + 1)) n,
              n, bufs, replayFocus fid c2 n (n + 1) ptr, n + 1 + c2.visitedSplits⟩ c
          else ⟨(t.replaceWindow (fun x => .node none pct h01 (.leaf x)
              (.leaf (newWindow n x))) c).replaceWindow (fun x => replay c2 x (n + 1)) n,
              n, bufs, replayFocus fid c2 n (n + 1) ptr, n + 1 + c2.visitedSplits⟩) =
          ⟨(t.replaceWindow (fun x => .node none pct h01 (.leaf x)
              (.leaf (newWindow n x))) c).replaceWindow (fun x => replay c2 x (n + 1)) n,
              c, bufs, replayFocus fid c2 n (n + 1) ptr, n + 1 + c2.visitedSplits⟩ := by
        by_cases hcn : c = n
        · simp [hcn]
        · simp [hcn, gui_window_switch]
      rw [hg3, ih1 _ hflat2 hids2]
      simp only [replay, hp, ne_eq, not_false_eq_true, if_true, replayFocus,
        LayoutWindow.visitedSplits, hh01, Gui.mk.injEq, true_and, and_true]
      refine ⟨?_, by omega⟩
      have hn : n ∉ t.windowIds := fun hm => lt_irrefl n (hids n hm)
      by_cases hc : c ∈ t.windowIds
      · have hcn : c < n := hids c hc
        rw [replaceWindow_replaceWindow _ _ t c n (fun hm => absurd hm hn),
          replaceWindow_replaceWindow _ _ t c c (fun _ => rfl)]
        apply replaceWindow_congr
        intro x hx
        rw [replaceWindow_split_node _ pct h01 x n n (by omega) rfl]
        have hc2 : c ∉ (replay c2 (newWindow n x) (n + 1)).windowIds := by
          intro hm
          rcases windowIds_replay c2 (newWindow n x) (n + 1) c hm with e | ⟨h1, _⟩
          · simp only [newWindow] at e; omega
          · omega
        simp [WindowTree.replaceWindow, WindowTree.leaf, hx, replaceWindow_not_mem _ _ c hc2]
      · rw [replaceWindow_not_mem _ t c hc, replaceWindow_not_mem _ t n hn,
          replaceWindow_not_mem _ t c hc, replaceWindow_not_mem _ t c hc]

theorem findWindow_some (t : WindowTree) (c : Nat) (w : GuiWindow)
    (h : t.findWindow c = some w) : w.id = c ∧ w.id ∈ t.windowIds := by
  induction t with
  | null => simp [WindowTree.findWindow] at h
  | node x p hz c1 c2 ih1 ih2 =>
    cases x with
    | none =>
      simp only [WindowTree.findWindow] at h
      simp only [WindowTree.windowIds, List.nil_append, List.mem_append]
      cases h1 : c1.findWindow c with
      | some y =>
        rw [h1] at h
        simp only [Option.some.injEq] at h
        subst h
        exact ⟨(ih1 h1).1, Or.inl (ih1 h1).2⟩
      | none =>
        rw [h1] at h
        exact ⟨(ih2 h).1, Or.inr (ih2 h).2⟩
    | some x =>
      simp only [WindowTree.findWindow] at h
      simp only [WindowTree.windowIds, List.singleton_append, List.mem_cons, List.mem_append]
      by_cases hx : x.id = c
      · simp only [hx, if_true, Option.some.injEq] at h
        subst h
        exact ⟨hx, Or.inl rfl⟩
      · simp only [hx, if_false] at h
        cases h1 : c1.findWindow c with
        | some y =>
          rw [h1] at h
          simp only [Option.some.injEq] at h
          subst h
          exact ⟨(ih1 h1).1, Or.inr (Or.inl (ih1 h1).2)⟩
        | none =>
          rw [h1] at h
          exact ⟨(ih2 h).1, Or.inr (Or.inr (ih2 h).2)⟩

theorem foldl_switch_to_buffer (binds : List (Nat × GuiBuffer)) (g : Gui) :
    binds.foldl (fun g b => gui_window_switch_to_buffer g b.1 b.2) g =
      { g with
        gui_windows_tree :=
          binds.foldl (fun t b => t.updateWindow (fun x => { x with buffer := b.2 }) b.1)
            g.gui_windows_tree } := by
  induction binds generalizing g with
  | nil => rfl
  | cons b l ih =>
    simp only [List.foldl_cons]
    rw [ih]
    rfl

/-- The live screen after `gui_layout_window_apply` of a stored tree that is
not empty: the tree is the replay of the stored tree against the window that
was current, with the buffers bound by the reconciliation pass, and the
current window is the one recorded for the id, or the one current before. -/
theorem apply_eq (fid id pct horiz : Int) (c1 c2 : LayoutWindow) (pn bn : Option String)
    (g : Gui) (w : GuiWindow)
    (hw : g.gui_windows_tree.findWindow g.gui_current_window = some w)
    (hids : ∀ i ∈ g.gui_windows_tree.windowIds, i < g.next_window) :
    (gui_layout_window_apply (.node id pct horiz c1 c2 pn bn) fid g).gui_windows_tree =
      (gui_layout_window_check_all_buffers
          (replay (.node id pct horiz c1 c2 pn bn) w g.next_window).windows g.gui_buffers).foldl
        (fun t b => t.updateWindow (fun x => { x with buffer := b.2 }) b.1)
        (replay (.node id pct horiz c1 c2 pn bn) w g.next_window) ∧
    (gui_layout_window_apply (.node id pct horiz c1 c2 pn bn) fid g).gui_current_window =
      (match replayFocus fid (.node id pct horiz c1 c2 pn bn) g.gui_current_window
          g.next_window none with
       | some q => q
       | none => g.gui_current_window) := by
  obtain ⟨hwid, hwmem⟩ := findWindow_some _ _ _ hw
  have hw_lt : w.id < g.next_window := hids _ hwmem
  simp only [gui_layout_window_apply, gui_window_merge_all, hw]
  rw [apply_tree_eq fid _ _ (by simp [WindowTree.leaf, WindowTree.flat])
    (by simpa [WindowTree.leaf, WindowTree.windowIds] using hw_lt)]
  rw [foldl_switch_to_buffer]
  simp only [gui_window_switch]
  have hrep : (WindowTree.leaf w).replaceWindow
      (fun x => replay (.node id pct horiz c1 c2 pn bn) x g.next_window) g.gui_current_window =
      replay (.node id pct horiz c1 c2 pn bn) w g.next_window := by
    simp [WindowTree.leaf, WindowTree.replaceWindow, hwid]
  rw [hrep]
  exact ⟨rfl, trivial⟩

/-! ## Round trip of the tree of windows -/

theorem restores_updateWindow_buffer (T t : WindowTree) (b : GuiBuffer) (c : Nat)
    (h : WindowTree.restores T t = true) :
    WindowTree.restores T (t.updateWindow (fun x => { x with buffer := b }) c) = true := by
  induction T generalizing t with
  | null => simp [WindowTree.restores] at h
  | node w p hz a1 a2 ih1 ih2 =>
    cases t with
    | null => simp [WindowTree.restores] at h
    | node w' p' hz' b1 b2 =>
      cases w with
      | none =>
        cases w' with
        | some y => simp [WindowTree.restores] at h
        | none =>
          simp only [WindowTree.restores, Bool.and_eq_true, decide_eq_true_eq] at h
          obtain ⟨⟨⟨hp, hh⟩, r1⟩, r2⟩ := h
          simp only [WindowTree.updateWindow, WindowTree.restores, Bool.and_eq_true,
            decide_eq_true_eq]
          exact ⟨⟨⟨hp, hh⟩, ih1 _ r1⟩, ih2 _ r2⟩
      | some x =>
        cases w' with
        | none => simp [WindowTree.restores] at h
        | some y =>
          simp only [WindowTree.restores, Bool.and_eq_true, decide_eq_true_eq] at h
          obtain ⟨⟨⟨⟨⟨e1, e2⟩, e3⟩, e4⟩, e5⟩, e6⟩ := h
          subst e1 e2 e3 e4
          by_cases hy : y.id = c
          · simp [WindowTree.updateWindow, WindowTree.restores, hy, e5, e6]
          · simp [WindowTree.updateWindow, WindowTree.restores, hy, e5, e6]

theorem restores_foldl_bind (T : WindowTree) (binds : List (Nat × GuiBuffer)) (t : WindowTree)
    (h : WindowTree.restores T t = true) :
    WindowTree.restores T
      (binds.foldl (fun t b => t.updateWindow (fun x => { x with buffer := b.2 }) b.1) t)
      = true := by
  induction binds generalizing t with
  | nil => exact h
  | cons b l ih =>
    simp only [List.foldl_cons]
    exact ih _ (restores_updateWindow_buffer T t b.2 b.1 h)

/-- The replay of the tree saved from a live split tree restores that tree. -/
theorem restores_replay_save (cur : Nat) (T : WindowTree) (i c : Int) (w : GuiWindow) (n : Nat)
    (hT : T.isSplitTree = true) (hz : T.splitsNonzero = true) :
    WindowTree.restores T (replay (gui_layout_window_save_tree cur T (i, c)).1 w n) = true := by
  induction T generalizing i c w n with
  | null => simp [WindowTree.isSplitTree] at hT
  | node x p h a b ih1 ih2 =>
    rw [save_tree_node]
    simp only
    generalize hc : (match x with
      | some y => if y.id = cur then i else c
      | none => c) = c'
    cases x with
    | some y =>
      simp only [WindowTree.isSplitTree, Bool.and_eq_true, decide_eq_true_eq] at hT
      obtain ⟨e1, e2⟩ := hT
      subst e1 e2
      simp [gui_layout_window_save_tree, savedFields, replay, WindowTree.leaf,
        WindowTree.restores]
    | none =>
      simp only [WindowTree.isSplitTree, Bool.and_eq_true] at hT
      simp only [WindowTree.splitsNonzero, Option.isSome_none, Bool.false_or, Bool.and_eq_true,
        decide_eq_true_eq] at hz
      obtain ⟨⟨hp, hz1⟩, hz2⟩ := hz
      have n1 : (gui_layout_window_save_tree cur a (i + 1, c')).1 ≠ .null := by
        rw [Ne, save_tree_null_iff]
        intro e
        rw [e] at hT
        simp [WindowTree.isSplitTree] at hT
      simp only [n1, if_false, savedFields, replay, ne_eq, hp, not_false_eq_true, if_true,
        WindowTree.restores, Bool.and_eq_true, decide_eq_true_eq, true_and]
      refine ⟨⟨?_, ih1 _ _ _ _ hT.1 hz1⟩, ih2 _ _ _ _ hT.2 hz2⟩
      by_cases hh : h = 0 <;> simp [hh]

theorem consistent_iff (g : Gui) (hg : g.consistent = true) :
    (∃ w, g.gui_windows_tree.findWindow g.gui_current_window = some w) ∧
    ∀ i ∈ g.gui_windows_tree.windowIds, i < g.next_window := by
  simp only [Gui.consistent, Bool.and_eq_true, List.all_eq_true, decide_eq_true_eq] at hg
  exact ⟨Option.isSome_iff_exists.mp hg.1, hg.2⟩

/-- C3: round trip. For every live split tree `T` (leaf regions without
children, split nodes with two children and a percentage different from 0),
saving `T` with `gui_layout_window_save` and applying the stored tree with
`gui_layout_window_apply` (any id of current window) to any consistent live
screen rebuilds a live tree with the shape of `T`, the same percentage and
orientation at every split and, at every leaf, intended plugin and buffer
names equal to those of the buffer shown by the leaf of `T` at that
position. -/
theorem save_apply_round_trip (globals : LayoutGlobals) (T : WindowTree) (cur : Nat)
    (fid : Int) (g : Gui)
    (hT : T.isSplitTree = true) (hz : T.splitsNonzero = true) (hg : g.consistent = true) :
    WindowTree.restores T
      (gui_layout_window_apply (gui_layout_window_save globals T cur).1.gui_layout_windows
        fid g).gui_windows_tree = true := by
  obtain ⟨⟨w, hw⟩, hids⟩ := consistent_iff g hg
  have hr := restores_replay_save cur T 1 (-1) w g.next_window hT hz
  simp only [gui_layout_window_save]
  cases hs : (gui_layout_window_save_tree cur T (1, -1)).1 with
  | null =>
    rw [save_tree_null_iff] at hs
    rw [hs] at hT
    simp [WindowTree.isSplitTree] at hT
  | node id pct horiz c1 c2 pn bn =>
    rw [hs] at hr
    rw [(apply_eq fid id pct horiz c1 c2 pn bn g w hw hids).1]
    exact restores_foldl_bind T _ _ hr

/-- C3 on the example: the example tree saved and applied to a screen that had
two other windows and old intended names. -/
theorem save_apply_round_trip_witness :
    exampleTree.isSplitTree = true ∧ exampleTree.splitsNonzero = true ∧
    exampleGui.consistent = true ∧
    WindowTree.restores exampleTree
      (gui_layout_window_apply (gui_layout_window_save exampleGlobals exampleTree 3).1.gui_layout_windows
        5 exampleGui).gui_windows_tree = true :=
  ⟨by decide, by decide, by decide,
   save_apply_round_trip exampleGlobals exampleTree 3 5 exampleGui (by decide) (by decide)
     (by decide)⟩

/-! ## The current window after a replay -/

theorem windowAt_updateWindow_buffer (t : WindowTree) (b : GuiBuffer) (c : Nat)
    (path : List Bool) (w : GuiWindow) (h : t.windowAt path = some w) :
    ∃ w', (t.updateWindow (fun x => { x with buffer := b }) c).windowAt path = some w' ∧
      w'.id = w.id ∧ w'.layout_plugin_name = w.layout_plugin_name ∧
      w'.layout_buffer_name = w.layout_buffer_name := by
  induction t generalizing path with
  | null => simp [WindowTree.windowAt] at h
  | node x p hz c1 c2 ih1 ih2 =>
    cases path with
    | nil =>
      simp only [WindowTree.windowAt] at h
      subst h
      by_cases hw : w.id = c
      · exact ⟨{ w with buffer := b }, by simp [WindowTree.updateWindow, WindowTree.windowAt, hw]⟩
      · exact ⟨w, by simp [WindowTree.updateWindow, WindowTree.windowAt, hw]⟩
    | cons d rest =>
      cases d with
      | false =>
        simp only [WindowTree.windowAt] at h
        simpa [WindowTree.updateWindow, WindowTree.windowAt] using ih1 rest h
      | true =>
        simp only [WindowTree.windowAt] at h
        simpa [WindowTree.updateWindow, WindowTree.windowAt] using ih2 rest h

theorem windowAt_foldl_bind (binds : List (Nat × GuiBuffer)) (t : WindowTree)
    (path : List Bool) (w : GuiWindow) (h : t.windowAt path = some w) :
    ∃ w', (binds.foldl (fun t b => t.updateWindow (fun x => { x with buffer := b.2 }) b.1)
        t).windowAt path = some w' ∧
      w'.id = w.id ∧ w'.layout_plugin_name = w.layout_plugin_name ∧
      w'.layout_buffer_name = w.layout_buffer_name := by
  induction binds generalizing t w with
  | nil => exact ⟨w, h, rfl, rfl, rfl⟩
  | cons b l ih =>
    obtain ⟨w1, h1, e1, e2, e3⟩ := windowAt_updateWindow_buffer t b.2 b.1 path w h
    obtain ⟨w2, h2, f1, f2, f3⟩ := ih _ w1 h1
    exact ⟨w2, h2, f1.trans e1, f2.trans e2, f3.trans e3⟩

/-- When no visited leaf has the id, the replay keeps the recorded pointer. -/
theorem replayFocus_none (fid : Int) (lw : LayoutWindow) (c n : Nat) (ptr : Option Nat)
    (hno : ∀ path leaf, lw.visitedLeaf path = some leaf → leaf.1 ≠ fid) :
    replayFocus fid lw c n ptr = ptr := by
  induction lw generalizing c n ptr with
  | null => rfl
  | node id pct horiz c1 c2 pn bn ih1 ih2 =>
    by_cases hp : pct = 0
    · have := hno [] (id, pn, bn) (by simp [LayoutWindow.visitedLeaf, hp])
      simp only at this
      simp [replayFocus, hp, this]
    · simp only [replayFocus, ne_eq, hp, not_false_eq_true, if_true]
      rw [ih1, ih2]
      · intro path leaf hl
        exact hno (true :: path) leaf (by simpa [LayoutWindow.visitedLeaf, hp] using hl)
      · intro path leaf hl
        exact hno (false :: path) leaf (by simpa [LayoutWindow.visitedLeaf, hp] using hl)

/-- When exactly one visited leaf has the id, the replay records the window
that this leaf tags: the window of the rebuilt tree at the path of the
leaf. -/
theorem replayFocus_some (fid : Int) (lw : LayoutWindow) (w : GuiWindow) (n : Nat)
    (ptr : Option Nat) (path : List Bool) (leaf : Int × Option String × Option String)
    (hl : lw.visitedLeaf path = some leaf) (hfid : leaf.1 = fid)
    (huniq : ∀ path' leaf', path' ≠ path → lw.visitedLeaf path' = some leaf' → leaf'.1 ≠ fid) :
    ∃ w', (replay lw w n).windowAt path = some w' ∧
      replayFocus fid lw w.id n ptr = some w'.id ∧
      w'.layout_plugin_name = leaf.2.1 ∧ w'.layout_buffer_name = leaf.2.2 := by
  induction lw generalizing w n ptr path with
  | null => simp [LayoutWindow.visitedLeaf] at hl
  | node id pct horiz c1 c2 pn bn ih1 ih2 =>
    by_cases hp : pct = 0
    · cases path with
      | cons d rest => simp [LayoutWindow.visitedLeaf, hp] at hl
      | nil =>
        simp only [LayoutWindow.visitedLeaf, hp, ne_eq, not_true_eq_false, if_false,
          Option.some.injEq] at hl
        subst hl
        simp only at hfid
        exact ⟨{ w with layout_plugin_name := pn, layout_buffer_name := bn },
          by simp [replay, hp, WindowTree.leaf, WindowTree.windowAt, replayFocus, hfid]⟩
    · cases path with
      | nil => simp [LayoutWindow.visitedLeaf, hp] at hl
      | cons d rest =>
        cases d with
        | false =>
          simp only [LayoutWindow.visitedLeaf, hp, ne_eq, not_false_eq_true, if_true] at hl
          have hu : ∀ path' leaf', path' ≠ rest → c1.visitedLeaf path' = some leaf' →
              leaf'.1 ≠ fid := by
            intro path' leaf' hne hl'
            exact huniq (false :: path') leaf' (by simpa using hne)
              (by simpa [LayoutWindow.visitedLeaf, hp] using hl')
          obtain ⟨w', h1, h2, h3⟩ := ih1 w (n + 1 + c2.visitedSplits)
            (replayFocus fid c2 n (n + 1) ptr) rest hl hu
          exact ⟨w', by simp [replay, hp, WindowTree.windowAt, h1],
            by simp [replayFocus, hp, h2], h3⟩
        | true =>
          simp only [LayoutWindow.visitedLeaf, hp, ne_eq, not_false_eq_true, if_true] at hl
          have hu : ∀ path' leaf', path' ≠ rest → c2.visitedLeaf path' = some leaf' →
              leaf'.1 ≠ fid := by
            intro path' leaf' hne hl'
            exact huniq (true :: path') leaf' (by simpa using hne)
              (by simpa [LayoutWindow.visitedLeaf, hp] using hl')
          obtain ⟨w', h1, h2, h3⟩ := ih2 (newWindow n w) (n + 1) ptr rest hl hu
          have hno : ∀ path' leaf', c1.visitedLeaf path' = some leaf' → leaf'.1 ≠ fid := by
            intro path' leaf' hl'
            exact huniq (false :: path') leaf' (by simp)
              (by simpa [LayoutWindow.visitedLeaf, hp] using hl')
          refine ⟨w', by simp [replay, hp, WindowTree.windowAt, h1], ?_, h3⟩
          simp only [replayFocus, ne_eq, hp, not_false_eq_true, if_true]
          rw [replayFocus_none fid c1 _ _ _ hno]
          simpa [newWindow] using h2

/-- C5: for every stored tree that is not empty, every id and every
consistent live screen, after `gui_layout_window_apply`: if no leaf visited by
the replay has the id, the current window is the window that was current
before (the one the merge kept); if exactly one visited leaf has the id, the
current window is the window tagged by that leaf, that is the window of the
rebuilt tree at the path of the leaf, carrying the names of the leaf. -/
theorem apply_restores_current_window (id pct horiz : Int) (c1 c2 : LayoutWindow)
    (pn bn : Option String) (fid : Int) (g : Gui) (hg : g.consistent = true) :
    ((∀ path leaf, (LayoutWindow.node id pct horiz c1 c2 pn bn).visitedLeaf path = some leaf →
        leaf.1 ≠ fid) →
      (gui_layout_window_apply (.node id pct horiz c1 c2 pn bn) fid g).gui_current_window =
        g.gui_current_window) ∧
    (∀ path leaf, (LayoutWindow.node id pct horiz c1 c2 pn bn).visitedLeaf path = some leaf →
      leaf.1 = fid →
      (∀ path' leaf', path' ≠ path →
        (LayoutWindow.node id pct horiz c1 c2 pn bn).visitedLeaf path' = some leaf' →
        leaf'.1 ≠ fid) →
      ∃ w, (gui_layout_window_apply (.node id pct horiz c1 c2 pn bn) fid
              g).gui_windows_tree.windowAt path = some w ∧
        (gui_layout_window_apply (.node id pct horiz c1 c2 pn bn) fid g).gui_current_window
          = w.id ∧
        w.layout_plugin_name = leaf.2.1 ∧ w.layout_buffer_name = leaf.2.2) := by
  obtain ⟨⟨w, hw⟩, hids⟩ := consistent_iff g hg
  obtain ⟨htree, hcur⟩ := apply_eq fid id pct horiz c1 c2 pn bn g w hw hids
  have hwid := (findWindow_some _ _ _ hw).1
  constructor
  · intro hno
    rw [hcur, replayFocus_none fid _ _ _ _ hno]
  · intro path leaf hl hfid huniq
    obtain ⟨w', h1, h2, h3, h4⟩ := replayFocus_some fid _ w g.next_window none path leaf hl hfid huniq
    obtain ⟨w2, k1, k2, k3, k4⟩ := windowAt_foldl_bind
      (gui_layout_window_check_all_buffers
        (replay (.node id pct horiz c1 c2 pn bn) w g.next_window).windows g.gui_buffers)
      _ path w' h1
    refine ⟨w2, by rw [htree]; exact k1, ?_, k3.trans h3, k4.trans h4⟩
    rw [hcur, ← hwid, h2, k2]

theorem visitedLeaf_mem_preorderIds (lw : LayoutWindow) (path : List Bool)
    (leaf : Int × Option String × Option String) (hl : lw.visitedLeaf path = some leaf) :
    leaf.1 ∈ lw.preorderIds := by
  induction lw generalizing path with
  | null => simp [LayoutWindow.visitedLeaf] at hl
  | node id pct horiz c1 c2 pn bn ih1 ih2 =>
    simp only [LayoutWindow.preorderIds, List.mem_cons, List.mem_append]
    by_cases hp : pct = 0
    · cases path with
      | cons d rest => simp [LayoutWindow.visitedLeaf, hp] at hl
      | nil =>
        simp only [LayoutWindow.visitedLeaf, hp, ne_eq, not_true_eq_false, if_false,
          Option.some.injEq] at hl
        subst hl
        exact Or.inl rfl
    · cases path with
      | nil => simp [LayoutWindow.visitedLeaf, hp] at hl
      | cons d rest =>
        cases d with
        | false =>
          simp only [LayoutWindow.visitedLeaf, hp, ne_eq, not_false_eq_true, if_true] at hl
          exact Or.inr (Or.inl (ih1 rest hl))
        | true =>
          simp only [LayoutWindow.visitedLeaf, hp, ne_eq, not_false_eq_true, if_true] at hl
          exact Or.inr (Or.inr (ih2 rest hl))

/-- In a stored tree with distinct ids, two visited leaves with the same id
are at the same path. -/
theorem visitedLeaf_path_unique (lw : LayoutWindow) (hnd : lw.preorderIds.Nodup)
    (p1 p2 : List Bool) (l1 l2 : Int × Option String × Option String)
    (h1 : lw.visitedLeaf p1 = some l1) (h2 : lw.visitedLeaf p2 = some l2)
    (he : l1.1 = l2.1) : p1 = p2 := by
  induction lw generalizing p1 p2 with
  | null => simp [LayoutWindow.visitedLeaf] at h1
  | node id pct horiz c1 c2 pn bn ih1 ih2 =>
    simp only [LayoutWindow.preorderIds, List.nodup_cons, List.nodup_append] at hnd
    obtain ⟨_, n1, n2, hdis⟩ := hnd
    by_cases hp : pct = 0
    · cases p1 with
      | cons d rest => simp [LayoutWindow.visitedLeaf, hp] at h1
      | nil =>
        cases p2 with
        | cons d rest => simp [LayoutWindow.visitedLeaf, hp] at h2
        | nil => rfl
    · cases p1 with
      | nil => simp [LayoutWindow.visitedLeaf, hp] at h1
      | cons d1 r1 =>
        cases p2 with
        | nil => simp [LayoutWindow.visitedLeaf, hp] at h2
        | cons d2 r2 =>
          cases d1 <;> cases d2 <;>
            simp only [LayoutWindow.visitedLeaf, hp, ne_eq, not_false_eq_true, if_true] at h1 h2
          · rw [ih1 n1 r1 r2 h1 h2]
          · exact absurd (visitedLeaf_mem_preorderIds c2 r2 l2 h2)
              (fun hm => hdis (visitedLeaf_mem_preorderIds c1 r1 l1 h1) (he ▸ hm))
          · exact absurd (visitedLeaf_mem_preorderIds c2 r1 l1 h1)
              (fun hm => hdis (he ▸ visitedLeaf_mem_preorderIds c1 r2 l2 h2) hm)
          · rw [ih2 n2 r1 r2 h1 h2]

/-- C5 on the example: with id 5 the current window after the apply is the
window at the path of the stored leaf of `irc/#b`; with an id that no leaf
has, it is the window that was current before. -/
theorem apply_restores_current_window_witness :
    exampleGui.consistent = true ∧
    (gui_layout_window_apply exampleLayout 99 exampleGui).gui_current_window = 11 ∧
    (gui_layout_window_apply exampleLayout 5 exampleGui).gui_current_window = 13 ∧
    ∃ w, (gui_layout_window_apply exampleLayout 5
            exampleGui).gui_windows_tree.windowAt [true, true] = some w ∧
      (gui_layout_window_apply exampleLayout 5 exampleGui).gui_current_window = w.id ∧
      w.layout_plugin_name = some "irc" ∧ w.layout_buffer_name = some "#b" :=
  ⟨by decide,
   (apply_restores_current_window 1 50 1 _ _ none none 99 exampleGui (by decide)).1
     (fun path leaf hl he => by
       have hm := visitedLeaf_mem_preorderIds exampleLayout path leaf hl
       rw [he] at hm
       revert hm
       decide),
   by decide,
   (apply_restores_current_window 1 50 1 _ _ none none 5 exampleGui (by decide)).2
     [true, true] (5, some "irc", some "#b") (by decide) rfl
     (fun path' leaf' hne hl he => hne
       (visitedLeaf_path_unique exampleLayout (by decide) path' [true, true] leaf'
         (5, some "irc", some "#b") hl (by decide) he))⟩

/-! ## Round trip of the current window -/

theorem save_tree_nodup (cur : Nat) (t : WindowTree) (i c : Int) :
    (gui_layout_window_save_tree cur t (i, c)).1.preorderIds.Nodup := by
  rw [(save_tree_ids cur t i c).2]
  apply List.Nodup.map _ (List.nodup_range _)
  intro a b hab
  simpa using hab

/-- The id of the current window is not changed by the walk of a tree in
which no node holds the current window. -/
theorem save_tree_current_unchanged (cur : Nat) (t : WindowTree) (i c : Int)
    (hno : ∀ path y, t.windowAt path = some y → y.id ≠ cur) :
    (gui_layout_window_save_tree cur t (i, c)).2.2 = c := by
  induction t generalizing i c with
  | null => rfl
  | node w p h c1 c2 ih1 ih2 =>
    rw [save_tree_node]
    simp only
    generalize hc' : (match w with
      | some x => if x.id = cur then i else c
      | none => c) = c'
    have hc : c' = c := by
      subst hc'
      cases w with
      | none => rfl
      | some x =>
        have := hno [] x (by simp [WindowTree.windowAt])
        simp [this]
    subst hc
    clear hc'
    have h1 : ∀ j d, (gui_layout_window_save_tree cur c1 (j, d)).2.2 = d := fun j d =>
      ih1 j d (fun path y hy => hno (false :: path) y (by simpa [WindowTree.windowAt] using hy))
    have h2 : ∀ j d, (gui_layout_window_save_tree cur c2 (j, d)).2.2 = d := fun j d =>
      ih2 j d (fun path y hy => hno (true :: path) y (by simpa [WindowTree.windowAt] using hy))
    rw [show (gui_layout_window_save_tree cur c1 (i + 1, c')).2 =
        ((gui_layout_window_save_tree cur c1 (i + 1, c')).2.1,
         (gui_layout_window_save_tree cur c1 (i + 1, c')).2.2) from rfl, h2, h1]

/-- When one leaf region of a live split tree is the current window, the id
that the walk returns is the id of the stored leaf at the same path. -/
theorem save_tree_current_leaf (cur : Nat) (T : WindowTree) (i c : Int) (path : List Bool)
    (x : GuiWindow) (hT : T.isSplitTree = true) (hz : T.splitsNonzero = true)
    (hx : T.windowAt path = some x) (hcur : x.id = cur)
    (huniq : ∀ path' y, path' ≠ path → T.windowAt path' = some y → y.id ≠ cur) :
    (gui_layout_window_save_tree cur T (i, c)).1.visitedLeaf path =
      some ((gui_layout_window_save_tree cur T (i, c)).2.2,
        some x.buffer.plugin_name, some x.buffer.name) := by
  induction T generalizing i c path with
  | null => simp [WindowTree.isSplitTree] at hT
  | node w p h a b ih1 ih2 =>
    rw [save_tree_node]
    simp only
    cases w with
    | some y =>
      simp only [WindowTree.isSplitTree, Bool.and_eq_true, decide_eq_true_eq] at hT
      obtain ⟨e1, e2⟩ := hT
      subst e1 e2
      cases path with
      | cons d rest => cases d <;> simp [WindowTree.windowAt] at hx
      | nil =>
        simp only [WindowTree.windowAt, Option.some.injEq] at hx
        subst hx
        simp [gui_layout_window_save_tree, savedFields, LayoutWindow.visitedLeaf, hcur]
    | none =>
      simp only [WindowTree.isSplitTree, Bool.and_eq_true] at hT
      simp only [WindowTree.splitsNonzero, Option.isSome_none, Bool.false_or, Bool.and_eq_true,
        decide_eq_true_eq] at hz
      obtain ⟨⟨hp, hz1⟩, hz2⟩ := hz
      have n1 : (gui_layout_window_save_tree cur a (i + 1, c)).1 ≠ .null := by
        rw [Ne, save_tree_null_iff]
        intro e
        rw [e] at hT
        simp [WindowTree.isSplitTree] at hT
      simp only [n1, if_false, savedFields]
      cases path with
      | nil => simp [WindowTree.windowAt] at hx
      | cons d rest =>
        cases d with
        | false =>
          simp only [WindowTree.windowAt] at hx
          simp only [LayoutWindow.visitedLeaf, ne_eq, hp, not_false_eq_true, if_true]
          have hb : (gui_layout_window_save_tree cur b
              (gui_layout_window_save_tree cur a (i + 1, c)).2).2.2 =
              (gui_layout_window_save_tree cur a (i + 1, c)).2.2 :=
            save_tree_current_unchanged cur b _ _ (fun path' y hy =>
              huniq (true :: path') y (by simp) (by simpa [WindowTree.windowAt] using hy))
          rw [hb]
          exact ih1 (i + 1) c rest hT.1 hz1 hx (fun path' y hne hy =>
            huniq (false :: path') y (by simpa using hne)
              (by simpa [WindowTree.windowAt] using hy))
        | true =>
          simp only [WindowTree.windowAt] at hx
          simp only [LayoutWindow.visitedLeaf, ne_eq, hp, not_false_eq_true, if_true]
          exact ih2 _ _ rest hT.2 hz2 hx (fun path' y hne hy =>
            huniq (true :: path') y (by simpa using hne)
              (by simpa [WindowTree.windowAt] using hy))

/-- C6: focus round trip. If the leaf region at some path of a live split tree
`T` is the current window when `gui_layout_window_save` runs (and no other
node holds that window), then applying the stored tree with the returned id
to any consistent live screen leaves as current window the window of the
rebuilt tree at the same path, tagged with the names of the buffer that the
leaf of `T` showed. -/
theorem save_apply_focus_round_trip (globals : LayoutGlobals) (T : WindowTree) (cur : Nat)
    (g : Gui) (path : List Bool) (x : GuiWindow)
    (hT : T.isSplitTree = true) (hz : T.splitsNonzero = true) (hg : g.consistent = true)
    (hx : T.windowAt path = some x) (hcur : x.id = cur)
    (huniq : ∀ path' y, path' ≠ path → T.windowAt path' = some y → y.id ≠ cur) :
    ∃ w,
      (gui_layout_window_apply (gui_layout_window_save globals T cur).1.gui_layout_windows
        (gui_layout_window_save globals T cur).2 g).gui_windows_tree.windowAt path = some w ∧
      (gui_layout_window_apply (gui_layout_window_save globals T cur).1.gui_layout_windows
        (gui_layout_window_save globals T cur).2 g).gui_current_window = w.id ∧
      w.layout_plugin_name = some x.buffer.plugin_name ∧
      w.layout_buffer_name = some x.buffer.name := by
  obtain ⟨⟨w0, hw0⟩, hids⟩ := consistent_iff g hg
  have hleaf := save_tree_current_leaf cur T 1 (-1) path x hT hz hx hcur huniq
  have hnd := save_tree_nodup cur T 1 (-1)
  simp only [gui_layout_window_save]
  generalize gui_layout_window_save_tree cur T (1, -1) = r at hleaf hnd
  obtain ⟨lw, j, fid⟩ := r
  simp only at hleaf hnd ⊢
  cases lw with
  | null => simp [LayoutWindow.visitedLeaf] at hleaf
  | node id pct horiz c1 c2 pn bn =>
    obtain ⟨htree, hcw⟩ := apply_eq fid id pct horiz c1 c2 pn bn g w0 hw0 hids
    have hwid := (findWindow_some _ _ _ hw0).1
    obtain ⟨w', h1, h2, h3, h4⟩ := replayFocus_some fid _ w0 g.next_window none path _ hleaf rfl
      (fun path' leaf' hne hl he => hne
        (visitedLeaf_path_unique _ hnd path' path leaf' _ hl hleaf he))
    obtain ⟨w2, k1, k2, k3, k4⟩ := windowAt_foldl_bind
      (gui_layout_window_check_all_buffers
        (replay (.node id pct horiz c1 c2 pn bn) w0 g.next_window).windows g.gui_buffers)
      _ path w' h1
    refine ⟨w2, by rw [htree]; exact k1, ?_, k3.trans h3, k4.trans h4⟩
    rw [hcw, ← hwid, h2, k2]

theorem exampleTree_window_unique (path' : List Bool) (y : GuiWindow)
    (hne : path' ≠ [true, true]) (hy : exampleTree.windowAt path' = some y) : y.id ≠ 3 := by
  rcases path' with _ | ⟨d1, _ | ⟨d2, _ | ⟨d3, r⟩⟩⟩
  · simp [exampleTree, WindowTree.windowAt] at hy
  · cases d1 <;> simp [exampleTree, WindowTree.windowAt, WindowTree.leaf] at hy
    subst hy
    decide
  · cases d1 <;> cases d2 <;>
      simp [exampleTree, WindowTree.windowAt, WindowTree.leaf] at hy hne
    subst hy
    decide
  · cases d1 <;> cases d2 <;> cases d3 <;>
      simp [exampleTree, WindowTree.windowAt, WindowTree.leaf] at hy

/-- C6 on the example of the specification: the root is a horizontal split at
50 with `core/status` as first side and a vertical split at 30 of `irc/#a` and
`irc/#b` as second side; saved with the window of `irc/#b` current and applied,
the window tagged `irc/#b` (second side of the second side) is current. -/
theorem save_apply_focus_round_trip_witness :
    exampleTree.windowAt [true, true] = some (mkWindow 3 (mkBuffer "irc" "#b" 3)) ∧
    ∃ w,
      (gui_layout_window_apply (gui_layout_window_save exampleGlobals exampleTree 3).1.gui_layout_windows
        (gui_layout_window_save exampleGlobals exampleTree 3).2
        exampleGui).gui_windows_tree.windowAt [true, true] = some w ∧
      (gui_layout_window_apply (gui_layout_window_save exampleGlobals exampleTree 3).1.gui_layout_windows
        (gui_layout_window_save exampleGlobals exampleTree 3).2
        exampleGui).gui_current_window = w.id ∧
      w.layout_plugin_name = some "irc" ∧ w.layout_buffer_name = some "#b" :=
  ⟨by decide,
   save_apply_focus_round_trip exampleGlobals exampleTree 3 exampleGui [true, true]
     (mkWindow 3 (mkBuffer "irc" "#b" 3)) (by decide) (by decide) (by decide) (by decide) rfl
     exampleTree_window_unique⟩

/-! ## The buffer layout store -/

theorem remove_all_eq_nil (l : List LayoutBuffer) : gui_layout_buffer_remove_all l = [] := by
  induction l with
  | nil => rfl
  | cons e rest ih => simpa [gui_layout_buffer_remove_all] using ih

theorem foldl_add_eq (bufs : List GuiBuffer) (init : List LayoutBuffer) :
    bufs.foldl
      (fun store ptr_buffer =>
        gui_layout_buffer_add store ptr_buffer.plugin_name ptr_buffer.name ptr_buffer.number)
      init = init ++ bufs.map layoutEntry := by
  induction bufs generalizing init with
  | nil => simp
  | cons b rest ih =>
    simp only [List.foldl_cons, List.map_cons]
    rw [ih]
    simp [gui_layout_buffer_add, layoutEntry]

/-- C7: whatever the previous content of the store, after
`gui_layout_buffer_save` the store holds exactly one entry per live buffer, in
the order of the live list, each with the plugin name, name and number of its
buffer; nothing of the previous store remains. -/
theorem buffer_save_records_live_buffers (previous : List LayoutBuffer)
    (gui_buffers : List GuiBuffer) :
    gui_layout_buffer_save (some previous) gui_buffers =
      some (gui_buffers.map (fun b =>
        { plugin_name := b.plugin_name, buffer_name := b.name, number := b.number })) := by
  simp only [gui_layout_buffer_save, remove_all_eq_nil, foldl_add_eq, List.nil_append]
  rfl

theorem strcasecmpChars_eq_zero_iff (l1 l2 : List Char) :
    strcasecmpChars l1 l2 = 0 ↔ l1.map lowerCode = l2.map lowerCode := by
  induction l1 generalizing l2 with
  | nil => cases l2 <;> simp [strcasecmpChars]
  | cons a as ih =>
    cases l2 with
    | nil => simp [strcasecmpChars]
    | cons b bs =>
      by_cases hab : lowerCode a = lowerCode b
      · simp [strcasecmpChars, hab, ih]
      · by_cases hlt : lowerCode a < lowerCode b <;> simp [strcasecmpChars, hab, hlt]

theorem string_strcasecmp_eq_zero_iff (s1 s2 : String) :
    string_strcasecmp s1 s2 = 0 ↔ equalIgnoringCase s1 s2 :=
  strcasecmpChars_eq_zero_iff s1.data s2.data

theorem get_number_cons (e : LayoutBuffer) (rest : List LayoutBuffer) (pn bn : String) :
    gui_layout_buffer_get_number (e :: rest) pn bn =
      if e.matchesName pn bn then e.number else gui_layout_buffer_get_number rest pn bn := by
  simp only [gui_layout_buffer_get_number, LayoutBuffer.matchesName,
    string_strcasecmp_eq_zero_iff]

theorem get_number_of_no_match (store : List LayoutBuffer) (plugin_name buffer_name : String)
    (hno : ∀ e ∈ store, ¬ e.matchesName plugin_name buffer_name) :
    gui_layout_buffer_get_number store plugin_name buffer_name = 0 := by
  induction store with
  | nil => rfl
  | cons a rest ih =>
    rw [get_number_cons]
    simp only [hno a (List.mem_cons_self _ _), if_false]
    exact ih (fun e he => hno e (List.mem_cons_of_mem _ he))

theorem get_number_of_first_match (store : List LayoutBuffer) (plugin_name buffer_name : String)
    (i : Nat) (e : LayoutBuffer) (hi : store[i]? = some e)
    (hm : e.matchesName plugin_name buffer_name)
    (hfirst : ∀ (j : Nat) (e' : LayoutBuffer), j < i → store[j]? = some e' →
      ¬ e'.matchesName plugin_name buffer_name) :
    gui_layout_buffer_get_number store plugin_name buffer_name = e.number := by
  induction store generalizing i with
  | nil => simp at hi
  | cons a rest ih =>
    rw [get_number_cons]
    cases i with
    | zero =>
      simp only [List.getElem?_cons_zero, Option.some.injEq] at hi
      subst hi
      simp [hm]
    | succ k =>
      have ha : ¬ a.matchesName plugin_name buffer_name :=
        hfirst 0 a (Nat.succ_pos k) (by simp)
      simp only [ha, if_false]
      exact ih k (by simpa using hi) (fun j e' hj he' =>
        hfirst (j + 1) e' (by omega) (by simpa using he'))

/-- C8: `gui_layout_buffer_get_number` returns the number of the first entry,
in store order, whose plugin name and buffer name are both equal to the
arguments ignoring letter case, and 0 when no entry matches. -/
theorem get_number_first_match (store : List LayoutBuffer) (plugin_name buffer_name : String) :
    (∀ (i : Nat) (e : LayoutBuffer), store[i]? = some e → e.matchesName plugin_name buffer_name →
      (∀ (j : Nat) (e' : LayoutBuffer), j < i → store[j]? = some e' →
        ¬ e'.matchesName plugin_name buffer_name) →
      gui_layout_buffer_get_number store plugin_name buffer_name = e.number) ∧
    ((∀ e ∈ store, ¬ e.matchesName plugin_name buffer_name) →
      gui_layout_buffer_get_number store plugin_name buffer_name = 0) := by
  constructor
  · intro i e hi hm hfirst
    exact get_number_of_first_match store plugin_name buffer_name i e hi hm hfirst
  · intro hno
    exact get_number_of_no_match store plugin_name buffer_name hno

/-- C8 on an example: the lookup of `irc/#TEST` returns the number 7 of the
first of the two entries equal to it up to case, the lookup of an unknown
buffer returns 0. -/
theorem get_number_first_match_witness :
    gui_layout_buffer_get_number exampleStore "irc" "#TEST" = 7 ∧
    gui_layout_buffer_get_number exampleStore "irc" "#other" = 0 :=
  ⟨(get_number_first_match exampleStore "irc" "#TEST").1 1
      { plugin_name := "irc", buffer_name := "#Test", number := 7 } (by decide) (by decide)
      (fun j e' hj he' => by
        have hj0 : j = 0 := by omega
        subst hj0
        simp only [exampleStore, List.getElem?_cons_zero, Option.some.injEq] at he'
        subst he'
        decide),
   (get_number_first_match exampleStore "irc" "#other").2 (by decide)⟩

/-! ## Applying the buffer layout -/

theorem findIdx?_decompose (p : GuiBuffer → Bool) (l : List GuiBuffer) :
    (l.findIdx? p = none ∧ ∀ x ∈ l, p x = false) ∨
    (∃ pre b post, l = pre ++ b :: post ∧ l.findIdx? p = some pre.length ∧ p b = true ∧
      ∀ x ∈ pre, p x = false) := by
  induction l with
  | nil => left; simp
  | cons a rest ih =>
    by_cases ha : p a = true
    · right
      exact ⟨[], a, rest, rfl, by simp [ha], ha, by simp⟩
    · have ha' : p a = false := by simpa using ha
      rcases ih with ⟨h1, h2⟩ | ⟨pre, b, post, h1, h2, h3, h4⟩
      · left
        refine ⟨by simp [List.findIdx?_cons, ha', List.findIdx?_succ, h1], ?_⟩
        intro x hx
        rcases List.mem_cons.mp hx with e | e
        · rw [e]; exact ha'
        · exact h2 x e
      · right
        refine ⟨a :: pre, b, post, by simp [h1], ?_, h3, ?_⟩
        · simp [List.findIdx?_cons, ha', List.findIdx?_succ, h2]
        · intro x hx
          rcases List.mem_cons.mp hx with e | e
          · rw [e]; exact ha'
          · exact h4 x e

/-- One turn of the loop, with the list cut at the buffer that is processed. -/
theorem apply_turn_eq (move : List GuiBuffer → Nat → Int → List GuiBuffer)
    (store : List LayoutBuffer) (st : ApplyState) :
    (gui_layout_buffer_apply_turn move store st = none ∧
      ∀ x ∈ st.gui_buffers, x.layout_applied ≠ 0) ∨
    (∃ pre b post, st.gui_buffers = pre ++ b :: post ∧ b.layout_applied = 0 ∧
      (∀ x ∈ pre, x.layout_applied ≠ 0) ∧
      gui_layout_buffer_apply_turn move store st =
        some (match expectedMove store b with
          | some m =>
            { gui_buffers := move (pre ++ m.1 :: post) pre.length m.2,
              moves := st.moves ++ [m],
              processed := st.processed ++ [b] }
          | none =>
            { gui_buffers := pre ++
                { b with
                  layout_applied := 1,
                  layout_number :=
                    gui_layout_buffer_get_number store b.plugin_name b.name } :: post,
              moves := st.moves,
              processed := st.processed ++ [b] })) := by
  rcases findIdx?_decompose (fun b => decide (b.layout_applied = 0)) st.gui_buffers with
    ⟨h1, h2⟩ | ⟨pre, b, post, h1, h2, h3, h4⟩
  · left
    refine ⟨by simp [gui_layout_buffer_apply_turn, h1], ?_⟩
    intro x hx
    simpa using h2 x hx
  · right
    refine ⟨pre, b, post, h1, by simpa using h3, fun x hx => by simpa using h4 x hx, ?_⟩
    have hget : st.gui_buffers[pre.length]? = some b := by
      rw [h1, List.getElem?_append_right (le_refl _)]
      simp
    have hset : ∀ m, st.gui_buffers.set pre.length m = pre ++ m :: post := by
      intro m; simp [h1]
    simp only [gui_layout_buffer_apply_turn, h2, hget, hset, expectedMove]
    split <;> rfl

/-- The requests made are those expected for the buffers processed. -/
theorem apply_loop_moves (move : List GuiBuffer → Nat → Int → List GuiBuffer)
    (store : List LayoutBuffer) (fuel : Nat) (st : ApplyState)
    (hst : st.moves = st.processed.filterMap (expectedMove store)) :
    (gui_layout_buffer_apply_loop move store fuel st).moves =
      (gui_layout_buffer_apply_loop move store fuel st).processed.filterMap
        (expectedMove store) := by
  induction fuel generalizing st with
  | zero => exact hst
  | succ k ih =>
    simp only [gui_layout_buffer_apply_loop]
    rcases apply_turn_eq move store st with ⟨h1, _⟩ | ⟨pre, b, post, _, _, _, h4⟩
    · rw [h1]; exact hst
    · rw [h4]
      apply ih
      cases hm : expectedMove store b with
      | none => simp [hst, List.filterMap_append, hm]
      | some m => simp [hst, List.filterMap_append, hm]

theorem expectedMove_some (store : List LayoutBuffer) (b : GuiBuffer) (m : GuiBuffer × Int)
    (h : expectedMove store b = some m) :
    m.2 = gui_layout_buffer_get_number store b.plugin_name b.name ∧ 0 < m.2 ∧
    m.2 ≠ b.number ∧ m.1.plugin_name = b.plugin_name ∧ m.1.name = b.name ∧
    m.1.number = b.number ∧
    ∃ e ∈ store, e.matchesName b.plugin_name b.name := by
  simp only [expectedMove] at h
  split at h
  · rename_i hc
    simp only [Option.some.injEq] at h
    subst h
    refine ⟨rfl, hc.1, hc.2, rfl, rfl, rfl, ?_⟩
    by_contra hno
    have h0 := get_number_of_no_match store b.plugin_name b.name
      (fun e he hm => hno ⟨e, he, hm⟩)
    have := hc.1
    omega
  · cases h

/-- C9: during `gui_layout_buffer_apply` with a store that is not empty,
whatever the collaborator `gui_buffer_move_to_number` does and at every turn
of the loop, the requests made so far are exactly, in order, those of the
buffers processed so far for which the number found by
`gui_layout_buffer_get_number` is positive and is not the number of the buffer
when it is processed, each asking for that number; every request is for a
buffer that has a matching entry; and what the function returns is the state
of the loop. -/
theorem buffer_apply_moves_exactly_when
    (move : List GuiBuffer → Nat → Int → List GuiBuffer)
    (e : LayoutBuffer) (rest : List LayoutBuffer) (fuel : Nat) (gui_buffers : List GuiBuffer) :
    (gui_layout_buffer_apply_loop move (e :: rest) fuel (applyStart gui_buffers)).moves =
      (gui_layout_buffer_apply_loop move (e :: rest) fuel
        (applyStart gui_buffers)).processed.filterMap (expectedMove (e :: rest)) ∧
    (∀ m ∈ (gui_layout_buffer_apply_loop move (e :: rest) fuel (applyStart gui_buffers)).moves,
      0 < m.2 ∧ m.2 ≠ m.1.number ∧
      m.2 = gui_layout_buffer_get_number (e :: rest) m.1.plugin_name m.1.name ∧
      ∃ entry ∈ e :: rest, entry.matchesName m.1.plugin_name m.1.name) ∧
    (∀ r, gui_layout_buffer_apply move (e :: rest) fuel gui_buffers = some r →
      r = gui_layout_buffer_apply_loop move (e :: rest) fuel (applyStart gui_buffers)) := by
  have hinv := apply_loop_moves move (e :: rest) fuel (applyStart gui_buffers) rfl
  refine ⟨hinv, ?_, ?_⟩
  · intro m hm
    rw [hinv, List.mem_filterMap] at hm
    obtain ⟨b, _, hb⟩ := hm
    obtain ⟨h1, h2, h3, h4, h5, h6, h7⟩ := expectedMove_some (e :: rest) b m hb
    rw [h4, h5, h6]
    exact ⟨h2, h3, h1, h7⟩
  · intro r hr
    simp only [gui_layout_buffer_apply] at hr
    split at hr
    · simp only [Option.some.injEq] at hr
      exact hr.symm
    · cases hr

/-- C9 on the example of the specification, with the renumbering modelled as
a move in the list: the store saved from `#test` = 1, `#dev` = 2 is applied
to the live list `#dev` = 1, `#test` = 2; `#dev` is processed first and moved
to 2, then `#test`, which is number 1 by then, is not moved. -/
theorem buffer_apply_moves_exactly_when_witness :
    gui_layout_buffer_apply gui_buffer_move_to_number (exampleBuffers.map layoutEntry) 3
        exchangedBuffers =
      some (gui_layout_buffer_apply_loop gui_buffer_move_to_number
        (exampleBuffers.map layoutEntry) 3 (applyStart exchangedBuffers)) ∧
    (gui_layout_buffer_apply_loop gui_buffer_move_to_number (exampleBuffers.map layoutEntry) 3
        (applyStart exchangedBuffers)).moves =
      [({ plugin_name := "irc", name := "#dev", number := 1, layout_number := 2,
          layout_applied := 1 }, 2)] ∧
    (gui_layout_buffer_apply_loop gui_buffer_move_to_number (exampleBuffers.map layoutEntry) 3
        (applyStart exchangedBuffers)).moves =
      (gui_layout_buffer_apply_loop gui_buffer_move_to_number (exampleBuffers.map layoutEntry)
        3 (applyStart exchangedBuffers)).processed.filterMap
        (expectedMove (exampleBuffers.map layoutEntry)) :=
  ⟨by decide, by decide,
   (buffer_apply_moves_exactly_when gui_buffer_move_to_number (layoutEntry (mkBuffer "irc" "#test" 1))
     [layoutEntry (mkBuffer "irc" "#dev" 2)] 3 exchangedBuffers).1⟩

/-- C10 fails as stated: with two live buffers whose names differ in letter
case only (`#a` number 1, `#A` number 2), both look up the entry of `#a`; the
first apply moves `#A` to 1, and the second apply finds `#a` at number 2 and
asks to move it to 1. -/
theorem second_apply_moves_again :
    gui_layout_buffer_save (some []) caseBuffers = some (caseBuffers.map layoutEntry) ∧
    gui_layout_buffer_apply gui_buffer_move_to_number (caseBuffers.map layoutEntry) 3
        caseBuffers =
      some { gui_buffers :=
               [{ plugin_name := "irc", name := "#A", number := 1, layout_number := 1,
                  layout_applied := 1 },
                { plugin_name := "irc", name := "#a", number := 2, layout_number := 1,
                  layout_applied := 1 }],
             moves :=
               [({ plugin_name := "irc", name := "#A", number := 2, layout_number := 1,
                   layout_applied := 1 }, 1)],
             processed := caseBuffers } ∧
    (gui_layout_buffer_apply gui_buffer_move_to_number (caseBuffers.map layoutEntry) 3
        [{ plugin_name := "irc", name := "#A", number := 1, layout_number := 1,
           layout_applied := 1 },
         { plugin_name := "irc", name := "#a", number := 2, layout_number := 1,
           layout_applied := 1 }]).map (fun r => r.moves) =
      some [({ plugin_name := "irc", name := "#a", number := 2, layout_number := 1,
               layout_applied := 1 }, 1)] := by
  decide

theorem equalIgnoringCase_refl (s : String) : equalIgnoringCase s s := rfl

/-- After a save of a live list without two buffers of the same identity up
to case, the lookup of each live buffer returns its own number. -/
theorem get_number_saved_self (L : List GuiBuffer)
    (hnd : L.Pairwise (fun a b => ¬ sameIdentity a b)) :
    ∀ b ∈ L, gui_layout_buffer_get_number (L.map layoutEntry) b.plugin_name b.name
      = b.number := by
  induction L with
  | nil => simp
  | cons a l ih =>
    rw [List.pairwise_cons] at hnd
    intro b hb
    rw [List.map_cons, get_number_cons]
    rcases List.mem_cons.mp hb with e | e
    · subst e
      have : (layoutEntry b).matchesName b.plugin_name b.name :=
        ⟨equalIgnoringCase_refl _, equalIgnoringCase_refl _⟩
      rw [if_pos this]
      rfl
    · have : ¬ (layoutEntry a).matchesName b.plugin_name b.name := hnd.1 b e
      simp only [this, if_false]
      exact ih hnd.2 b e

/-- When every live buffer already has the number that the store gives it,
the loop marks the buffers one by one and makes no request. -/
theorem apply_loop_on_target (move : List GuiBuffer → Nat → Int → List GuiBuffer)
    (store : List LayoutBuffer) (k : Nat) (st : ApplyState)
    (hQ : ∀ b ∈ st.gui_buffers,
      gui_layout_buffer_get_number store b.plugin_name b.name = b.number)
    (hk : st.gui_buffers.countP (fun b => decide (b.layout_applied = 0)) ≤ k) :
    (gui_layout_buffer_apply_loop move store k st).moves = st.moves ∧
    (∀ b ∈ (gui_layout_buffer_apply_loop move store k st).gui_buffers,
      gui_layout_buffer_get_number store b.plugin_name b.name = b.number) ∧
    (∀ b ∈ (gui_layout_buffer_apply_loop move store k st).gui_buffers, b.layout_applied ≠ 0) ∧
    (gui_layout_buffer_apply_loop move store k st).gui_buffers.length
      = st.gui_buffers.length := by
  induction k generalizing st with
  | zero =>
    simp only [Nat.le_zero, List.countP_eq_zero, decide_eq_true_eq] at hk
    exact ⟨rfl, hQ, hk, rfl⟩
  | succ k ih =>
    simp only [gui_layout_buffer_apply_loop]
    rcases apply_turn_eq move store st with ⟨h1, h2⟩ | ⟨pre, b, post, h1, h2, h3, h4⟩
    · rw [h1]
      exact ⟨rfl, hQ, h2, rfl⟩
    · have hb : gui_layout_buffer_get_number store b.plugin_name b.name = b.number :=
        hQ b (by rw [h1]; simp)
      have hm : expectedMove store b = none := by simp [expectedMove, hb]
      rw [h4, hm]
      simp only
      have hQ1 : ∀ x ∈ pre ++
          { b with layout_applied := 1,
                   layout_number := gui_layout_buffer_get_number store b.plugin_name b.name }
            :: post,
          gui_layout_buffer_get_number store x.plugin_name x.name = x.number := by
        intro x hx
        rcases List.mem_append.mp hx with e | e
        · exact hQ x (by rw [h1]; exact List.mem_append_left _ e)
        · rcases List.mem_cons.mp e with e | e
          · subst e; exact hb
          · exact hQ x (by rw [h1]; exact List.mem_append_right _ (List.mem_cons_of_mem _ e))
      have hk1 : (pre ++
          { b with layout_applied := 1,
                   layout_number := gui_layout_buffer_get_number store b.plugin_name b.name }
            :: post).countP (fun b => decide (b.layout_applied = 0)) ≤ k := by
        rw [h1] at hk
        have e1 : (if decide (b.layout_applied = 0) = true then 1 else 0) = 1 := by
          simp [h2]
        have e2 : (if decide ((1 : Int) = 0) = true then 1 else 0) = 0 := by
          simp
        simp only [List.countP_append, List.countP_cons, e1] at hk
        simp only [List.countP_append, List.countP_cons, e2]
        omega
      obtain ⟨r1, r2, r3, r4⟩ := ih
        { gui_buffers := pre ++
            { b with layout_applied := 1,
                     layout_number := gui_layout_buffer_get_number store b.plugin_name b.name }
              :: post,
          moves := st.moves, processed := st.processed ++ [b] } hQ1 hk1
      refine ⟨r1, r2, r3, ?_⟩
      rw [r4, h1]
      simp

/-- With every live buffer on its number, `gui_layout_buffer_apply` returns
within as many turns as there are buffers, having made no request. -/
theorem apply_on_target (move : List GuiBuffer → Nat → Int → List GuiBuffer)
    (store : List LayoutBuffer) (k : Nat) (bufs : List GuiBuffer)
    (hQ : ∀ b ∈ bufs, gui_layout_buffer_get_number store b.plugin_name b.name = b.number)
    (hk : bufs.length ≤ k) :
    ∃ r, gui_layout_buffer_apply move store k bufs = some r ∧ r.moves = [] ∧
      (∀ b ∈ r.gui_buffers,
        gui_layout_buffer_get_number store b.plugin_name b.name = b.number) ∧
      r.gui_buffers.length = bufs.length := by
  cases store with
  | nil => exact ⟨_, rfl, rfl, hQ, rfl⟩
  | cons e rest =>
    have hQ0 : ∀ b ∈ (applyStart bufs).gui_buffers,
        gui_layout_buffer_get_number (e :: rest) b.plugin_name b.name = b.number := by
      intro b hb
      simp only [applyStart, List.mem_map] at hb
      obtain ⟨a, ha, rfl⟩ := hb
      exact hQ a ha
    have hk0 : (applyStart bufs).gui_buffers.countP (fun b => decide (b.layout_applied = 0))
        ≤ k := by
      refine le_trans (List.countP_le_length _) ?_
      simpa [applyStart] using hk
    obtain ⟨r1, r2, r3, r4⟩ := apply_loop_on_target move (e :: rest) k (applyStart bufs) hQ0 hk0
    refine ⟨gui_layout_buffer_apply_loop move (e :: rest) k (applyStart bufs), ?_, r1, r2, ?_⟩
    · simp only [gui_layout_buffer_apply]
      have hall : (gui_layout_buffer_apply_loop move (e :: rest) k
          (applyStart bufs)).gui_buffers.all (fun b => decide (b.layout_applied ≠ 0)) = true := by
        rw [List.all_eq_true]
        intro b hb
        simpa using r3 b hb
      rw [← applyStart]
      simp only [hall, if_true]
    · rw [r4]
      simp [applyStart]

/-- C10, amended: for every live buffer list in which no two buffers have the
same plugin name and name up to letter case, and whatever the collaborator
`gui_buffer_move_to_number` does: after `gui_layout_buffer_save`, a first
`gui_layout_buffer_apply` on the same list returns without a request, and so
does a second one on the list left by the first. -/
theorem second_apply_issues_no_move (move : List GuiBuffer → Nat → Int → List GuiBuffer)
    (previous : List LayoutBuffer) (L : List GuiBuffer)
    (hnd : L.Pairwise (fun a b => ¬ sameIdentity a b)) :
    ∃ store r1 r2,
      gui_layout_buffer_save (some previous) L = some store ∧
      gui_layout_buffer_apply move store (L.length + 1) L = some r1 ∧ r1.moves = [] ∧
      gui_layout_buffer_apply move store (L.length + 1) r1.gui_buffers = some r2 ∧
      r2.moves = [] := by
  have hsave : gui_layout_buffer_save (some previous) L = some (L.map layoutEntry) := by
    simp only [gui_layout_buffer_save, remove_all_eq_nil, foldl_add_eq, List.nil_append]
  obtain ⟨r1, a1, a2, a3, a4⟩ := apply_on_target move (L.map layoutEntry) (L.length + 1) L
    (get_number_saved_self L hnd) (Nat.le_succ _)
  obtain ⟨r2, b1, b2, _, _⟩ := apply_on_target move (L.map layoutEntry) (L.length + 1)
    r1.gui_buffers a3 (by omega)
  exact ⟨_, r1, r2, hsave, a1, a2, b1, b2⟩

/-- C10 amended, on the example of the specification. -/
theorem second_apply_issues_no_move_witness :
    exampleBuffers.Pairwise (fun a b => ¬ sameIdentity a b) ∧
    ∃ store r1 r2,
      gui_layout_buffer_save (some exampleStore) exampleBuffers = some store ∧
      gui_layout_buffer_apply gui_buffer_move_to_number store
        (exampleBuffers.length + 1) exampleBuffers = some r1 ∧ r1.moves = [] ∧
      gui_layout_buffer_apply gui_buffer_move_to_number store
        (exampleBuffers.length + 1) r1.gui_buffers = some r2 ∧
      r2.moves = [] :=
  ⟨by decide,
   second_apply_issues_no_move gui_buffer_move_to_number exampleStore exampleBuffers
     (by decide)⟩

/-! ## One pass does not always reach the targets -/

/-- C12 fails as stated: on the example of the specification, with the
renumbering modelled as a move in the list, `gui_layout_buffer_apply` issues
one request only, the move of `#dev` to 2; no request is issued for `#test`,
which is number 1 when its turn comes. -/
theorem example_apply_single_move :
    gui_layout_buffer_save (some []) exampleBuffers = some (exampleBuffers.map layoutEntry) ∧
    (gui_layout_buffer_apply gui_buffer_move_to_number (exampleBuffers.map layoutEntry) 3
        exchangedBuffers).map (fun r => requestedMoves r.moves) = some [("#dev", 2)] ∧
    (gui_layout_buffer_apply gui_buffer_move_to_number (exampleBuffers.map layoutEntry) 3
        exchangedBuffers).map (fun r => decide (("#test", 1) ∈ requestedMoves r.moves))
      = some false := by
  decide

/-- C12, amended: for the store saved from `#test` = 1, `#dev` = 2 and the live
list `#dev` = 1, `#test` = 2, `gui_layout_buffer_apply` processes `#dev` then
`#test`, issues the single request to move `#dev` to 2 and ends with
`#test` = 1 and `#dev` = 2. -/
theorem example_apply_result :
    (gui_layout_buffer_apply gui_buffer_move_to_number (exampleBuffers.map layoutEntry) 3
        exchangedBuffers).map
      (fun r => (namesAndNumbers r.processed, requestedMoves r.moves,
        namesAndNumbers r.gui_buffers)) =
      some ([("#dev", 1), ("#test", 1)], [("#dev", 2)], [("#test", 1), ("#dev", 2)]) := by
  decide

/-- C11, on the failing input: the store saved from the buffers `#a` = 1,
`#b` = 2, `#c` = 3, `#d` = 4 is applied to the same buffers in the order `#c`,
`#d`, `#b`, `#a`, the renumbering being the move of the buffer to the position
asked. The apply processes `#c`, `#d`, `#b`, `#a` in turn and asks to move each
to its number in the store, each move shifting the buffers placed before: at
the end the list is `#a`, `#c`, `#b`, `#d`, so `#c`, whose number in the store
is 3, is number 2 and `#b`, whose number in the store is 2, is number 3; and a
second apply asks to move `#c` to 3. -/
theorem one_apply_misses_targets :
    gui_layout_buffer_save (some []) savedFour = some (savedFour.map layoutEntry) ∧
    gui_layout_buffer_get_number (savedFour.map layoutEntry) "irc" "#c" = 3 ∧
    gui_layout_buffer_get_number (savedFour.map layoutEntry) "irc" "#b" = 2 ∧
    (gui_layout_buffer_apply gui_buffer_move_to_number (savedFour.map layoutEntry) 5
        liveFour).map (fun r => (namesAndNumbers r.processed, requestedMoves r.moves)) =
      some ([("#c", 1), ("#d", 1), ("#b", 1), ("#a", 3)],
            [("#c", 3), ("#d", 4), ("#b", 2), ("#a", 1)]) ∧
    (gui_layout_buffer_apply gui_buffer_move_to_number (savedFour.map layoutEntry) 5
        liveFour).map (fun r => namesAndNumbers r.gui_buffers) =
      some [("#a", 1), ("#c", 2), ("#b", 3), ("#d", 4)] ∧
    ((gui_layout_buffer_apply gui_buffer_move_to_number (savedFour.map layoutEntry) 5
        liveFour).bind (fun r =>
          gui_layout_buffer_apply gui_buffer_move_to_number (savedFour.map layoutEntry) 5
            r.gui_buffers)).map (fun r => requestedMoves r.moves) = some [("#c", 3)] := by
  decide

theorem findIdx?_first (p : GuiBuffer → Bool) (pre : List GuiBuffer) (b : GuiBuffer)
    (post : List GuiBuffer) (hpre : ∀ x ∈ pre, p x = false) (hb : p b = true) :
    (pre ++ b :: post).findIdx? p = some pre.length := by
  induction pre with
  | nil => simp [List.findIdx?_cons, hb]
  | cons a rest ih =>
    have ha : p a = false := hpre a (List.mem_cons_self _ _)
    have := ih (fun x hx => hpre x (List.mem_cons_of_mem _ hx))
    simp [List.findIdx?_cons, ha, List.findIdx?_succ, this]

/-- One turn of the loop when the list is cut at its first buffer not yet
processed. -/
theorem apply_turn_at (move : List GuiBuffer → Nat → Int → List GuiBuffer)
    (store : List LayoutBuffer) (pre : List GuiBuffer) (b : GuiBuffer)
    (post : List GuiBuffer) (moves : List (GuiBuffer × Int)) (processed : List GuiBuffer)
    (hpre : ∀ x ∈ pre, x.layout_applied ≠ 0) (hb : b.layout_applied = 0) :
    gui_layout_buffer_apply_turn move store
        { gui_buffers := pre ++ b :: post, moves := moves, processed := processed } =
      some (if onTarget store b then
          { gui_buffers := pre ++ markApplied store b :: post, moves := moves,
            processed := processed ++ [b] }
        else
          { gui_buffers :=
              move (pre ++ markApplied store b :: post) pre.length
                (gui_layout_buffer_get_number store b.plugin_name b.name),
            moves := moves ++ [(markApplied store b,
              gui_layout_buffer_get_number store b.plugin_name b.name)],
            processed := processed ++ [b] }) := by
  have hidx : (pre ++ b :: post).findIdx? (fun b => decide (b.layout_applied = 0))
      = some pre.length :=
    findIdx?_first _ pre b post (fun x hx => by simpa using hpre x hx) (by simpa using hb)
  have hget : (pre ++ b :: post)[pre.length]? = some b := by
    rw [List.getElem?_append_right (le_refl _)]
    simp
  have hset : ∀ m, (pre ++ b :: post).set pre.length m = pre ++ m :: post := by
    intro m; simp
  simp only [gui_layout_buffer_apply_turn, hidx, hget, hset, onTarget, markApplied]
  by_cases hc : 0 < gui_layout_buffer_get_number store b.plugin_name b.name ∧
      gui_layout_buffer_get_number store b.plugin_name b.name ≠ b.number
  · simp only [gt_iff_lt, hc, and_self, not_true_eq_false, if_true, if_false, ne_eq,
      not_false_eq_true]
  · simp only [gt_iff_lt, ne_eq, hc, not_false_eq_true, if_true, if_false]

/-- The list of requests only grows during the loop. -/
theorem apply_loop_moves_grow (move : List GuiBuffer → Nat → Int → List GuiBuffer)
    (store : List LayoutBuffer) (fuel : Nat) (st : ApplyState) :
    ∃ extra, (gui_layout_buffer_apply_loop move store fuel st).moves = st.moves ++ extra := by
  induction fuel generalizing st with
  | zero => exact ⟨[], by simp [gui_layout_buffer_apply_loop]⟩
  | succ k ih =>
    simp only [gui_layout_buffer_apply_loop]
    rcases apply_turn_eq move store st with ⟨h1, _⟩ | ⟨pre, b, post, _, _, _, h4⟩
    · rw [h1]; exact ⟨[], by simp⟩
    · rw [h4]
      cases hm : expectedMove store b with
      | none =>
        obtain ⟨extra, he⟩ := ih
          { gui_buffers := pre ++
              { b with layout_applied := 1,
                       layout_number := gui_layout_buffer_get_number store b.plugin_name b.name }
                :: post,
            moves := st.moves, processed := st.processed ++ [b] }
        exact ⟨extra, he⟩
      | some m =>
        obtain ⟨extra, he⟩ := ih
          { gui_buffers := move (pre ++ m.1 :: post) pre.length m.2,
            moves := st.moves ++ [m], processed := st.processed ++ [b] }
        exact ⟨m :: extra, by rw [he]; simp⟩

/-- The loop on a list whose first part is processed and whose second part is
not: when every buffer of the second part is on its target the loop marks
them and makes no request; when one is not, a request is made. -/
theorem apply_loop_prefix (move : List GuiBuffer → Nat → Int → List GuiBuffer)
    (store : List LayoutBuffer) (rest pre : List GuiBuffer) (moves : List (GuiBuffer × Int))
    (processed : List GuiBuffer) (fuel : Nat)
    (hpre : ∀ x ∈ pre, x.layout_applied ≠ 0) (hrest : ∀ x ∈ rest, x.layout_applied = 0)
    (hfuel : rest.length ≤ fuel) :
    ((∀ b ∈ rest, onTarget store b) →
      gui_layout_buffer_apply_loop move store fuel
          { gui_buffers := pre ++ rest, moves := moves, processed := processed } =
        { gui_buffers := pre ++ rest.map (markApplied store), moves := moves,
          processed := processed ++ rest }) ∧
    ((∃ b ∈ rest, ¬ onTarget store b) →
      (gui_layout_buffer_apply_loop move store fuel
          { gui_buffers := pre ++ rest, moves := moves, processed := processed }).moves
        ≠ moves) := by
  induction rest generalizing pre processed fuel with
  | nil =>
    constructor
    · intro _
      cases fuel with
      | zero => simp [gui_layout_buffer_apply_loop]
      | succ k =>
        simp only [gui_layout_buffer_apply_loop]
        rcases apply_turn_eq move store
          { gui_buffers := pre ++ [], moves := moves, processed := processed } with
          ⟨h1, _⟩ | ⟨p1, b, q1, h1, h2, _, _⟩
        · rw [h1]; simp
        · exfalso
          simp only [List.append_nil] at h1
          exact hpre b (by rw [h1]; simp) h2
    · rintro ⟨b, hb, _⟩
      cases hb
  | cons a rest ih =>
    cases fuel with
    | zero => simp at hfuel
    | succ k =>
      have ha : a.layout_applied = 0 := hrest a (List.mem_cons_self _ _)
      have hturn := apply_turn_at move store pre a rest moves processed hpre ha
      have hpre1 : ∀ x ∈ pre ++ [markApplied store a], x.layout_applied ≠ 0 := by
        intro x hx
        rcases List.mem_append.mp hx with e | e
        · exact hpre x e
        · simp only [List.mem_singleton] at e
          subst e
          simp [markApplied]
      have hk : rest.length ≤ k := by simpa using hfuel
      obtain ⟨ih1, ih2⟩ := ih (pre ++ [markApplied store a]) (processed ++ [a]) k hpre1
        (fun x hx => hrest x (List.mem_cons_of_mem _ hx)) hk
      simp only [gui_layout_buffer_apply_loop, hturn]
      constructor
      · intro hall
        have hta : onTarget store a := hall a (List.mem_cons_self _ _)
        simp only [hta, if_true]
        have := ih1 (fun b hb => hall b (List.mem_cons_of_mem _ hb))
        simp only [List.append_assoc, List.singleton_append] at this
        rw [this]
        simp only [List.map_cons]
      · rintro ⟨b, hb, hnb⟩
        by_cases hta : onTarget store a
        · simp only [hta, if_true]
          rcases List.mem_cons.mp hb with e | e
          · subst e; exact absurd hta hnb
          · have := ih2 ⟨b, e, hnb⟩
            simpa only [List.append_assoc, List.singleton_append] using this
        · simp only [hta, if_false]
          obtain ⟨extra, he⟩ := apply_loop_moves_grow move store k
            { gui_buffers :=
                move (pre ++ markApplied store a :: rest) pre.length
                  (gui_layout_buffer_get_number store a.plugin_name a.name),
              moves := moves ++ [(markApplied store a,
                gui_layout_buffer_get_number store a.plugin_name a.name)],
              processed := processed ++ [a] }
          rw [he]
          intro hcon
          have hlen := congrArg List.length hcon
          simp at hlen

theorem onTarget_reset (store : List LayoutBuffer) (b : GuiBuffer) :
    onTarget store { b with layout_applied := 0 } ↔ onTarget store b := Iff.rfl

/-- An apply issues no request exactly when the store is empty or every live
buffer is on its target. -/
theorem apply_no_move_iff (move : List GuiBuffer → Nat → Int → List GuiBuffer)
    (store : List LayoutBuffer) (bufs : List GuiBuffer) :
    (∃ r, gui_layout_buffer_apply move store (bufs.length + 1) bufs = some r ∧ r.moves = []) ↔
      (store = [] ∨ ∀ b ∈ bufs, onTarget store b) := by
  cases store with
  | nil => simp [gui_layout_buffer_apply]
  | cons e rest =>
    have hstart : applyStart bufs =
        { gui_buffers := [] ++ bufs.map (fun b => { b with layout_applied := 0 }),
          moves := [], processed := [] } := rfl
    obtain ⟨h1, h2⟩ := apply_loop_prefix move (e :: rest)
      (bufs.map (fun b => { b with layout_applied := 0 })) [] [] [] (bufs.length + 1)
      (by simp) (by simp) (by simp)
    have hall : (∀ b ∈ bufs.map (fun b => { b with layout_applied := 0 }),
        onTarget (e :: rest) b) ↔ ∀ b ∈ bufs, onTarget (e :: rest) b := by
      simp only [List.mem_map, forall_exists_index, and_imp, forall_apply_eq_imp_iff₂]
      exact Iff.rfl
    simp only [reduceCtorEq, false_or]
    constructor
    · rintro ⟨r, hr, hm⟩
      by_contra hcon
      rw [← hall] at hcon
      simp only [not_forall] at hcon
      obtain ⟨b, hb, hnb⟩ := hcon
      have hne := h2 ⟨b, hb, hnb⟩
      simp only [gui_layout_buffer_apply] at hr
      split at hr
      · simp only [Option.some.injEq] at hr
        rw [← hr] at hm
        exact hne hm
      · cases hr
    · intro hon
      have heq := h1 (hall.mpr hon)
      rw [← hstart] at heq
      refine ⟨gui_layout_buffer_apply_loop move (e :: rest) (bufs.length + 1) (applyStart bufs),
        ?_, by rw [heq]⟩
      simp only [gui_layout_buffer_apply]
      rw [← applyStart, if_pos]
      rw [heq]
      simp only [List.nil_append, List.all_map, List.all_eq_true, Function.comp,
        decide_eq_true_eq]
      intro x _
      simp [markApplied]

/-! ## Binding buffers to windows -/

theorem find?_of_first (p : GuiBuffer → Bool) (bufs : List GuiBuffer) (j : Nat) (b : GuiBuffer)
    (hj : bufs[j]? = some b) (hb : p b = true)
    (hfirst : ∀ (i : Nat) (b' : GuiBuffer), i < j → bufs[i]? = some b' → p b' = false) :
    bufs.find? p = some b := by
  induction bufs generalizing j with
  | nil => simp at hj
  | cons a rest ih =>
    cases j with
    | zero =>
      simp only [List.getElem?_cons_zero, Option.some.injEq] at hj
      subst hj
      simp [hb]
    | succ k =>
      have ha : p a = false := hfirst 0 a (Nat.succ_pos k) (by simp)
      rw [List.find?_cons_of_neg _ (by simp [ha])]
      exact ih k (by simpa using hj) (fun i b' hi hb' =>
        hfirst (i + 1) b' (by omega) (by simpa using hb'))

/-- C15: `gui_layout_window_check_all_buffers` goes through the windows in
order and issues at most one bind for each: none for a window that lacks one
of the two intended names; none for a window whose intended names are those
of no live buffer; and, for a window whose intended names are both present, a
bind of the first buffer of the live list whose plugin name and name are
equal to them. -/
theorem check_all_buffers_first_match (gui_buffers : List GuiBuffer) :
    gui_layout_window_check_all_buffers [] gui_buffers = [] ∧
    (∀ ws, (gui_layout_window_check_all_buffers ws gui_buffers).length ≤ ws.length) ∧
    (∀ w ws, (w.layout_plugin_name = none ∨ w.layout_buffer_name = none) →
      gui_layout_window_check_all_buffers (w :: ws) gui_buffers =
        gui_layout_window_check_all_buffers ws gui_buffers) ∧
    (∀ w ws pn bn, w.layout_plugin_name = some pn → w.layout_buffer_name = some bn →
      (∀ b ∈ gui_buffers, ¬ (b.plugin_name = pn ∧ b.name = bn)) →
      gui_layout_window_check_all_buffers (w :: ws) gui_buffers =
        gui_layout_window_check_all_buffers ws gui_buffers) ∧
    (∀ w ws pn bn (j : Nat) (b : GuiBuffer),
      w.layout_plugin_name = some pn → w.layout_buffer_name = some bn →
      gui_buffers[j]? = some b → b.plugin_name = pn → b.name = bn →
      (∀ (i : Nat) (b' : GuiBuffer), i < j → gui_buffers[i]? = some b' →
        ¬ (b'.plugin_name = pn ∧ b'.name = bn)) →
      gui_layout_window_check_all_buffers (w :: ws) gui_buffers =
        (w.id, b) :: gui_layout_window_check_all_buffers ws gui_buffers) := by
  refine ⟨rfl, ?_, ?_, ?_, ?_⟩
  · intro ws
    exact List.length_filterMap_le _ _
  · intro w ws hw
    simp only [gui_layout_window_check_all_buffers, List.filterMap_cons]
    rcases hw with hw | hw
    · rw [hw]
    · rw [hw]
      cases w.layout_plugin_name <;> rfl
  · intro w ws pn bn hpn hbn hno
    have hfind : gui_buffers.find? (fun ptr_buffer =>
        decide (pn = ptr_buffer.plugin_name) && decide (bn = ptr_buffer.name)) = none := by
      rw [List.find?_eq_none]
      intro b hb
      have := hno b hb
      simp only [Bool.and_eq_true, decide_eq_true_eq]
      exact fun h => this ⟨h.1.symm, h.2.symm⟩
    simp only [gui_layout_window_check_all_buffers, List.filterMap_cons, hpn, hbn, hfind]
  · intro w ws pn bn j b hpn hbn hj hbp hbname hfirst
    have hfind : gui_buffers.find? (fun ptr_buffer =>
        decide (pn = ptr_buffer.plugin_name) && decide (bn = ptr_buffer.name)) = some b := by
      apply find?_of_first _ gui_buffers j b hj
      · simp [hbp, hbname]
      · intro i b' hi hb'
        have := hfirst i b' hi hb'
        simp only [Bool.and_eq_false_imp, decide_eq_true_eq, decide_eq_false_iff_not]
        exact fun h1 h2 => this ⟨h1.symm, h2.symm⟩
    simp only [gui_layout_window_check_all_buffers, List.filterMap_cons, hpn, hbn, hfind]

/-- C15 on an example: with two live buffers named `irc/#a`, each window
waiting for `irc/#a` is bound to the first of them, and the window without
intended names and the one waiting for `IRC/#a` are not bound. -/
theorem check_all_buffers_first_match_witness :
    gui_layout_window_check_all_buffers exampleWindows
        [mkBuffer "core" "weechat" 1, mkBuffer "irc" "#a" 2, mkBuffer "irc" "#a" 3] =
      [(1, mkBuffer "irc" "#a" 2), (4, mkBuffer "irc" "#a" 2)] ∧
    gui_layout_window_check_all_buffers
        [{ id := 1, buffer := mkBuffer "core" "weechat" 1,
           layout_plugin_name := some "irc", layout_buffer_name := some "#a" }]
        [mkBuffer "core" "weechat" 1, mkBuffer "irc" "#a" 2, mkBuffer "irc" "#a" 3] =
      (1, mkBuffer "irc" "#a" 2) :: gui_layout_window_check_all_buffers []
        [mkBuffer "core" "weechat" 1, mkBuffer "irc" "#a" 2, mkBuffer "irc" "#a" 3] :=
  ⟨by decide,
   (check_all_buffers_first_match
      [mkBuffer "core" "weechat" 1, mkBuffer "irc" "#a" 2, mkBuffer "irc" "#a" 3]).2.2.2.2
     { id := 1, buffer := mkBuffer "core" "weechat" 1,
       layout_plugin_name := some "irc", layout_buffer_name := some "#a" }
     [] "irc" "#a" 1 (mkBuffer "irc" "#a" 2) rfl rfl (by decide) rfl rfl
     (fun i b' hi hb' => by
       have hi0 : i = 0 := by omega
       subst hi0
       simp only [List.getElem?_cons_zero, Option.some.injEq] at hb'
       subst hb'
       decide)⟩

/-- C16: for every buffer and every list of windows,
`gui_layout_window_check_buffer` goes through the windows in order and binds
the buffer to a window exactly when the two intended names of the window are
present and equal, character for character, to the plugin name and the name
of the buffer; so the windows bound are all those with these intended names,
in order, and a window whose intended names differ from them, be it in letter
case only, is not bound. -/
theorem check_buffer_binds_exact_matches (buffer : GuiBuffer) :
    gui_layout_window_check_buffer [] buffer = [] ∧
    (∀ w ws, w.layout_plugin_name = some buffer.plugin_name →
      w.layout_buffer_name = some buffer.name →
      gui_layout_window_check_buffer (w :: ws) buffer =
        (w.id, buffer) :: gui_layout_window_check_buffer ws buffer) ∧
    (∀ w ws, ¬ (w.layout_plugin_name = some buffer.plugin_name ∧
        w.layout_buffer_name = some buffer.name) →
      gui_layout_window_check_buffer (w :: ws) buffer =
        gui_layout_window_check_buffer ws buffer) ∧
    (∀ ws, gui_layout_window_check_buffer ws buffer =
      (ws.filter (fun w => decide (w.layout_plugin_name = some buffer.plugin_name ∧
        w.layout_buffer_name = some buffer.name))).map (fun w => (w.id, buffer))) := by
  have hyes : ∀ w ws, w.layout_plugin_name = some buffer.plugin_name →
      w.layout_buffer_name = some buffer.name →
      gui_layout_window_check_buffer (w :: ws) buffer =
        (w.id, buffer) :: gui_layout_window_check_buffer ws buffer := by
    intro w ws h1 h2
    simp [gui_layout_window_check_buffer, List.filterMap_cons, h1, h2]
  have hno : ∀ w ws, ¬ (w.layout_plugin_name = some buffer.plugin_name ∧
        w.layout_buffer_name = some buffer.name) →
      gui_layout_window_check_buffer (w :: ws) buffer =
        gui_layout_window_check_buffer ws buffer := by
    intro w ws hne
    simp only [gui_layout_window_check_buffer, List.filterMap_cons]
    cases h1 : w.layout_plugin_name with
    | none => rfl
    | some pn =>
      cases h2 : w.layout_buffer_name with
      | none => rfl
      | some bn =>
        have : ¬ (pn = buffer.plugin_name ∧ bn = buffer.name) := by
          rintro ⟨e1, e2⟩
          exact hne ⟨by rw [h1, e1], by rw [h2, e2]⟩
        simp only [this, if_false]
  refine ⟨rfl, hyes, hno, ?_⟩
  intro ws
  induction ws with
  | nil => rfl
  | cons w ws ih =>
    by_cases hw : w.layout_plugin_name = some buffer.plugin_name ∧
        w.layout_buffer_name = some buffer.name
    · rw [hyes w ws hw.1 hw.2, ih, List.filter_cons_of_pos (by simpa using hw)]
      rfl
    · rw [hno w ws hw, ih, List.filter_cons_of_neg (by simpa using hw)]

/-- C16 on an example: the buffer `irc/#a` is bound to the two windows waiting
for `irc/#a`, not to the window waiting for `IRC/#a` nor to the window without
intended names. -/
theorem check_buffer_binds_exact_matches_witness :
    gui_layout_window_check_buffer exampleWindows (mkBuffer "irc" "#a" 2) =
      [(1, mkBuffer "irc" "#a" 2), (4, mkBuffer "irc" "#a" 2)] ∧
    equalIgnoringCase "IRC" "irc" ∧
    gui_layout_window_check_buffer
        [{ id := 3, buffer := mkBuffer "core" "weechat" 1,
           layout_plugin_name := some "IRC", layout_buffer_name := some "#a" }]
        (mkBuffer "irc" "#a" 2) =
      gui_layout_window_check_buffer [] (mkBuffer "irc" "#a" 2) :=
  ⟨by decide, by decide,
   (check_buffer_binds_exact_matches (mkBuffer "irc" "#a" 2)).2.2.1
     { id := 3, buffer := mkBuffer "core" "weechat" 1,
       layout_plugin_name := some "IRC", layout_buffer_name := some "#a" } [] (by decide)⟩

/-- C17: with an empty stored tree `gui_layout_window_apply` does nothing: no
call of the windowing collaborator is made (no merge, split, switch, tag or
bind) and the live screen is left as it is: the tree of windows with their
intended names, the current window and the pointer
`gui_layout_ptr_current_window`. -/
theorem apply_empty_tree_does_nothing (internal_id_current_window : Int) (g : Gui) :
    gui_layout_window_apply_calls .null internal_id_current_window g = [] ∧
    gui_layout_window_apply .null internal_id_current_window g = g :=
  ⟨rfl, rfl⟩

theorem save_tree_leafOrSplit (cur : Nat) (t : WindowTree) (i c : Int)
    (ht : t.isSplitTree = true) (hr : t.splitsInRange = true) :
    (gui_layout_window_save_tree cur t (i, c)).1.leafOrSplit = true := by
  induction t generalizing i c with
  | null => simp [WindowTree.isSplitTree] at ht
  | node w p h a b ih1 ih2 =>
    rw [save_tree_node]
    simp only
    generalize hc : (match w with
      | some x => if x.id = cur then i else c
      | none => c) = c'
    cases w with
    | some x =>
      simp only [WindowTree.isSplitTree, Bool.and_eq_true, decide_eq_true_eq] at ht
      obtain ⟨e1, e2⟩ := ht
      subst e1 e2
      simp [gui_layout_window_save_tree, savedFields, LayoutWindow.leafOrSplit]
    | none =>
      simp only [WindowTree.isSplitTree, Bool.and_eq_true] at ht
      simp only [WindowTree.splitsInRange, Option.isSome_none, Bool.false_or, Bool.and_eq_true,
        decide_eq_true_eq] at hr
      obtain ⟨⟨⟨hp1, hp2⟩, hr1⟩, hr2⟩ := hr
      have n1 : (gui_layout_window_save_tree cur a (i + 1, c')).1 ≠ .null := by
        rw [Ne, save_tree_null_iff]
        intro e
        rw [e] at ht
        simp [WindowTree.isSplitTree] at ht
      have hp0 : p ≠ 0 := by omega
      have h1 := ih1 (i + 1) c' ht.1 hr1
      have h2 := ih2 (gui_layout_window_save_tree cur a (i + 1, c')).2.1
        (gui_layout_window_save_tree cur a (i + 1, c')).2.2 ht.2 hr2
      simp [n1, savedFields, LayoutWindow.leafOrSplit, hp0, hp1, hp2, h1, h2]

/-- C18: in the tree stored by `gui_layout_window_save` for a live tree whose
leaf regions have no children and whose split nodes have two children and a
percentage from 1 to 99, every node has `split_pct == 0` if and only if it has
no child, and if and only if it carries a plugin name and a buffer name; every
other node has a `split_pct` from 1 to 99 and carries neither name. -/
theorem saved_tree_leaf_or_split (globals : LayoutGlobals) (t : WindowTree) (cur : Nat)
    (ht : t.isSplitTree = true) (hr : t.splitsInRange = true) :
    (gui_layout_window_save globals t cur).1.gui_layout_windows.leafOrSplit = true :=
  save_tree_leafOrSplit cur t 1 (-1) ht hr

/-- C18 on the example screen. -/
theorem saved_tree_leaf_or_split_witness :
    exampleTree.isSplitTree = true ∧ exampleTree.splitsInRange = true ∧
    (gui_layout_window_save exampleGlobals exampleTree 3).1.gui_layout_windows.leafOrSplit
      = true :=
  ⟨by decide, by decide,
   saved_tree_leaf_or_split exampleGlobals exampleTree 3 (by decide) (by decide)⟩

/-! ## The calls made by an apply account for its effect -/

theorem run_screen (c : WindowCall) (g g' : Gui) (h : g.screen = g'.screen) :
    (WindowCall.run g c).screen = (WindowCall.run g' c).screen := by
  obtain ⟨t, cw, bufs, ptr, n⟩ := g
  obtain ⟨t', cw', bufs', ptr', n'⟩ := g'
  simp only [Gui.screen, Prod.mk.injEq] at h
  obtain ⟨e1, e2, e3, e4⟩ := h
  subst e1 e2 e3 e4
  cases c with
  | merge_all w =>
    simp only [WindowCall.run, gui_window_merge_all]
    cases t.findWindow w <;> rfl
  | split_horizontal w pct => rfl
  | split_vertical w pct => rfl
  | switch w => rfl
  | set_layout_plugin_name w name => rfl
  | set_layout_buffer_name w name => rfl
  | switch_to_buffer w b => rfl

theorem foldl_run_screen (calls : List WindowCall) (g g' : Gui) (h : g.screen = g'.screen) :
    (calls.foldl WindowCall.run g).screen = (calls.foldl WindowCall.run g').screen := by
  induction calls generalizing g g' with
  | nil => exact h
  | cons c rest ih => exact ih _ _ (run_screen c g g' h)

/-- Running the calls listed for `gui_layout_window_apply_tree` changes the
screen as the function does. -/
theorem apply_tree_calls_run (fid : Int) (lw : LayoutWindow) (g : Gui) :
    ((gui_layout_window_apply_tree_calls fid lw g).foldl WindowCall.run g).screen =
      (gui_layout_window_apply_tree fid lw g).screen := by
  induction lw generalizing g with
  | null => rfl
  | node id pct horiz c1 c2 pn bn ih1 ih2 =>
    by_cases hp : pct = 0
    · simp only [gui_layout_window_apply_tree_calls, gui_layout_window_apply_tree, hp, ne_eq,
        not_true_eq_false, if_false, List.foldl_cons, List.foldl_nil, WindowCall.run]
      by_cases hid : id = fid <;> simp only [hid, if_true, if_false] <;> rfl
    · simp only [gui_layout_window_apply_tree_calls, gui_layout_window_apply_tree, hp, ne_eq,
        not_false_eq_true, if_true, List.foldl_append]
      generalize hg1 : (if ¬horiz = 0 then
          gui_window_split_horizontal g g.gui_current_window pct
        else gui_window_split_vertical g g.gui_current_window pct) = g1
      have hs : List.foldl WindowCall.run g
          (if ¬horiz = 0 then [WindowCall.split_horizontal g.gui_current_window pct]
            else [WindowCall.split_vertical g.gui_current_window pct]) = g1 := by
        rw [← hg1]
        by_cases hh : horiz = 0 <;> simp [hh, WindowCall.run]
      rw [hs]
      have h2 := ih2 g1
      generalize hg2 : gui_layout_window_apply_tree fid c2 g1 = g2 at h2
      generalize hs2 : List.foldl WindowCall.run g1
        (gui_layout_window_apply_tree_calls fid c2 g1) = s2 at h2
      generalize hg3 : (if ¬g.gui_current_window = g2.gui_current_window then
          gui_window_switch g2 g.gui_current_window else g2) = g3
      have h3 : (List.foldl WindowCall.run s2
          (if ¬g.gui_current_window = g2.gui_current_window then
            [WindowCall.switch g.gui_current_window] else [])).screen = g3.screen := by
        rw [← hg3]
        by_cases hc : g.gui_current_window = g2.gui_current_window
        · simpa [hc] using h2
        · simp only [hc, not_false_eq_true, if_true, List.foldl_cons, List.foldl_nil]
          exact run_screen (WindowCall.switch g.gui_current_window) s2 g2 h2
      rw [foldl_run_screen _ _ g3 h3]
      exact ih1 g3

/-- Running the calls listed for `gui_layout_window_apply` changes the screen
as the function does. -/
theorem apply_calls_run (fid : Int) (lw : LayoutWindow) (g : Gui) :
    ((gui_layout_window_apply_calls lw fid g).foldl WindowCall.run g).screen =
      (gui_layout_window_apply lw fid g).screen := by
  cases lw with
  | null => rfl
  | node id pct horiz c1 c2 pn bn =>
    simp only [gui_layout_window_apply_calls, gui_layout_window_apply, List.foldl_append,
      List.foldl_cons, List.foldl_nil]
    generalize hg1 : gui_window_merge_all g g.gui_current_window = g1
    have hm : WindowCall.run g (WindowCall.merge_all g.gui_current_window) = g1 := hg1
    rw [hm]
    generalize hg2 : ({ g1 with gui_layout_ptr_current_window := none } : Gui) = g2
    have h12 : g1.screen = g2.screen := by rw [← hg2]; rfl
    have h3 := apply_tree_calls_run fid (.node id pct horiz c1 c2 pn bn) g2
    rw [← foldl_run_screen _ g1 g2 h12] at h3
    generalize hg3 : gui_layout_window_apply_tree fid (.node id pct horiz c1 c2 pn bn) g2 = g3
      at h3 ⊢
    generalize hs3 : List.foldl WindowCall.run g1
      (gui_layout_window_apply_tree_calls fid (.node id pct horiz c1 c2 pn bn) g2) = s3 at h3 ⊢
    have h4 : ∀ (binds : List (Nat × GuiBuffer)) (s g' : Gui), s.screen = g'.screen →
        (List.foldl WindowCall.run s
          (binds.map (fun b => WindowCall.switch_to_buffer b.1 b.2))).screen =
        (binds.foldl (fun g b => gui_window_switch_to_buffer g b.1 b.2) g').screen := by
      intro binds
      induction binds with
      | nil => intro s g' h; exact h
      | cons b rest ih =>
        intro s g' h
        simp only [List.map_cons, List.foldl_cons]
        exact ih _ _ (run_screen (WindowCall.switch_to_buffer b.1 b.2) s g' h)
    exact run_screen _ _ _ (h4 _ s3 g3 h3)

/-! ## The linked list of the buffer layout store -/

theorem length_setNextLayout (m : List (Option LayoutBufferCell)) (p : Nat) (nx : Option Nat) :
    (setNextLayout m p nx).length = m.length := by
  unfold setNextLayout
  split <;> simp

theorem length_setPrevLayout (m : List (Option LayoutBufferCell)) (p : Nat) (pv : Option Nat) :
    (setPrevLayout m p pv).length = m.length := by
  unfold setPrevLayout
  split <;> simp

theorem getElem?_setNextLayout_ne (m : List (Option LayoutBufferCell)) (p q : Nat)
    (nx : Option Nat) (h : q ≠ p) : (setNextLayout m p nx)[q]? = m[q]? := by
  unfold setNextLayout
  split
  · exact List.getElem?_set_ne (Ne.symm h)
  · rfl

theorem getElem?_setPrevLayout_ne (m : List (Option LayoutBufferCell)) (p q : Nat)
    (pv : Option Nat) (h : q ≠ p) : (setPrevLayout m p pv)[q]? = m[q]? := by
  unfold setPrevLayout
  split
  · exact List.getElem?_set_ne (Ne.symm h)
  · rfl

theorem getElem?_lt (m : List (Option LayoutBufferCell)) (p : Nat) (c : Option LayoutBufferCell)
    (h : m[p]? = some c) : p < m.length := by
  by_contra hcon
  rw [List.getElem?_eq_none (by omega)] at h
  cases h

theorem getElem?_setNextLayout_self (m : List (Option LayoutBufferCell)) (p : Nat)
    (nx : Option Nat) (c : LayoutBufferCell) (h : m[p]? = some (some c)) :
    (setNextLayout m p nx)[p]? = some (some { c with next_layout := nx }) := by
  unfold setNextLayout
  rw [h]
  simp only
  exact List.getElem?_set_self (getElem?_lt m p _ h)

theorem getElem?_setPrevLayout_self (m : List (Option LayoutBufferCell)) (p : Nat)
    (pv : Option Nat) (c : LayoutBufferCell) (h : m[p]? = some (some c)) :
    (setPrevLayout m p pv)[p]? = some (some { c with prev_layout := pv }) := by
  unfold setPrevLayout
  rw [h]
  simp only
  exact List.getElem?_set_self (getElem?_lt m p _ h)

theorem chain_cons (m : List (Option LayoutBufferCell)) (prev : Option Nat) (a : Nat)
    (e : LayoutBuffer) (rest : List (Nat × LayoutBuffer)) :
    Linked.chain m prev ((a, e) :: rest) = true ↔
      m[a]? = some (some (e.cell prev (rest.head?.map Prod.fst))) ∧
      Linked.chain m (some a) rest = true := by
  simp [Linked.chain]

theorem chain_congr (m m' : List (Option LayoutBufferCell)) (prev : Option Nat)
    (cells : List (Nat × LayoutBuffer)) (h : ∀ a ∈ cells.map Prod.fst, m'[a]? = m[a]?) :
    Linked.chain m' prev cells = Linked.chain m prev cells := by
  induction cells generalizing prev with
  | nil => rfl
  | cons c rest ih =>
    obtain ⟨a, e⟩ := c
    simp only [Linked.chain]
    have hrest : ∀ x ∈ rest.map Prod.fst, m'[x]? = m[x]? := by
      intro x hx
      apply h x
      simp only [List.map_cons, List.mem_cons]
      exact Or.inr hx
    rw [h a (by simp), ih (some a) hrest]

theorem chain_lt (m : List (Option LayoutBufferCell)) (prev : Option Nat)
    (cells : List (Nat × LayoutBuffer)) (h : Linked.chain m prev cells = true) :
    ∀ a ∈ cells.map Prod.fst, a < m.length := by
  induction cells generalizing prev with
  | nil => simp
  | cons c rest ih =>
    obtain ⟨a, e⟩ := c
    rw [chain_cons] at h
    intro x hx
    simp only [List.map_cons, List.mem_cons] at hx
    rcases hx with hx | hx
    · subst hx
      exact getElem?_lt m x _ h.1
    · exact ih (some a) h.2 x hx

theorem holds_iff (st : LayoutBufferStore) (cells : List (Nat × LayoutBuffer)) :
    st.holds cells = true ↔
      st.layout_buffers = cells.head?.map Prod.fst ∧
      st.last_layout_buffer = cells.getLast?.map Prod.fst ∧
      (cells.map Prod.fst).Nodup ∧
      Linked.chain st.memory none cells = true := by
  simp [LayoutBufferStore.holds, and_assoc]

/-- A new cell appended after the last cell of a chain. -/
theorem chain_append_new (m : List (Option LayoutBufferCell)) (prev : Option Nat)
    (cells : List (Nat × LayoutBuffer)) (l : Nat) (e : LayoutBuffer)
    (hc : Linked.chain m prev cells = true)
    (hlast : cells.getLast?.map Prod.fst = some l)
    (hnd : (cells.map Prod.fst).Nodup) :
    Linked.chain (setNextLayout (m ++ [some (e.cell (some l) none)]) l (some m.length)) prev
      (cells ++ [(m.length, e)]) = true := by
  induction cells generalizing prev with
  | nil => simp at hlast
  | cons c rest ih =>
    obtain ⟨a, e1⟩ := c
    rw [chain_cons] at hc
    obtain ⟨ha, hrest⟩ := hc
    have halt : a < m.length := getElem?_lt m a _ ha
    cases rest with
    | nil =>
      simp only [List.getLast?_singleton, Option.map_some', Option.some.injEq] at hlast
      subst hlast
      rw [List.singleton_append, chain_cons, chain_cons]
      refine ⟨?_, ?_, rfl⟩
      · rw [getElem?_setNextLayout_self _ a _ (e1.cell prev none)]
        · rfl
        · rw [List.getElem?_append_left halt, ha]
          rfl
      · rw [getElem?_setNextLayout_ne _ _ _ _ (by omega),
          List.getElem?_append_right (le_refl _)]
        simp
    | cons c2 rest2 =>
      obtain ⟨b, e2⟩ := c2
      have hlast2 : ((b, e2) :: rest2).getLast?.map Prod.fst = some l := by
        simpa [List.getLast?_cons_cons] using hlast
      simp only [List.map_cons, List.nodup_cons] at hnd
      have hl_mem : l ∈ ((b, e2) :: rest2).map Prod.fst := by
        cases hg : ((b, e2) :: rest2).getLast? with
        | none => rw [hg] at hlast2; cases hlast2
        | some x =>
          rw [hg] at hlast2
          simp only [Option.map_some', Option.some.injEq] at hlast2
          rw [← hlast2]
          exact List.mem_map_of_mem _ (List.mem_of_getLast?_eq_some hg)
      have hal : a ≠ l := by
        intro heq
        rw [← heq] at hl_mem
        exact hnd.1 (by simpa using hl_mem)
      have ih' := ih (some a) hrest hlast2 (by simpa using hnd.2)
      rw [List.cons_append, chain_cons]
      refine ⟨?_, ih'⟩
      rw [getElem?_setNextLayout_ne _ _ _ _ hal, List.getElem?_append_left halt, ha]
      rfl

/-- With `malloc` successful, `gui_layout_buffer_add` puts a new entry after
the entries of the store, at the first address beyond the memory. -/
theorem add_holds (st : LayoutBufferStore) (cells : List (Nat × LayoutBuffer))
    (pn bn : String) (n : Int) (h : st.holds cells = true) :
    (Linked.gui_layout_buffer_add st true pn bn n).1.holds
      (cells ++ [(st.memory.length, { plugin_name := pn, buffer_name := bn, number := n })])
      = true ∧
    (Linked.gui_layout_buffer_add st true pn bn n).2 = some st.memory.length := by
  rw [holds_iff] at h
  obtain ⟨hhead, hlast, hnd, hc⟩ := h
  have hfresh : st.memory.length ∉ cells.map Prod.fst := fun hm =>
    lt_irrefl _ (chain_lt _ _ _ hc _ hm)
  have hnd' : ((cells ++ [(st.memory.length,
      ({ plugin_name := pn, buffer_name := bn, number := n } : LayoutBuffer))]).map
      Prod.fst).Nodup := by
    rw [List.map_append, List.nodup_append]
    refine ⟨hnd, by simp, ?_⟩
    intro x hx hy
    simp only [List.map_cons, List.map_nil, List.mem_singleton] at hy
    subst hy
    exact hfresh hx
  cases cells with
  | nil =>
    simp only [List.head?_nil, Option.map_none', List.getLast?_nil] at hhead hlast
    simp only [Linked.gui_layout_buffer_add, hhead, hlast, if_true, List.nil_append, and_true]
    rw [holds_iff]
    refine ⟨rfl, rfl, by simp, ?_⟩
    simp only [chain_cons, List.head?_nil, Option.map_none', Linked.chain, and_true]
    rw [List.getElem?_append_right (le_refl _)]
    simp [LayoutBuffer.cell]
  | cons c rest =>
    obtain ⟨a, e1⟩ := c
    have hl : ∃ l, ((a, e1) :: rest).getLast?.map Prod.fst = some l := by
      cases hg : ((a, e1) :: rest).getLast? with
      | none => simp at hg
      | some x => exact ⟨x.1, rfl⟩
    obtain ⟨l, hl⟩ := hl
    rw [hl] at hlast
    simp only [List.head?_cons, Option.map_some'] at hhead
    simp only [Linked.gui_layout_buffer_add, hhead, hlast, if_true, and_true]
    rw [holds_iff]
    refine ⟨by simp, ?_, hnd', ?_⟩
    · rw [List.getLast?_concat]
      rfl
    exact chain_append_new st.memory none ((a, e1) :: rest) l
      { plugin_name := pn, buffer_name := bn, number := n } hc hl hnd

theorem remove_eq (st : LayoutBufferStore) (a : Nat) (cell : LayoutBufferCell)
    (h : st.memory[a]? = some (some cell)) :
    Linked.gui_layout_buffer_remove st a =
      { memory := Linked.unlink st.memory a cell,
        layout_buffers :=
          if st.layout_buffers = some a then cell.next_layout else st.layout_buffers,
        last_layout_buffer :=
          if st.last_layout_buffer = some a then cell.prev_layout
          else st.last_layout_buffer } := by
  simp only [Linked.gui_layout_buffer_remove, h, Linked.unlink]

theorem length_unlink (m : List (Option LayoutBufferCell)) (a : Nat) (cell : LayoutBufferCell) :
    (Linked.unlink m a cell).length = m.length := by
  unfold Linked.unlink
  cases cell.next_layout <;> cases cell.prev_layout <;>
    simp [length_setNextLayout, length_setPrevLayout]

theorem getElem?_unlink_other (m : List (Option LayoutBufferCell)) (a x : Nat)
    (cell : LayoutBufferCell) (hxa : x ≠ a) (hp : cell.prev_layout ≠ some x)
    (hn : cell.next_layout ≠ some x) : (Linked.unlink m a cell)[x]? = m[x]? := by
  unfold Linked.unlink
  rw [List.getElem?_set_ne (Ne.symm hxa)]
  cases hnx : cell.next_layout with
  | none =>
    cases hpv : cell.prev_layout with
    | none => rfl
    | some q =>
      simp only
      exact getElem?_setNextLayout_ne _ _ _ _ (fun e => hp (by rw [hpv, e]))
  | some r =>
    simp only
    rw [getElem?_setPrevLayout_ne _ _ _ _ (fun e => hn (by rw [hnx, e]))]
    cases hpv : cell.prev_layout with
    | none => rfl
    | some q =>
      simp only
      exact getElem?_setNextLayout_ne _ _ _ _ (fun e => hp (by rw [hpv, e]))

theorem getElem?_unlink_prev (m : List (Option LayoutBufferCell)) (a q : Nat)
    (cell c : LayoutBufferCell) (hq : cell.prev_layout = some q) (hqa : q ≠ a)
    (hn : cell.next_layout ≠ some q) (hc : m[q]? = some (some c)) :
    (Linked.unlink m a cell)[q]? = some (some { c with next_layout := cell.next_layout }) := by
  unfold Linked.unlink
  rw [List.getElem?_set_ne (Ne.symm hqa)]
  cases hnx : cell.next_layout with
  | none =>
    simp only [hq]
    exact getElem?_setNextLayout_self _ _ _ _ hc
  | some r =>
    simp only [hq]
    rw [getElem?_setPrevLayout_ne _ _ _ _ (fun e => hn (by rw [hnx, e]))]
    exact getElem?_setNextLayout_self _ _ _ _ hc

theorem getElem?_unlink_next (m : List (Option LayoutBufferCell)) (a r : Nat)
    (cell c : LayoutBufferCell) (hr : cell.next_layout = some r) (hra : r ≠ a)
    (hp : cell.prev_layout ≠ some r) (hc : m[r]? = some (some c)) :
    (Linked.unlink m a cell)[r]? = some (some { c with prev_layout := cell.prev_layout }) := by
  unfold Linked.unlink
  rw [List.getElem?_set_ne (Ne.symm hra)]
  simp only [hr]
  apply getElem?_setPrevLayout_self
  cases hpv : cell.prev_layout with
  | none => exact hc
  | some q =>
    simp only
    rw [getElem?_setNextLayout_ne _ _ _ _ (fun e => hp (by rw [hpv, e])), hc]

theorem lastOr_cons (prev : Option Nat) (b : Nat) (e : LayoutBuffer)
    (pre : List (Nat × LayoutBuffer)) :
    Linked.lastOr prev ((b, e) :: pre) = Linked.lastOr (some b) pre := by
  cases pre with
  | nil => rfl
  | cons c rest =>
    simp only [Linked.lastOr, List.getLast?_cons_cons]
    cases hg : (c :: rest).getLast? with
    | none => simp at hg
    | some x => rfl

theorem lastOr_mem (prev : Option Nat) (pre : List (Nat × LayoutBuffer)) (x : Nat)
    (h : Linked.lastOr prev pre = some x) : prev = some x ∨ x ∈ pre.map Prod.fst := by
  unfold Linked.lastOr at h
  cases hg : pre.getLast? with
  | none => rw [hg] at h; exact Or.inl h
  | some c =>
    rw [hg] at h
    simp only [Option.some.injEq] at h
    right
    rw [← h]
    exact List.mem_map_of_mem _ (List.mem_of_getLast?_eq_some hg)

/-- The cell in the middle of a chain. -/
theorem chain_mid (m : List (Option LayoutBufferCell)) (prev0 : Option Nat)
    (pre : List (Nat × LayoutBuffer)) (a : Nat) (e : LayoutBuffer)
    (post : List (Nat × LayoutBuffer))
    (hc : Linked.chain m prev0 (pre ++ (a, e) :: post) = true) :
    m[a]? = some (some (e.cell (Linked.lastOr prev0 pre) (post.head?.map Prod.fst))) ∧
    Linked.chain m (some a) post = true := by
  induction pre generalizing prev0 with
  | nil => simpa [chain_cons, Linked.lastOr] using hc
  | cons c rest ih =>
    obtain ⟨b, e1⟩ := c
    rw [List.cons_append, chain_cons] at hc
    rw [lastOr_cons]
    exact ih (some b) hc.2

/-- A chain without one of its cells, once this cell is unlinked. -/
theorem chain_unlink (m : List (Option LayoutBufferCell)) (a : Nat) (e : LayoutBuffer)
    (post pre : List (Nat × LayoutBuffer)) (prev0 : Option Nat)
    (hc : Linked.chain m prev0 (pre ++ (a, e) :: post) = true)
    (hnd : ((pre ++ (a, e) :: post).map Prod.fst).Nodup)
    (hp0 : ∀ q, prev0 = some q → q ∉ (pre ++ (a, e) :: post).map Prod.fst) :
    Linked.chain
      (Linked.unlink m a (e.cell (Linked.lastOr prev0 pre) (post.head?.map Prod.fst)))
      prev0 (pre ++ post) = true := by
  induction pre generalizing prev0 with
  | nil =>
    rw [List.nil_append, chain_cons] at hc
    obtain ⟨_, hpost⟩ := hc
    simp only [List.nil_append, List.map_cons, List.nodup_cons] at hnd hp0 ⊢
    cases post with
    | nil => rfl
    | cons c2 post2 =>
      obtain ⟨r, e2⟩ := c2
      rw [chain_cons] at hpost
      obtain ⟨hr, hpost2⟩ := hpost
      simp only [List.map_cons, List.mem_cons, not_or, List.nodup_cons] at hnd hp0
      rw [chain_cons]
      constructor
      · rw [getElem?_unlink_next m a r _ (e2.cell (some a) (post2.head?.map Prod.fst)) rfl
          (Ne.symm hnd.1.1) ?_ hr]
        · rfl
        · intro hq
          exact (hp0 r hq).2.1 rfl
      · rw [chain_congr m _ (some r) post2 ?_]
        · exact hpost2
        · intro x hx
          apply getElem?_unlink_other
          · intro hxa
            exact hnd.1.2 (hxa ▸ hx)
          · intro hq
            exact (hp0 x hq).2.2 hx
          · intro hq
            simp only [LayoutBuffer.cell, List.head?_cons, Option.map_some',
              Option.some.injEq] at hq
            exact hnd.2.1 (hq ▸ hx)
  | cons c pre2 ih =>
    obtain ⟨b, e1⟩ := c
    rw [List.cons_append, chain_cons] at hc
    obtain ⟨hb, hrest⟩ := hc
    simp only [List.cons_append, List.map_cons, List.nodup_cons] at hnd
    rw [lastOr_cons]
    have ih' := ih (some b) hrest hnd.2 (fun q hq => by
      simp only [Option.some.injEq] at hq
      rw [← hq]
      exact hnd.1)
    rw [List.cons_append, chain_cons]
    refine ⟨?_, ih'⟩
    have hba : b ≠ a := by
      intro heq
      apply hnd.1
      rw [heq, List.map_append]
      simp
    have hbpost : ∀ x, post.head?.map Prod.fst = some x → b ≠ x := by
      intro x hx heq
      apply hnd.1
      cases post with
      | nil => simp at hx
      | cons c2 post2 =>
        simp only [List.head?_cons, Option.map_some', Option.some.injEq] at hx
        rw [heq, ← hx, List.map_append]
        simp
    cases pre2 with
    | nil =>
      simp only [List.nil_append, List.head?_cons, Option.map_some'] at hb ⊢
      rw [getElem?_unlink_prev m a b _ _ rfl hba ?_ hb]
      · rfl
      · intro hq
        exact hbpost b hq rfl
    | cons c3 pre3 =>
      obtain ⟨b2, e3⟩ := c3
      rw [getElem?_unlink_other m a b _ hba ?_ ?_]
      · rw [hb]
        rfl
      · intro hq
        have hq2 : Linked.lastOr (some b) ((b2, e3) :: pre3) = some b := hq
        rw [lastOr_cons] at hq2
        rcases lastOr_mem _ _ _ hq2 with h1 | h1
        · apply hnd.1
          simp only [Option.some.injEq] at h1
          rw [List.map_append, ← h1]
          simp
        · apply hnd.1
          rw [List.map_append]
          refine List.mem_append_left _ ?_
          simp only [List.map_cons, List.mem_cons]
          exact Or.inr h1
      · intro hq
        exact hbpost b hq rfl

/-- Removing one entry of a well formed store leaves a well formed store that
holds the other entries, in the same order. -/
theorem remove_holds (st : LayoutBufferStore) (pre : List (Nat × LayoutBuffer)) (a : Nat)
    (e : LayoutBuffer) (post : List (Nat × LayoutBuffer))
    (h : st.holds (pre ++ (a, e) :: post) = true) :
    (Linked.gui_layout_buffer_remove st a).holds (pre ++ post) = true := by
  rw [holds_iff] at h
  obtain ⟨hhead, hlast, hnd, hc⟩ := h
  have hmid := (chain_mid st.memory none pre a e post hc).1
  rw [remove_eq st a _ hmid, holds_iff]
  have hnd2 := hnd
  simp only [List.map_append, List.map_cons] at hnd2
  rw [List.nodup_append] at hnd2
  obtain ⟨hndpre, hndpost, hdisj⟩ := hnd2
  rw [List.nodup_cons] at hndpost
  refine ⟨?_, ?_, ?_, ?_⟩
  · show (if st.layout_buffers = some a then _ else st.layout_buffers) = _
    cases pre with
    | nil =>
      simp only [List.nil_append, List.head?_cons, Option.map_some'] at hhead ⊢
      rw [if_pos hhead]
      rfl
    | cons c rest =>
      simp only [List.cons_append, List.head?_cons, Option.map_some'] at hhead ⊢
      have hne : c.1 ≠ a := by
        intro heq
        exact hdisj (a := a) (by simp [← heq]) (by simp)
      rw [if_neg (by rw [hhead]; simpa using hne)]
      exact hhead
  · show (if st.last_layout_buffer = some a then _ else st.last_layout_buffer) = _
    cases post with
    | nil =>
      rw [List.getLast?_concat] at hlast
      have hlast2 : st.last_layout_buffer = some a := hlast
      rw [if_pos hlast2, List.append_nil]
      simp only [LayoutBuffer.cell, Linked.lastOr]
      cases pre.getLast? <;> rfl
    | cons c rest =>
      have hl : (pre ++ (a, e) :: c :: rest).getLast? = (c :: rest).getLast? := by
        rw [show pre ++ (a, e) :: c :: rest = (pre ++ [(a, e)]) ++ (c :: rest) by simp]
        rw [List.getLast?_append]
        cases hg : (c :: rest).getLast? with
        | none => simp at hg
        | some x => rfl
      have hl2 : (pre ++ c :: rest).getLast? = (c :: rest).getLast? := by
        rw [List.getLast?_append]
        cases hg : (c :: rest).getLast? with
        | none => simp at hg
        | some x => rfl
      rw [hl] at hlast
      rw [hl2]
      cases hg : (c :: rest).getLast? with
      | none => simp at hg
      | some x =>
        rw [hg] at hlast
        simp only [Option.map_some'] at hlast ⊢
        have hx : x.1 ∈ (c :: rest).map Prod.fst :=
          List.mem_map_of_mem _ (List.mem_of_getLast?_eq_some hg)
        have hne : x.1 ≠ a := by
          intro heq
          exact hndpost.1 (heq ▸ hx)
        rw [if_neg (by rw [hlast]; simpa using hne)]
        exact hlast
  · rw [List.map_append, List.nodup_append]
    refine ⟨hndpre, hndpost.2, ?_⟩
    intro x hx1 hx2
    exact hdisj hx1 (List.mem_cons_of_mem _ hx2)
  · exact chain_unlink st.memory a e post pre none hc hnd (fun q hq => by simp at hq)

theorem length_remove (st : LayoutBufferStore) (a : Nat) :
    (Linked.gui_layout_buffer_remove st a).memory.length = st.memory.length := by
  cases h : st.memory[a]? with
  | none => simp [Linked.gui_layout_buffer_remove, h]
  | some c =>
    cases c with
    | none => simp [Linked.gui_layout_buffer_remove, h]
    | some cell => rw [remove_eq st a cell h]; exact length_unlink _ _ _

theorem remove_all_loop_none (fuel : Nat) (st : LayoutBufferStore)
    (h : st.layout_buffers = none) : Linked.remove_all_loop fuel st = st := by
  cases fuel with
  | zero => rfl
  | succ f => simp [Linked.remove_all_loop, h]

theorem holds_nil_iff (st : LayoutBufferStore) :
    st.holds [] = true ↔ st.layout_buffers = none ∧ st.last_layout_buffer = none := by
  rw [holds_iff]
  simp [Linked.chain]

/-- With enough turns, the loop of `gui_layout_buffer_remove_all` ends on the
empty store, and the memory keeps its size. -/
theorem remove_all_loop_holds (cells : List (Nat × LayoutBuffer)) (fuel : Nat)
    (st : LayoutBufferStore) (h : st.holds cells = true) (hf : cells.length ≤ fuel) :
    (Linked.remove_all_loop fuel st).holds [] = true ∧
    (Linked.remove_all_loop fuel st).memory.length = st.memory.length := by
  induction cells generalizing fuel st with
  | nil =>
    have hn := ((holds_iff st []).1 h).1
    rw [remove_all_loop_none fuel st hn]
    exact ⟨h, rfl⟩
  | cons c rest ih =>
    obtain ⟨a, e⟩ := c
    cases fuel with
    | zero => simp at hf
    | succ f =>
      have hhead : st.layout_buffers = some a := ((holds_iff st _).1 h).1
      have hrem := remove_holds st [] a e rest h
      simp only [Linked.remove_all_loop, hhead]
      have := ih f (Linked.gui_layout_buffer_remove st a) hrem
        (by simp at hf; exact hf)
      rw [length_remove] at this
      exact this

theorem cells_le_memory (st : LayoutBufferStore) (cells : List (Nat × LayoutBuffer))
    (h : st.holds cells = true) : cells.length ≤ st.memory.length := by
  rw [holds_iff] at h
  obtain ⟨_, _, hnd, hc⟩ := h
  have hsub : cells.map Prod.fst ⊆ List.range st.memory.length := fun x hx =>
    List.mem_range.2 (chain_lt _ _ _ hc x hx)
  have := (List.subperm_of_subset hnd hsub).length_le
  simpa using this

/-- The function `gui_layout_buffer_remove_all` empties a well formed store. -/
theorem remove_all_holds (st : LayoutBufferStore) (cells : List (Nat × LayoutBuffer))
    (h : st.holds cells = true) :
    (Linked.gui_layout_buffer_remove_all st).holds [] = true ∧
    (Linked.gui_layout_buffer_remove_all st).memory.length = st.memory.length :=
  remove_all_loop_holds cells st.memory.length st h (cells_le_memory st cells h)

theorem walk_none (m : List (Option LayoutBufferCell)) (fuel : Nat) :
    Linked.walk m fuel none = [] := by
  cases fuel <;> rfl

/-- The traversal of a chain meets its entries, in order. -/
theorem walk_chain (m : List (Option LayoutBufferCell)) (cells : List (Nat × LayoutBuffer))
    (prev : Option Nat) (fuel : Nat) (hc : Linked.chain m prev cells = true)
    (hf : cells.length ≤ fuel) :
    Linked.walk m fuel (cells.head?.map Prod.fst) = cells.map Prod.snd := by
  induction cells generalizing prev fuel with
  | nil => exact walk_none m fuel
  | cons c rest ih =>
    obtain ⟨a, e⟩ := c
    rw [chain_cons] at hc
    cases fuel with
    | zero => simp at hf
    | succ f =>
      simp only [List.head?_cons, Option.map_some', Linked.walk, hc.1, List.map_cons]
      rw [show (e.cell prev (rest.head?.map Prod.fst)).next_layout =
        rest.head?.map Prod.fst from rfl, ih (some a) f hc.2 (by simp at hf; exact hf)]
      rfl

/-- The entries read from a well formed store are the entries it holds. -/
theorem entries_of_holds (st : LayoutBufferStore) (cells : List (Nat × LayoutBuffer))
    (h : st.holds cells = true) : st.entries = cells.map Prod.snd := by
  have hle := cells_le_memory st cells h
  rw [holds_iff] at h
  obtain ⟨hhead, _, _, hc⟩ := h
  unfold LayoutBufferStore.entries
  rw [hhead]
  exact walk_chain st.memory cells none _ hc hle

/-- The loop of `gui_layout_buffer_save` appends one entry per live buffer
whose allocation succeeds, in the order of the live list. -/
theorem save_loop_holds (malloc_ok : Nat → Bool) (bufs : List GuiBuffer) (k : Nat)
    (st : LayoutBufferStore) (cells : List (Nat × LayoutBuffer))
    (h : st.holds cells = true) :
    ∃ added, (Linked.save_loop malloc_ok k bufs st).holds (cells ++ added) = true ∧
      added.map Prod.snd = (Linked.recorded malloc_ok k bufs).map layoutEntry := by
  induction bufs generalizing k st cells with
  | nil => exact ⟨[], by simpa [Linked.save_loop] using h, rfl⟩
  | cons b rest ih =>
    cases hk : malloc_ok k with
    | true =>
      have hadd := (add_holds st cells b.plugin_name b.name b.number h).1
      obtain ⟨added, h1, h2⟩ := ih (k + 1) _ _ hadd
      refine ⟨(st.memory.length, layoutEntry b) :: added, ?_, ?_⟩
      · simp only [Linked.save_loop, hk]
        rw [List.append_assoc] at h1
        exact h1
      · simp only [Linked.recorded, hk, if_true, List.map_cons, h2]
    | false =>
      obtain ⟨added, h1, h2⟩ := ih (k + 1) st cells h
      refine ⟨added, ?_, ?_⟩
      · simp only [Linked.save_loop, hk]
        exact h1
      · simp only [Linked.recorded, hk, h2]
        rfl

theorem save_loop_map_reset (malloc_ok : Nat → Bool) (bufs : List GuiBuffer) (k : Nat)
    (st : LayoutBufferStore) :
    Linked.save_loop malloc_ok k
      (bufs.map (fun ptr_buffer => { ptr_buffer with layout_number := 0 })) st =
    Linked.save_loop malloc_ok k bufs st := by
  induction bufs generalizing k st with
  | nil => rfl
  | cons b rest ih =>
    simp only [List.map_cons, Linked.save_loop]
    exact ih _ _

theorem recorded_all (malloc_ok : Nat → Bool) (bufs : List GuiBuffer) (k : Nat)
    (h : ∀ j, k ≤ j → malloc_ok j = true) : Linked.recorded malloc_ok k bufs = bufs := by
  induction bufs generalizing k with
  | nil => rfl
  | cons b rest ih =>
    simp only [Linked.recorded, h k (le_refl k), if_true]
    rw [ih (k + 1) (fun j hj => h j (by omega))]

/-- The buffers recorded when the allocation fails for the buffer at one
position only. -/
theorem recorded_one_failure (malloc_ok : Nat → Bool) (pre : List GuiBuffer) (b : GuiBuffer)
    (post : List GuiBuffer) (k : Nat)
    (h : ∀ j, malloc_ok j = false ↔ j = k + pre.length) :
    Linked.recorded malloc_ok k (pre ++ b :: post) = pre ++ post := by
  induction pre generalizing k with
  | nil =>
    have hk : malloc_ok k = false := (h k).2 (by simp)
    simp only [List.nil_append, Linked.recorded, hk]
    exact recorded_all malloc_ok post (k + 1) (fun j hj => by
      cases hj2 : malloc_ok j with
      | true => rfl
      | false =>
        have := (h j).1 hj2
        simp at this
        omega)
  | cons a rest ih =>
    have hk : malloc_ok k = true := by
      cases hj2 : malloc_ok k with
      | true => rfl
      | false =>
        have := (h k).1 hj2
        simp at this
    have hih := ih (k + 1) (fun j => by rw [h j]; simp; omega)
    rw [List.cons_append]
    show (if malloc_ok k = true then a :: Linked.recorded malloc_ok (k + 1) (rest ++ b :: post)
      else Linked.recorded malloc_ok (k + 1) (rest ++ b :: post)) = a :: (rest ++ post)
    rw [hk, hih]
    rfl

theorem recorded_subset (malloc_ok : Nat → Bool) (bufs : List GuiBuffer) (k : Nat) :
    ∀ b ∈ Linked.recorded malloc_ok k bufs, b ∈ bufs := by
  induction bufs generalizing k with
  | nil => simp [Linked.recorded]
  | cons a rest ih =>
    intro b hb
    simp only [Linked.recorded] at hb
    cases hk : malloc_ok k with
    | true =>
      rw [hk] at hb
      simp only [if_true, List.mem_cons] at hb
      rcases hb with h1 | h1
      · exact h1 ▸ List.mem_cons_self _ _
      · exact List.mem_cons_of_mem _ (ih (k + 1) b h1)
    | false =>
      rw [hk] at hb
      exact List.mem_cons_of_mem _ (ih (k + 1) b hb)

theorem exampleLinked_holds : exampleLinked.holds exampleCells = true := by decide

theorem remove_all_idem (st : LayoutBufferStore) (cells : List (Nat × LayoutBuffer))
    (h : st.holds cells = true) :
    Linked.gui_layout_buffer_remove_all (Linked.gui_layout_buffer_remove_all st) =
      Linked.gui_layout_buffer_remove_all st := by
  have hn := ((holds_nil_iff _).1 (remove_all_holds st cells h).1).1
  exact remove_all_loop_none _ _ hn

/-- After `gui_layout_buffer_save` on a well formed store, the entries of the
store are those of the live buffers whose allocation succeeded. -/
theorem save_entries (st : LayoutBufferStore) (cells : List (Nat × LayoutBuffer))
    (malloc_ok : Nat → Bool) (gui_buffers : List GuiBuffer) (h : st.holds cells = true) :
    ∃ st2, Linked.gui_layout_buffer_save (some st) malloc_ok gui_buffers = some st2 ∧
      st2.entries = (Linked.recorded malloc_ok 0 gui_buffers).map layoutEntry ∧
      ∃ cells2, st2.holds cells2 = true := by
  obtain ⟨added, h1, h2⟩ := save_loop_holds malloc_ok gui_buffers 0 _ []
    (remove_all_holds st cells h).1
  refine ⟨_, rfl, ?_, _, h1⟩
  rw [entries_of_holds _ _ h1, List.nil_append, h2]

/-! ## Reset of the buffer layout store -/

/-- C13: for every well formed store, every live buffer list and every outcome
of the allocations, `gui_layout_buffer_reset` followed by
`gui_layout_buffer_save` on the live list leaves the same store (same memory,
same first and last entry) as `gui_layout_buffer_save` alone, hence the same
sequence of entries: one entry per live buffer whose allocation succeeded, in
the order of the live list. The same holds for the functions on sequences of
entries. -/
theorem reset_then_save_eq_save (st : LayoutBufferStore) (cells : List (Nat × LayoutBuffer))
    (malloc_ok : Nat → Bool) (gui_buffers : List GuiBuffer) (store : List LayoutBuffer)
    (h : st.holds cells = true) :
    Linked.gui_layout_buffer_save (some (Linked.gui_layout_buffer_reset st gui_buffers).1)
        malloc_ok (Linked.gui_layout_buffer_reset st gui_buffers).2 =
      Linked.gui_layout_buffer_save (some st) malloc_ok gui_buffers ∧
    (∃ st2, Linked.gui_layout_buffer_save (some st) malloc_ok gui_buffers = some st2 ∧
      st2.entries = (Linked.recorded malloc_ok 0 gui_buffers).map layoutEntry) ∧
    gui_layout_buffer_save (some (gui_layout_buffer_reset store gui_buffers).1)
        (gui_layout_buffer_reset store gui_buffers).2 =
      gui_layout_buffer_save (some store) gui_buffers := by
  refine ⟨?_, ?_, ?_⟩
  · simp only [Linked.gui_layout_buffer_save, Linked.gui_layout_buffer_reset]
    rw [remove_all_idem st cells h, save_loop_map_reset]
  · obtain ⟨st2, h1, h2, _⟩ := save_entries st cells malloc_ok gui_buffers h
    exact ⟨st2, h1, h2⟩
  · simp only [gui_layout_buffer_save, gui_layout_buffer_reset, remove_all_eq_nil,
      foldl_add_eq, List.nil_append, List.map_map]
    rfl

/-- C13 on an example: a store of two entries, two live buffers, every
allocation successful. -/
theorem reset_then_save_eq_save_witness :
    exampleLinked.holds exampleCells = true ∧
    Linked.gui_layout_buffer_save
        (some (Linked.gui_layout_buffer_reset exampleLinked exampleBuffers).1)
        (fun _ => true) (Linked.gui_layout_buffer_reset exampleLinked exampleBuffers).2 =
      Linked.gui_layout_buffer_save (some exampleLinked) (fun _ => true) exampleBuffers ∧
    (Linked.gui_layout_buffer_save (some exampleLinked) (fun _ => true) exampleBuffers).map
        LayoutBufferStore.entries =
      some [{ plugin_name := "irc", buffer_name := "#test", number := 1 },
            { plugin_name := "irc", buffer_name := "#dev", number := 2 }] :=
  ⟨by decide,
   (reset_then_save_eq_save exampleLinked exampleCells (fun _ => true) exampleBuffers
     exampleStore (by decide)).1,
   by decide⟩

/-- C14: after `gui_layout_buffer_reset` on a well formed store, the first and
the last entry of the store are both `NULL` and the store has no entry; every
live buffer has `layout_number` 0, and the plugin names, names and numbers of
the live buffers are the same, in the same order. On sequences of entries, the
store is the empty sequence. -/
theorem reset_empties_store (st : LayoutBufferStore) (cells : List (Nat × LayoutBuffer))
    (gui_buffers : List GuiBuffer) (store : List LayoutBuffer) (h : st.holds cells = true) :
    (Linked.gui_layout_buffer_reset st gui_buffers).1.layout_buffers = none ∧
    (Linked.gui_layout_buffer_reset st gui_buffers).1.last_layout_buffer = none ∧
    (Linked.gui_layout_buffer_reset st gui_buffers).1.entries = [] ∧
    (∀ b ∈ (Linked.gui_layout_buffer_reset st gui_buffers).2, b.layout_number = 0) ∧
    (Linked.gui_layout_buffer_reset st gui_buffers).2.map
        (fun b => (b.plugin_name, b.name, b.number)) =
      gui_buffers.map (fun b => (b.plugin_name, b.name, b.number)) ∧
    (gui_layout_buffer_reset store gui_buffers).1 = [] ∧
    (gui_layout_buffer_reset store gui_buffers).2 =
      (Linked.gui_layout_buffer_reset st gui_buffers).2 := by
  have hnil := (remove_all_holds st cells h).1
  have hn := (holds_nil_iff _).1 hnil
  refine ⟨hn.1, hn.2, ?_, ?_, ?_, ?_, rfl⟩
  · exact entries_of_holds _ [] hnil
  · intro b hb
    simp only [Linked.gui_layout_buffer_reset, List.mem_map] at hb
    obtain ⟨b0, _, hb0⟩ := hb
    rw [← hb0]
  · simp only [Linked.gui_layout_buffer_reset, List.map_map]
    rfl
  · exact remove_all_eq_nil store

/-- C14 on an example: a store of two entries and two live buffers that carry
the layout numbers 5 and 6. -/
theorem reset_empties_store_witness :
    exampleLinked.holds exampleCells = true ∧
    (Linked.gui_layout_buffer_reset exampleLinked
      [{ mkBuffer "irc" "#test" 1 with layout_number := 5 },
       { mkBuffer "irc" "#dev" 2 with layout_number := 6 }]).1.layout_buffers = none ∧
    (Linked.gui_layout_buffer_reset exampleLinked
      [{ mkBuffer "irc" "#test" 1 with layout_number := 5 },
       { mkBuffer "irc" "#dev" 2 with layout_number := 6 }]).2 = exampleBuffers :=
  ⟨by decide,
   (reset_empties_store exampleLinked exampleCells
     [{ mkBuffer "irc" "#test" 1 with layout_number := 5 },
      { mkBuffer "irc" "#dev" 2 with layout_number := 6 }] exampleStore (by decide)).1,
   by decide⟩

/-! ## The numbers of the entries -/

/-- C19, counterexample: on the empty store, where every entry has a number
that is at least 1, a successful `gui_layout_buffer_add` with the number 0
leaves a store whose entry has the number 0; so does `gui_layout_buffer_save`
with a live buffer whose number is 0. -/
theorem add_accepts_number_zero :
    numbersPositive emptyStore.entries ∧
    (Linked.gui_layout_buffer_add emptyStore true "irc" "#a" 0).2 = some 0 ∧
    (Linked.gui_layout_buffer_add emptyStore true "irc" "#a" 0).1.entries =
      [{ plugin_name := "irc", buffer_name := "#a", number := 0 }] ∧
    ¬ numbersPositive (Linked.gui_layout_buffer_add emptyStore true "irc" "#a" 0).1.entries ∧
    (Linked.gui_layout_buffer_save (some emptyStore) (fun _ => true)
        [mkBuffer "irc" "#a" 0]).map LayoutBufferStore.entries =
      some [{ plugin_name := "irc", buffer_name := "#a", number := 0 }] := by
  refine ⟨?_, by decide, by decide, ?_, by decide⟩
  · intro e he
    simp [emptyStore, LayoutBufferStore.entries, Linked.walk] at he
  · intro hpos
    have := hpos { plugin_name := "irc", buffer_name := "#a", number := 0 } (by decide)
    simp at this

/-- C19 amended: every entry of the empty store has a number that is at least
1, and on a well formed store where this holds it still holds after
`gui_layout_buffer_add` when the number given is at least 1 (whether the
allocation succeeds or not), after `gui_layout_buffer_save` when every live
buffer has a number that is at least 1 (whatever allocations succeed), and
after `gui_layout_buffer_remove` of an entry of the store,
`gui_layout_buffer_remove_all` and `gui_layout_buffer_reset` for all their
inputs. -/
theorem numbers_positive_preserved (st : LayoutBufferStore)
    (cells : List (Nat × LayoutBuffer)) (h : st.holds cells = true)
    (hpos : numbersPositive st.entries) :
    numbersPositive emptyStore.entries ∧
    (∀ (malloc_ok : Bool) (plugin_name buffer_name : String) (number : Int), 1 ≤ number →
      numbersPositive
        (Linked.gui_layout_buffer_add st malloc_ok plugin_name buffer_name number).1.entries) ∧
    (∀ (malloc_ok : Nat → Bool) (gui_buffers : List GuiBuffer),
      (∀ b ∈ gui_buffers, 1 ≤ b.number) →
      ∃ st2, Linked.gui_layout_buffer_save (some st) malloc_ok gui_buffers = some st2 ∧
        numbersPositive st2.entries) ∧
    (∀ a ∈ cells.map Prod.fst,
      numbersPositive (Linked.gui_layout_buffer_remove st a).entries) ∧
    numbersPositive (Linked.gui_layout_buffer_remove_all st).entries ∧
    ∀ gui_buffers : List GuiBuffer,
      numbersPositive (Linked.gui_layout_buffer_reset st gui_buffers).1.entries := by
  have hent := entries_of_holds st cells h
  have hnil := entries_of_holds _ [] (remove_all_holds st cells h).1
  refine ⟨?_, ?_, ?_, ?_, ?_, ?_⟩
  · intro e he
    simp [emptyStore, LayoutBufferStore.entries, Linked.walk] at he
  · intro malloc_ok pn bn n hn
    cases malloc_ok with
    | false => exact hpos
    | true =>
      rw [entries_of_holds _ _ (add_holds st cells pn bn n h).1, List.map_append, ← hent]
      intro e he
      rcases List.mem_append.1 he with h1 | h1
      · exact hpos e h1
      · simp only [List.map_cons, List.map_nil, List.mem_singleton] at h1
        rw [h1]
        exact hn
  · intro malloc_ok gui_buffers hbufs
    obtain ⟨st2, h1, h2, _⟩ := save_entries st cells malloc_ok gui_buffers h
    refine ⟨st2, h1, ?_⟩
    rw [h2]
    intro e he
    obtain ⟨b, hb, hbe⟩ := List.mem_map.1 he
    rw [← hbe]
    exact hbufs b (recorded_subset malloc_ok gui_buffers 0 b hb)
  · intro a ha
    obtain ⟨c, hc, hca⟩ := List.mem_map.1 ha
    obtain ⟨pre, post, hsplit⟩ := List.append_of_mem hc
    obtain ⟨a0, e⟩ := c
    simp only at hca
    subst hca
    subst hsplit
    rw [entries_of_holds _ _ (remove_holds st pre a0 e post h)]
    intro x hx
    apply hpos x
    rw [hent]
    simp only [List.map_append, List.mem_append, List.map_cons, List.mem_cons] at hx ⊢
    rcases hx with h1 | h1
    · exact Or.inl h1
    · exact Or.inr (Or.inr h1)
  · rw [hnil]
    intro e he
    simp at he
  · intro gui_buffers
    show numbersPositive (Linked.gui_layout_buffer_remove_all st).entries
    rw [hnil]
    intro e he
    simp at he

/-- C19 amended, on an example: a store with the entries `core/weechat` = 1
and `irc/#test` = 2, to which `irc/#dev` = 3 is added. -/
theorem numbers_positive_preserved_witness :
    exampleLinked.holds exampleCells = true ∧
    numbersPositive exampleLinked.entries ∧
    numbersPositive (Linked.gui_layout_buffer_add exampleLinked true "irc" "#dev" 3).1.entries ∧
    (Linked.gui_layout_buffer_add exampleLinked true "irc" "#dev" 3).1.entries =
      [{ plugin_name := "core", buffer_name := "weechat", number := 1 },
       { plugin_name := "irc", buffer_name := "#test", number := 2 },
       { plugin_name := "irc", buffer_name := "#dev", number := 3 }] :=
  ⟨by decide, by unfold numbersPositive; decide,
   (numbers_positive_preserved exampleLinked exampleCells (by decide)
     (by unfold numbersPositive; decide)).2.1 true "irc" "#dev" 3 (by decide),
   by decide⟩

/-! ## Failure of an allocation -/

/-- C20: when `malloc` fails, `gui_layout_buffer_add` returns `NULL` and the
store is the same (same memory, same first and last entry, hence the same
entries in the same order). So after a `gui_layout_buffer_save` on a well
formed store in which the allocation failed for the buffer at one position of
the live list and for no other, the store holds the entries of the other live
buffers, in live order, and `gui_layout_buffer_get_number` for the plugin name
and name of the failed buffer returns 0 when no other live buffer has these
names ignoring case. -/
theorem failed_allocation_not_recorded (st : LayoutBufferStore)
    (cells : List (Nat × LayoutBuffer)) (malloc_ok : Nat → Bool)
    (pre : List GuiBuffer) (b : GuiBuffer) (post : List GuiBuffer)
    (plugin_name buffer_name : String) (number : Int)
    (h : st.holds cells = true) (hfail : ∀ j, malloc_ok j = false ↔ j = pre.length) :
    Linked.gui_layout_buffer_add st false plugin_name buffer_name number = (st, none) ∧
    (Linked.gui_layout_buffer_add st false plugin_name buffer_name number).1.entries =
      st.entries ∧
    ∃ st2, Linked.gui_layout_buffer_save (some st) malloc_ok (pre ++ b :: post) = some st2 ∧
      st2.entries = (pre ++ post).map layoutEntry ∧
      ((∀ o ∈ pre ++ post, ¬ (layoutEntry o).matchesName b.plugin_name b.name) →
        gui_layout_buffer_get_number st2.entries b.plugin_name b.name = 0) := by
  refine ⟨rfl, rfl, ?_⟩
  obtain ⟨st2, h1, h2, _⟩ := save_entries st cells malloc_ok (pre ++ b :: post) h
  rw [recorded_one_failure malloc_ok pre b post 0 (fun j => by rw [hfail j, Nat.zero_add])] at h2
  refine ⟨st2, h1, h2, ?_⟩
  intro hno
  apply get_number_of_no_match
  rw [h2]
  intro e he
  obtain ⟨o, ho, hoe⟩ := List.mem_map.1 he
  rw [← hoe]
  exact hno o ho

/-- C20 on an example: three live buffers, the allocation fails for the second
one, `irc/#dev`; the store holds the entries of the two others and the number
recorded for `irc/#dev` is 0. -/
theorem failed_allocation_not_recorded_witness :
    exampleLinked.holds exampleCells = true ∧
    (∀ j, (fun j => decide (j ≠ 1)) j = false ↔ j = [mkBuffer "irc" "#test" 1].length) ∧
    ∃ st2, Linked.gui_layout_buffer_save (some exampleLinked) (fun j => decide (j ≠ 1))
        ([mkBuffer "irc" "#test" 1] ++ mkBuffer "irc" "#dev" 2 :: [mkBuffer "irc" "#ops" 3])
        = some st2 ∧
      st2.entries = ([mkBuffer "irc" "#test" 1] ++ [mkBuffer "irc" "#ops" 3]).map layoutEntry ∧
      gui_layout_buffer_get_number st2.entries "irc" "#dev" = 0 :=
  ⟨by decide, fun j => by simp,
   (failed_allocation_not_recorded exampleLinked exampleCells (fun j => decide (j ≠ 1))
      [mkBuffer "irc" "#test" 1] (mkBuffer "irc" "#dev" 2) [mkBuffer "irc" "#ops" 3]
      "irc" "#dev" 2 (by decide) (fun j => by simp)).2.2.imp
     (fun _ hst => ⟨hst.1, hst.2.1, hst.2.2 (by decide)⟩)⟩

/-! ## Adding and removing an entry -/

theorem get_number_append_of_match (l l2 : List LayoutBuffer) (pn bn : String)
    (h : ∃ e ∈ l, e.matchesName pn bn) :
    gui_layout_buffer_get_number (l ++ l2) pn bn = gui_layout_buffer_get_number l pn bn := by
  induction l with
  | nil => simp at h
  | cons a rest ih =>
    rw [List.cons_append, get_number_cons, get_number_cons]
    by_cases ha : a.matchesName pn bn
    · simp only [ha, if_true]
    · simp only [ha, if_false]
      apply ih
      obtain ⟨e, he, hm⟩ := h
      rcases List.mem_cons.1 he with h1 | h1
      · exact absurd (h1 ▸ hm) ha
      · exact ⟨e, h1, hm⟩

theorem getElem?_unlink_self (m : List (Option LayoutBufferCell)) (a : Nat)
    (cell : LayoutBufferCell) (ha : a < m.length) : (Linked.unlink m a cell)[a]? = some none := by
  have hl := length_unlink m a cell
  unfold Linked.unlink at hl ⊢
  rw [List.length_set] at hl
  exact List.getElem?_set_self (by rw [hl]; exact ha)

theorem remove_all_loop_stable (cells : List (Nat × LayoutBuffer)) (fuel : Nat)
    (st : LayoutBufferStore) (h : st.holds cells = true) (hf : cells.length ≤ fuel) :
    Linked.remove_all_loop fuel st = Linked.remove_all_loop cells.length st := by
  induction cells generalizing fuel st with
  | nil =>
    have hn := ((holds_iff st []).1 h).1
    rw [remove_all_loop_none fuel st hn, remove_all_loop_none _ st hn]
  | cons c rest ih =>
    obtain ⟨a, e⟩ := c
    cases fuel with
    | zero => simp at hf
    | succ f =>
      have hhead : st.layout_buffers = some a := ((holds_iff st _).1 h).1
      simp only [Linked.remove_all_loop, hhead, List.length_cons]
      exact ih f _ (remove_holds st [] a e rest h) (by simp at hf; exact hf)

/-- C26: `gui_layout_buffer_add` appends. After a successful add on a well
formed store, the store holds the previous entries at their previous
addresses, in their order, followed by one new entry with the plugin name,
buffer name and number given; the sequence of entries is the previous one
followed by the new entry; the new entry is at a fresh address, which is
returned and is the last entry of the store; and a lookup for names that an
entry of the previous store matches returns the same number as before. -/
theorem add_appends_entry (st : LayoutBufferStore) (cells : List (Nat × LayoutBuffer))
    (plugin_name buffer_name : String) (number : Int) (h : st.holds cells = true) :
    (Linked.gui_layout_buffer_add st true plugin_name buffer_name number).1.holds
      (cells ++ [(st.memory.length,
        { plugin_name := plugin_name, buffer_name := buffer_name, number := number })]) = true ∧
    (Linked.gui_layout_buffer_add st true plugin_name buffer_name number).1.entries =
      st.entries ++
        [{ plugin_name := plugin_name, buffer_name := buffer_name, number := number }] ∧
    (Linked.gui_layout_buffer_add st true plugin_name buffer_name number).2 =
      some st.memory.length ∧
    (Linked.gui_layout_buffer_add st true plugin_name buffer_name number).1.last_layout_buffer =
      some st.memory.length ∧
    st.memory.length ∉ cells.map Prod.fst ∧
    (∀ pn bn, (∃ e ∈ st.entries, e.matchesName pn bn) →
      gui_layout_buffer_get_number
        (Linked.gui_layout_buffer_add st true plugin_name buffer_name number).1.entries pn bn =
      gui_layout_buffer_get_number st.entries pn bn) ∧
    gui_layout_buffer_add st.entries plugin_name buffer_name number =
      (Linked.gui_layout_buffer_add st true plugin_name buffer_name number).1.entries := by
  have hadd := add_holds st cells plugin_name buffer_name number h
  have hent : (Linked.gui_layout_buffer_add st true plugin_name buffer_name number).1.entries =
      st.entries ++
        [{ plugin_name := plugin_name, buffer_name := buffer_name, number := number }] := by
    rw [entries_of_holds _ _ hadd.1, entries_of_holds st cells h, List.map_append]
    rfl
  refine ⟨hadd.1, hent, hadd.2, ?_, ?_, ?_, ?_⟩
  · rw [((holds_iff _ _).1 hadd.1).2.1, List.getLast?_concat]
    rfl
  · intro hm
    exact lt_irrefl _ (chain_lt _ _ _ ((holds_iff _ _).1 h).2.2.2 _ hm)
  · intro pn bn hex
    rw [hent]
    exact get_number_append_of_match _ _ pn bn hex
  · rw [hent]
    rfl

/-- C26 on an example: `irc/#TEST` = 9 is added to the store that holds
`core/weechat` = 1 and `irc/#test` = 2; the lookup for `irc/#TEST` still
returns 2, the number of the earlier entry. -/
theorem add_appends_entry_witness :
    exampleLinked.holds exampleCells = true ∧
    (Linked.gui_layout_buffer_add exampleLinked true "irc" "#TEST" 9).1.entries =
      exampleLinked.entries ++ [{ plugin_name := "irc", buffer_name := "#TEST", number := 9 }] ∧
    gui_layout_buffer_get_number
      (Linked.gui_layout_buffer_add exampleLinked true "irc" "#TEST" 9).1.entries
      "irc" "#TEST" = 2 :=
  ⟨by decide,
   (add_appends_entry exampleLinked exampleCells "irc" "#TEST" 9 (by decide)).2.1,
   by decide⟩

/-- C30: for every well formed store, `gui_layout_buffer_remove` of one of
its entries leaves a well formed store that holds the other entries at their
addresses, in their previous order: the sequence of entries is the previous
one without this entry, the first and last variables designate the new first
and last entries (both are `NULL` when the entry was the only one) and the
cell of the entry is freed. The loop of `gui_layout_buffer_remove_all` exits
after as many turns as the store has entries, whatever the number of turns it
is allowed beyond that, and leaves the first and last variables `NULL` and no
entry. -/
theorem remove_deletes_entry (st : LayoutBufferStore) (cells : List (Nat × LayoutBuffer))
    (h : st.holds cells = true) :
    (∀ pre a e post, cells = pre ++ (a, e) :: post →
      (Linked.gui_layout_buffer_remove st a).holds (pre ++ post) = true ∧
      (Linked.gui_layout_buffer_remove st a).entries = (pre ++ post).map Prod.snd ∧
      (Linked.gui_layout_buffer_remove st a).layout_buffers =
        (pre ++ post).head?.map Prod.fst ∧
      (Linked.gui_layout_buffer_remove st a).last_layout_buffer =
        (pre ++ post).getLast?.map Prod.fst ∧
      (pre = [] → post = [] →
        (Linked.gui_layout_buffer_remove st a).layout_buffers = none ∧
        (Linked.gui_layout_buffer_remove st a).last_layout_buffer = none) ∧
      (Linked.gui_layout_buffer_remove st a).memory[a]? = some none) ∧
    (∀ fuel, cells.length ≤ fuel →
      Linked.remove_all_loop fuel st = Linked.remove_all_loop cells.length st) ∧
    Linked.gui_layout_buffer_remove_all st = Linked.remove_all_loop cells.length st ∧
    (Linked.gui_layout_buffer_remove_all st).layout_buffers = none ∧
    (Linked.gui_layout_buffer_remove_all st).last_layout_buffer = none ∧
    (Linked.gui_layout_buffer_remove_all st).entries = [] := by
  have hnil := (remove_all_holds st cells h).1
  have hn := (holds_nil_iff _).1 hnil
  refine ⟨?_, fun fuel hf => remove_all_loop_stable cells fuel st h hf,
    remove_all_loop_stable cells _ st h (cells_le_memory st cells h), hn.1, hn.2,
    entries_of_holds _ [] hnil⟩
  intro pre a e post hcells
  subst hcells
  have hrem := remove_holds st pre a e post h
  have hi := (holds_iff _ _).1 hrem
  refine ⟨hrem, entries_of_holds _ _ hrem, hi.1, hi.2.1, ?_, ?_⟩
  · intro hpre hpost
    subst hpre
    subst hpost
    exact ⟨hi.1, hi.2.1⟩
  · have hc := ((holds_iff _ _).1 h).2.2.2
    have hmid := (chain_mid st.memory none pre a e post hc).1
    rw [remove_eq st a _ hmid]
    exact getElem?_unlink_self _ _ _ (getElem?_lt _ _ _ hmid)

/-- C30 on an example: the first of the two entries of the store is removed;
the entry `irc/#test` is then the first and the last one. -/
theorem remove_deletes_entry_witness :
    exampleLinked.holds exampleCells = true ∧
    (Linked.gui_layout_buffer_remove exampleLinked 0).entries =
      [{ plugin_name := "irc", buffer_name := "#test", number := 2 }] ∧
    (Linked.gui_layout_buffer_remove exampleLinked 0).layout_buffers = some 1 ∧
    (Linked.gui_layout_buffer_remove exampleLinked 0).last_layout_buffer = some 1 ∧
    (Linked.gui_layout_buffer_remove_all exampleLinked).entries = [] :=
  ⟨by decide,
   ((remove_deletes_entry exampleLinked exampleCells (by decide)).1 []
      0 { plugin_name := "core", buffer_name := "weechat", number := 1 }
      [(1, { plugin_name := "irc", buffer_name := "#test", number := 2 })] rfl).2.1,
   by decide, by decide, by decide⟩

/-! ## Search by id -/

theorem find?_hasId_ne_null (id : Int) (l : List LayoutWindow) (n : LayoutWindow)
    (h : l.find? (LayoutWindow.hasId id) = some n) : n ≠ .null := by
  intro hn
  have := List.find?_some h
  rw [hn] at this
  simp [LayoutWindow.hasId] at this

theorem search_eq_find (t : LayoutWindow) (id : Int) :
    gui_layout_window_search_by_id t id =
      (t.nodes.find? (LayoutWindow.hasId id)).getD .null := by
  induction t with
  | null => rfl
  | node i pct horiz c1 c2 pn bn ih1 ih2 =>
    by_cases hi : i = id
    · simp [gui_layout_window_search_by_id, LayoutWindow.nodes, LayoutWindow.hasId, hi]
    · simp only [gui_layout_window_search_by_id, hi, if_false, LayoutWindow.nodes,
        List.find?_cons, LayoutWindow.hasId, decide_False, List.find?_append]
      rw [ih1, ih2]
      cases h1 : c1.nodes.find? (LayoutWindow.hasId id) with
      | none => simp
      | some n =>
        have hn := find?_hasId_ne_null id _ n h1
        cases n with
        | null => exact absurd rfl hn
        | node a b c d e f g => simp

theorem nodes_hasId_iff (t : LayoutWindow) (id : Int) :
    (∃ n ∈ t.nodes, LayoutWindow.hasId id n = true) ↔ id ∈ t.preorderIds := by
  induction t with
  | null => simp [LayoutWindow.nodes, LayoutWindow.preorderIds]
  | node i pct horiz c1 c2 pn bn ih1 ih2 =>
    simp only [LayoutWindow.nodes, LayoutWindow.preorderIds, List.mem_cons, List.mem_append,
      ← ih1, ← ih2]
    constructor
    · rintro ⟨n, hn | hn | hn, hid⟩
      · subst hn
        left
        simpa [LayoutWindow.hasId, eq_comm] using hid
      · exact Or.inr (Or.inl ⟨n, hn, hid⟩)
      · exact Or.inr (Or.inr ⟨n, hn, hid⟩)
    · rintro (h | ⟨n, hn, hid⟩ | ⟨n, hn, hid⟩)
      · exact ⟨_, Or.inl rfl, by simp [LayoutWindow.hasId, h]⟩
      · exact ⟨n, Or.inr (Or.inl hn), hid⟩
      · exact ⟨n, Or.inr (Or.inr hn), hid⟩

/-- C27: for every stored tree and every id, `gui_layout_window_search_by_id`
returns the first node, in preorder (the node, the subtree of `child1`, the
subtree of `child2`), whose `internal_id` is the id; it returns `NULL` exactly
when no node of the tree has this id, so for the empty tree; and the node
returned has this id. -/
theorem search_by_id_first_in_preorder (t : LayoutWindow) (id : Int) :
    gui_layout_window_search_by_id t id =
      (t.nodes.find? (LayoutWindow.hasId id)).getD .null ∧
    (gui_layout_window_search_by_id t id = .null ↔ id ∉ t.preorderIds) ∧
    gui_layout_window_search_by_id .null id = .null ∧
    (gui_layout_window_search_by_id t id ≠ .null →
      (gui_layout_window_search_by_id t id).hasId id = true ∧
      gui_layout_window_search_by_id t id ∈ t.nodes) := by
  refine ⟨search_eq_find t id, ?_, rfl, ?_⟩
  · rw [search_eq_find, ← nodes_hasId_iff]
    cases h : t.nodes.find? (LayoutWindow.hasId id) with
    | none =>
      simp only [Option.getD_none, true_iff, not_exists, not_and]
      intro n hn
      exact List.find?_eq_none.1 h n hn
    | some n =>
      simp only [Option.getD_some]
      constructor
      · intro hn
        exact absurd hn (find?_hasId_ne_null id _ n h)
      · intro hno
        exact absurd ⟨n, List.mem_of_find?_eq_some h, List.find?_some h⟩ hno
  · rw [search_eq_find]
    cases h : t.nodes.find? (LayoutWindow.hasId id) with
    | none => simp
    | some n =>
      intro _
      exact ⟨List.find?_some h, List.mem_of_find?_eq_some h⟩

/-! ## Termination of the apply of the buffer layout -/

theorem pendingBuffers_map_unnumbered (l : List GuiBuffer) :
    (pendingBuffers l).map GuiBuffer.unnumbered =
      pendingBuffers (l.map GuiBuffer.unnumbered) := by
  induction l with
  | nil => rfl
  | cons a rest ih =>
    simp only [pendingBuffers, List.filter_cons, List.map_cons] at ih ⊢
    by_cases ha : a.layout_applied = 0
    · have ha2 : a.unnumbered.layout_applied = 0 := ha
      simp only [ha, ha2, decide_True, if_true, List.map_cons, ih]
    · have ha2 : ¬ a.unnumbered.layout_applied = 0 := ha
      simp only [ha, ha2, decide_False, Bool.false_eq_true, if_false, ih]

theorem pendingBuffers_perm (l1 l2 : List GuiBuffer)
    (h : (l2.map GuiBuffer.unnumbered).Perm (l1.map GuiBuffer.unnumbered)) :
    ((pendingBuffers l2).map GuiBuffer.unnumbered).Perm
      ((pendingBuffers l1).map GuiBuffer.unnumbered) := by
  rw [pendingBuffers_map_unnumbered, pendingBuffers_map_unnumbered]
  exact h.filter _

theorem lookedUp_unnumbered (store : List LayoutBuffer) (x y : GuiBuffer)
    (h : x.unnumbered = y.unnumbered) (hy : lookedUp store y) : lookedUp store x := by
  have h1 : x.unnumbered.layout_applied = y.unnumbered.layout_applied := by rw [h]
  have h2 : x.unnumbered.layout_number = y.unnumbered.layout_number := by rw [h]
  have h3 : x.unnumbered.plugin_name = y.unnumbered.plugin_name := by rw [h]
  have h4 : x.unnumbered.name = y.unnumbered.name := by rw [h]
  simp only [GuiBuffer.unnumbered] at h1 h2 h3 h4
  unfold lookedUp at hy ⊢
  rw [h1, h2, h3, h4]
  exact hy

theorem lookedUp_perm (store : List LayoutBuffer) (l1 l2 : List GuiBuffer)
    (h : (l2.map GuiBuffer.unnumbered).Perm (l1.map GuiBuffer.unnumbered))
    (h1 : ∀ y ∈ l1, lookedUp store y) : ∀ x ∈ l2, lookedUp store x := by
  intro x hx
  have hm : x.unnumbered ∈ l1.map GuiBuffer.unnumbered :=
    h.mem_iff.1 (List.mem_map_of_mem _ hx)
  obtain ⟨y, hy, hyx⟩ := List.mem_map.1 hm
  exact lookedUp_unnumbered store x y hyx.symm (h1 y hy)

theorem pendingBuffers_marked (store : List LayoutBuffer) (pre : List GuiBuffer) (b : GuiBuffer)
    (post : List GuiBuffer) (hb : b.layout_applied = 0) :
    pendingBuffers (pre ++ b :: post) = pendingBuffers pre ++ b :: pendingBuffers post ∧
    pendingBuffers (pre ++ markApplied store b :: post) =
      pendingBuffers pre ++ pendingBuffers post := by
  constructor
  · simp [pendingBuffers, List.filter_cons, hb]
  · simp [pendingBuffers, List.filter_cons, markApplied]

/-- One turn of the loop when the collaborator only reorders: the turn ends
the loop when the layout has been applied on all buffers; else it processes
the first buffer on which it has not been, and one buffer less is left. -/
theorem apply_turn_step (move : List GuiBuffer → Nat → Int → List GuiBuffer)
    (store : List LayoutBuffer) (st : ApplyState) (hmove : reordersOnly move)
    (hP : ∀ x ∈ st.gui_buffers, lookedUp store x) :
    (pendingBuffers st.gui_buffers = [] ∧ gui_layout_buffer_apply_turn move store st = none) ∨
    (∃ st1 pre b post, gui_layout_buffer_apply_turn move store st = some st1 ∧
      st.gui_buffers = pre ++ b :: post ∧ (∀ x ∈ pre, x.layout_applied ≠ 0) ∧
      b.layout_applied = 0 ∧
      st1.processed = st.processed ++ [b] ∧
      (∀ x ∈ st1.gui_buffers, lookedUp store x) ∧
      (st1.gui_buffers.map GuiBuffer.unnumbered).Perm
        ((pre ++ markApplied store b :: post).map GuiBuffer.unnumbered) ∧
      ((b :: pendingBuffers st1.gui_buffers).map GuiBuffer.unnumbered).Perm
        ((pendingBuffers st.gui_buffers).map GuiBuffer.unnumbered)) := by
  rcases findIdx?_decompose (fun b => decide (b.layout_applied = 0)) st.gui_buffers with
    ⟨h1, h2⟩ | ⟨pre, b, post, h1, _, h3, h4⟩
  · left
    refine ⟨?_, by simp [gui_layout_buffer_apply_turn, h1]⟩
    exact List.filter_eq_nil_iff.2 (fun x hx => by simpa using h2 x hx)
  · right
    have hb : b.layout_applied = 0 := by simpa using h3
    have hpre : ∀ x ∈ pre, x.layout_applied ≠ 0 := fun x hx => by simpa using h4 x hx
    obtain ⟨bufs, moves, processed⟩ := st
    simp only at h1 hP ⊢
    subst h1
    have hturn := apply_turn_at move store pre b post moves processed hpre hb
    have hmarked : ∀ x ∈ pre ++ markApplied store b :: post, lookedUp store x := by
      intro x hx
      rcases List.mem_append.1 hx with hx1 | hx1
      · exact hP x (List.mem_append_left _ hx1)
      · rcases List.mem_cons.1 hx1 with hx2 | hx2
        · rw [hx2]
          exact Or.inr ⟨rfl, rfl⟩
        · exact hP x (List.mem_append_right _ (List.mem_cons_of_mem _ hx2))
    have hpend := pendingBuffers_marked store pre b post hb
    have key : ∀ l2 : List GuiBuffer,
        (l2.map GuiBuffer.unnumbered).Perm
          ((pre ++ markApplied store b :: post).map GuiBuffer.unnumbered) →
        (∀ x ∈ l2, lookedUp store x) ∧
        ((b :: pendingBuffers l2).map GuiBuffer.unnumbered).Perm
          ((pendingBuffers (pre ++ b :: post)).map GuiBuffer.unnumbered) := by
      intro l2 hperm
      refine ⟨lookedUp_perm store _ l2 hperm hmarked, ?_⟩
      have h5 := pendingBuffers_perm _ l2 hperm
      rw [hpend.2] at h5
      rw [hpend.1, List.map_cons, List.map_append, List.map_cons]
      refine (List.Perm.cons _ h5).trans ?_
      rw [List.map_append]
      exact List.perm_middle.symm
    by_cases hon : onTarget store b
    · rw [if_pos hon] at hturn
      have hk := key (pre ++ markApplied store b :: post) (List.Perm.refl _)
      exact ⟨_, pre, b, post, hturn, rfl, hpre, hb, rfl, hk.1, List.Perm.refl _, hk.2⟩
    · rw [if_neg hon] at hturn
      have hk := key _ (hmove (pre ++ markApplied store b :: post) pre.length
        (gui_layout_buffer_get_number store b.plugin_name b.name))
      exact ⟨_, pre, b, post, hturn, rfl, hpre, hb, rfl, hk.1, hmove _ _ _, hk.2⟩

theorem all_applied_iff (l : List GuiBuffer) :
    l.all (fun b => decide (b.layout_applied ≠ 0)) = true ↔ pendingBuffers l = [] := by
  simp [pendingBuffers, List.filter_eq_nil_iff]

theorem pendingBuffers_applyStart (l : List GuiBuffer) :
    pendingBuffers (applyStart l).gui_buffers = (applyStart l).gui_buffers := by
  simp only [pendingBuffers, applyStart, List.filter_eq_self, List.mem_map]
  rintro b ⟨a, _, rfl⟩
  simp

/-- The loop of `gui_layout_buffer_apply` when the collaborator only
reorders: it exits after as many turns as there are buffers on which the
layout has not been applied, not before, and has then processed these
buffers, each once. -/
theorem apply_loop_terminates (move : List GuiBuffer → Nat → Int → List GuiBuffer)
    (store : List LayoutBuffer) (hmove : reordersOnly move) (k : Nat) (st : ApplyState)
    (hP : ∀ x ∈ st.gui_buffers, lookedUp store x)
    (hk : (pendingBuffers st.gui_buffers).length = k) :
    (∀ fuel, k ≤ fuel →
      gui_layout_buffer_apply_loop move store fuel st =
        gui_layout_buffer_apply_loop move store k st) ∧
    (∀ fuel, fuel < k →
      pendingBuffers (gui_layout_buffer_apply_loop move store fuel st).gui_buffers ≠ []) ∧
    pendingBuffers (gui_layout_buffer_apply_loop move store k st).gui_buffers = [] ∧
    (∀ x ∈ (gui_layout_buffer_apply_loop move store k st).gui_buffers, lookedUp store x) ∧
    ((gui_layout_buffer_apply_loop move store k st).processed.map GuiBuffer.unnumbered).Perm
      ((st.processed ++ pendingBuffers st.gui_buffers).map GuiBuffer.unnumbered) ∧
    ((gui_layout_buffer_apply_loop move store k st).gui_buffers.map
        (fun b => (b.plugin_name, b.name))).Perm
      (st.gui_buffers.map (fun b => (b.plugin_name, b.name))) := by
  induction k generalizing st with
  | zero =>
    have hnil : pendingBuffers st.gui_buffers = [] := List.length_eq_zero.1 hk
    have hturn : gui_layout_buffer_apply_turn move store st = none := by
      rcases apply_turn_step move store st hmove hP with ⟨_, h2⟩ | ⟨st1, pre, b, post, _, _, _,
        _, _, _, _, h8⟩
      · exact h2
      · rw [hnil] at h8
        exact absurd h8.length_eq (by simp)
    have hloop : ∀ fuel, gui_layout_buffer_apply_loop move store fuel st = st := by
      intro fuel
      cases fuel with
      | zero => rfl
      | succ f => simp only [gui_layout_buffer_apply_loop, hturn]
    refine ⟨fun fuel _ => by rw [hloop fuel, hloop 0], fun fuel hf => absurd hf (by omega), ?_,
      ?_, ?_, ?_⟩
    · rw [hloop 0]; exact hnil
    · rw [hloop 0]; exact hP
    · rw [hloop 0, hnil, List.append_nil]
    · rw [hloop 0]
  | succ k ih =>
    rcases apply_turn_step move store st hmove hP with ⟨h1, _⟩ | ⟨st1, pre, b, post, h1, h2, _,
      _, h5, h6, h7, h8⟩
    · rw [h1] at hk
      simp at hk
    · have hk1 : (pendingBuffers st1.gui_buffers).length = k := by
        have := h8.length_eq
        simp only [List.map_cons, List.length_cons, List.length_map] at this
        omega
      obtain ⟨i1, i2, i3, i4, i5, i6⟩ := ih st1 h6 hk1
      have hstep : ∀ fuel, gui_layout_buffer_apply_loop move store (fuel + 1) st =
          gui_layout_buffer_apply_loop move store fuel st1 := by
        intro fuel
        simp only [gui_layout_buffer_apply_loop, h1]
      refine ⟨?_, ?_, ?_, ?_, ?_, ?_⟩
      · intro fuel hf
        cases fuel with
        | zero => omega
        | succ f => rw [hstep, hstep]; exact i1 f (by omega)
      · intro fuel hf
        cases fuel with
        | zero =>
          intro hnil
          have hnil2 : pendingBuffers st.gui_buffers = [] := hnil
          rw [hnil2] at hk
          simp at hk
        | succ f => rw [hstep]; exact i2 f (by omega)
      · rw [hstep]; exact i3
      · rw [hstep]; exact i4
      · rw [hstep]
        refine i5.trans ?_
        rw [h5, List.append_assoc, List.singleton_append, List.map_append, List.map_append]
        exact List.Perm.append_left _ h8
      · rw [hstep]
        refine i6.trans ?_
        have := h7.map (fun b : GuiBuffer => (b.plugin_name, b.name))
        simp only [List.map_map] at this
        rw [h2]
        refine this.trans ?_
        simp only [List.map_append, List.map_cons, Function.comp, GuiBuffer.unnumbered,
          markApplied]
        exact List.Perm.refl _

/-- C23: for every live buffer list and every store that is not empty, with
a collaborator `gui_buffer_move_to_number` that only reorders and renumbers
the live list, `gui_layout_buffer_apply` returns, after exactly as many turns
of its loop as there are live buffers. Each turn processes the first buffer
of the current live list on which the layout has not been applied yet; the
buffers processed are the live buffers, each once; at the end every live
buffer has `layout_applied` 1 and, as `layout_number`, the number found in
the store for its names, and the live buffers are the same. -/
theorem buffer_apply_terminates (move : List GuiBuffer → Nat → Int → List GuiBuffer)
    (store : List LayoutBuffer) (gui_buffers : List GuiBuffer)
    (hstore : store ≠ []) (hmove : reordersOnly move) :
    ∃ r,
      (∀ fuel, gui_layout_buffer_apply move store fuel gui_buffers =
        if gui_buffers.length ≤ fuel then some r else none) ∧
      r.processed.length = gui_buffers.length ∧
      (r.processed.map GuiBuffer.unnumbered).Perm
        ((applyStart gui_buffers).gui_buffers.map GuiBuffer.unnumbered) ∧
      (∀ b ∈ r.gui_buffers, b.layout_applied = 1 ∧
        b.layout_number = gui_layout_buffer_get_number store b.plugin_name b.name) ∧
      (r.gui_buffers.map (fun b => (b.plugin_name, b.name))).Perm
        (gui_buffers.map (fun b => (b.plugin_name, b.name))) ∧
      (∀ st st1, gui_layout_buffer_apply_turn move store st = some st1 →
        ∃ pre b post, st.gui_buffers = pre ++ b :: post ∧
          (∀ x ∈ pre, x.layout_applied ≠ 0) ∧ b.layout_applied = 0 ∧
          st1.processed = st.processed ++ [b]) := by
  have hP : ∀ x ∈ (applyStart gui_buffers).gui_buffers, lookedUp store x := by
    intro x hx
    simp only [applyStart, List.mem_map] at hx
    obtain ⟨a, _, rfl⟩ := hx
    exact Or.inl rfl
  have hlen : (pendingBuffers (applyStart gui_buffers).gui_buffers).length =
      gui_buffers.length := by
    rw [pendingBuffers_applyStart]
    simp [applyStart]
  obtain ⟨i1, i2, i3, i4, i5, i6⟩ :=
    apply_loop_terminates move store hmove gui_buffers.length (applyStart gui_buffers) hP hlen
  refine ⟨gui_layout_buffer_apply_loop move store gui_buffers.length (applyStart gui_buffers),
    ?_, ?_, ?_, ?_, ?_, ?_⟩
  · intro fuel
    cases store with
    | nil => exact absurd rfl hstore
    | cons e rest =>
      simp only [gui_layout_buffer_apply]
      rw [← applyStart]
      by_cases hf : gui_buffers.length ≤ fuel
      · rw [if_pos hf, i1 fuel hf, if_pos ((all_applied_iff _).2 i3)]
      · rw [if_neg hf, if_neg]
        rw [all_applied_iff]
        exact i2 fuel (by omega)
  · have := i5.length_eq
    rw [pendingBuffers_applyStart] at this
    simpa [applyStart] using this
  · rw [pendingBuffers_applyStart] at i5
    simpa [applyStart] using i5
  · intro b hb
    have hnot : b.layout_applied ≠ 0 := by
      intro h0
      have : b ∈ pendingBuffers
          (gui_layout_buffer_apply_loop move store gui_buffers.length
            (applyStart gui_buffers)).gui_buffers :=
        List.mem_filter.2 ⟨hb, by simpa using h0⟩
      rw [i3] at this
      simp at this
    rcases i4 b hb with h0 | h1
    · exact absurd h0 hnot
    · exact h1
  · refine i6.trans ?_
    simp only [applyStart, List.map_map, Function.comp]
    exact List.Perm.refl _
  · intro st st1 hturn
    rcases apply_turn_eq move store st with ⟨h1, _⟩ | ⟨pre, b, post, h1, h2, h3, h4⟩
    · rw [h1] at hturn
      cases hturn
    · rw [h4] at hturn
      refine ⟨pre, b, post, h1, h3, h2, ?_⟩
      simp only [Option.some.injEq] at hturn
      rw [← hturn]
      cases expectedMove store b <;> rfl

theorem renumberFrom_unnumbered (k : Nat) (l : List GuiBuffer) :
    (renumberFrom k l).map GuiBuffer.unnumbered = l.map GuiBuffer.unnumbered := by
  induction l generalizing k with
  | nil => rfl
  | cons a rest ih =>
    simp only [renumberFrom, List.map_cons, ih]
    rfl

theorem perm_cons_eraseIdx (l : List GuiBuffer) (i : Nat) (b : GuiBuffer)
    (h : l[i]? = some b) : l.Perm (b :: l.eraseIdx i) := by
  induction l generalizing i with
  | nil => simp at h
  | cons a rest ih =>
    cases i with
    | zero =>
      simp only [List.getElem?_cons_zero, Option.some.injEq] at h
      rw [h]
      exact List.Perm.refl _
    | succ j =>
      simp only [List.getElem?_cons_succ] at h
      simp only [List.eraseIdx_cons_succ]
      exact (List.Perm.cons a (ih j h)).trans (List.Perm.swap b a _)

/-- The collaborator `gui_buffer_move_to_number`, as modelled, only reorders and renumbers
the live list. -/
theorem move_to_number_reorders : reordersOnly gui_buffer_move_to_number := by
  intro l i n
  unfold gui_buffer_move_to_number
  cases h : l[i]? with
  | none => exact List.Perm.refl _
  | some b =>
    simp only
    rw [renumberFrom_unnumbered]
    apply List.Perm.map
    refine List.perm_middle.trans ?_
    rw [List.take_append_drop]
    exact (perm_cons_eraseIdx l i b h).symm

/-- C23 on the example of the specification: the store saved from `#test` =
1, `#dev` = 2 is applied to the list `#dev`, `#test` with the collaborator
that moves the buffer to the position asked. -/
theorem buffer_apply_terminates_witness :
    exampleBuffers.map layoutEntry ≠ [] ∧ reordersOnly gui_buffer_move_to_number ∧
    ∃ r,
      (∀ fuel, gui_layout_buffer_apply gui_buffer_move_to_number
          (exampleBuffers.map layoutEntry) fuel exchangedBuffers =
        if exchangedBuffers.length ≤ fuel then some r else none) ∧
      r.processed.length = exchangedBuffers.length ∧
      ∀ b ∈ r.gui_buffers, b.layout_applied = 1 ∧
        b.layout_number =
          gui_layout_buffer_get_number (exampleBuffers.map layoutEntry) b.plugin_name b.name :=
  ⟨by decide, move_to_number_reorders,
   (buffer_apply_terminates gui_buffer_move_to_number (exampleBuffers.map layoutEntry)
      exchangedBuffers (by decide) move_to_number_reorders).imp
     (fun _ hr => ⟨hr.1, hr.2.1, hr.2.2.2.1⟩)⟩

/-! ## The requests of a replay -/

/-- A replay leaves the current window as it was and creates one window per
split node visited. -/
theorem apply_tree_current_next (fid : Int) (t : LayoutWindow) (g : Gui) :
    (gui_layout_window_apply_tree fid t g).gui_current_window = g.gui_current_window ∧
    (gui_layout_window_apply_tree fid t g).next_window = g.next_window + t.visitedSplits := by
  induction t generalizing g with
  | null => exact ⟨rfl, rfl⟩
  | node id pct horiz c1 c2 pn bn ih1 ih2 =>
    by_cases hp : pct = 0
    · subst hp
      simp [gui_layout_window_apply_tree, LayoutWindow.visitedSplits,
        gui_window_set_layout_plugin_name, gui_window_set_layout_buffer_name]
      split <;> simp
    · simp only [gui_layout_window_apply_tree, ne_eq, hp, not_false_eq_true, if_true,
        LayoutWindow.visitedSplits]
      have hg1 : ∀ g1 : Gui, g1.next_window = g.next_window + 1 →
          (gui_layout_window_apply_tree fid c1
            (if g.gui_current_window ≠ (gui_layout_window_apply_tree fid c2 g1).gui_current_window
              then gui_window_switch (gui_layout_window_apply_tree fid c2 g1) g.gui_current_window
              else gui_layout_window_apply_tree fid c2 g1)).gui_current_window
            = g.gui_current_window ∧
          (gui_layout_window_apply_tree fid c1
            (if g.gui_current_window ≠ (gui_layout_window_apply_tree fid c2 g1).gui_current_window
              then gui_window_switch (gui_layout_window_apply_tree fid c2 g1) g.gui_current_window
              else gui_layout_window_apply_tree fid c2 g1)).next_window
            = g.next_window + (1 + c2.visitedSplits + c1.visitedSplits) := by
        intro g1 hn
        rw [(ih1 _).1, (ih1 _).2]
        by_cases hc : g.gui_current_window =
            (gui_layout_window_apply_tree fid c2 g1).gui_current_window
        · simp only [ne_eq, hc, not_true_eq_false, if_false]
          rw [(ih2 g1).2, hn]
          exact ⟨trivial, by omega⟩
        · simp only [ne_eq, hc, not_false_eq_true, if_true, gui_window_switch]
          rw [(ih2 g1).2, hn]
          exact ⟨trivial, by omega⟩
      by_cases hh : horiz = 0
      · simp only [hh, not_true_eq_false, if_false]
        exact hg1 _ rfl
      · simp only [hh, not_false_eq_true, if_true]
        exact hg1 _ rfl

/-- The calls made by `gui_layout_window_apply_tree` are the requests that
the specification words, when the current window is not the window that the
next split creates. -/
theorem apply_tree_calls_eq (fid : Int) (t : LayoutWindow) (g : Gui)
    (h : g.gui_current_window < g.next_window) :
    gui_layout_window_apply_tree_calls fid t g =
      layoutCalls t g.gui_current_window g.next_window := by
  induction t generalizing g with
  | null => rfl
  | node id pct horiz c1 c2 pn bn ih1 ih2 =>
    by_cases hp : pct = 0
    · subst hp
      simp [gui_layout_window_apply_tree_calls, layoutCalls]
    · simp only [gui_layout_window_apply_tree_calls, layoutCalls, ne_eq, hp, not_false_eq_true,
        if_true]
      have key : ∀ g1 : Gui, g1.gui_current_window = g.next_window →
          g1.next_window = g.next_window + 1 →
          gui_layout_window_apply_tree_calls fid c2 g1 ++
            (if g.gui_current_window ≠
                (gui_layout_window_apply_tree fid c2 g1).gui_current_window
              then [WindowCall.switch g.gui_current_window] else []) ++
            gui_layout_window_apply_tree_calls fid c1
              (if g.gui_current_window ≠
                  (gui_layout_window_apply_tree fid c2 g1).gui_current_window
                then gui_window_switch (gui_layout_window_apply_tree fid c2 g1)
                  g.gui_current_window
                else gui_layout_window_apply_tree fid c2 g1) =
          layoutCalls c2 g.next_window (g.next_window + 1) ++
            WindowCall.switch g.gui_current_window ::
              layoutCalls c1 g.gui_current_window (g.next_window + 1 + c2.visitedSplits) := by
        intro g1 hc hn
        have h2 := apply_tree_current_next fid c2 g1
        have hne : g.gui_current_window ≠
            (gui_layout_window_apply_tree fid c2 g1).gui_current_window := by
          rw [h2.1, hc]
          omega
        rw [if_pos hne, if_pos hne, ih2 g1 (by rw [hc, hn]; omega), hc, hn,
          ih1 _ (by simp only [gui_window_switch]; rw [h2.2, hn]; omega)]
        simp only [gui_window_switch, h2.2, hn, List.append_assoc, List.singleton_append]
      by_cases hh : horiz = 0
      · simp only [hh, not_true_eq_false, if_false, List.append_assoc, List.singleton_append,
          List.cons_append, List.cons.injEq, true_and]
        have := key (gui_window_split_vertical g g.gui_current_window pct) rfl rfl
        simpa only [List.append_assoc, ne_eq] using this
      · simp only [hh, not_false_eq_true, if_true, List.append_assoc, List.singleton_append,
          List.cons_append, List.cons.injEq, true_and]
        have := key (gui_window_split_horizontal g g.gui_current_window pct) rfl rfl
        simpa only [List.append_assoc, ne_eq] using this

theorem layoutCalls_counts (t : LayoutWindow) (active next : Nat) :
    (layoutCalls t active next).countP WindowCall.isSplit = t.visitedSplits ∧
    (layoutCalls t active next).countP WindowCall.isSwitch = t.visitedSplits ∧
    (layoutCalls t active next).countP WindowCall.isSetPluginName = t.visitedLeaves ∧
    (layoutCalls t active next).countP WindowCall.isSetBufferName = t.visitedLeaves := by
  induction t generalizing active next with
  | null => simp [layoutCalls, LayoutWindow.visitedSplits, LayoutWindow.visitedLeaves]
  | node id pct horiz c1 c2 pn bn ih1 ih2 =>
    by_cases hp : pct = 0
    · subst hp
      simp [layoutCalls, LayoutWindow.visitedSplits, LayoutWindow.visitedLeaves,
        List.countP_cons, WindowCall.isSplit, WindowCall.isSwitch, WindowCall.isSetPluginName,
        WindowCall.isSetBufferName]
    · have i1 := ih1 active (next + 1 + c2.visitedSplits)
      have i2 := ih2 next (next + 1)
      simp only [layoutCalls, ne_eq, hp, not_false_eq_true, if_true, List.countP_cons,
        List.countP_append, LayoutWindow.visitedSplits, LayoutWindow.visitedLeaves, i1.1,
        i1.2.1, i1.2.2.1, i1.2.2.2, i2.1, i2.2.1, i2.2.2.1, i2.2.2.2]
      by_cases hh : horiz = 0 <;>
        simp [hh, WindowCall.isSplit, WindowCall.isSwitch, WindowCall.isSetPluginName,
          WindowCall.isSetBufferName] <;> omega

/-- C24: for every stored tree, the calls of the windowing collaborator made
by `gui_layout_window_apply_tree` on a screen whose current window is below
the next address are the requests that the specification words: for each
visited node with `split_pct != 0` one split of the window current at that
moment (horizontal exactly when `split_horiz` is not 0, at the percentage of
the node), then the calls of the whole `child2` subtree on the new window,
then one switch back to the window that was current before the split, then
the calls of the whole `child1` subtree; for each visited leaf one tagging of
the current window (the plugin name, then the buffer name). So there is one
split and one switch back per visited split node, one tagging per visited
leaf, and running these calls changes the screen as the function does. -/
theorem apply_tree_issues_calls (internal_id_current_window : Int) (t : LayoutWindow) (g : Gui)
    (h : g.gui_current_window < g.next_window) :
    gui_layout_window_apply_tree_calls internal_id_current_window t g =
      layoutCalls t g.gui_current_window g.next_window ∧
    (gui_layout_window_apply_tree_calls internal_id_current_window t g).countP
      WindowCall.isSplit = t.visitedSplits ∧
    (gui_layout_window_apply_tree_calls internal_id_current_window t g).countP
      WindowCall.isSwitch = t.visitedSplits ∧
    (gui_layout_window_apply_tree_calls internal_id_current_window t g).countP
      WindowCall.isSetPluginName = t.visitedLeaves ∧
    (gui_layout_window_apply_tree_calls internal_id_current_window t g).countP
      WindowCall.isSetBufferName = t.visitedLeaves ∧
    ((gui_layout_window_apply_tree_calls internal_id_current_window t g).foldl
        WindowCall.run g).screen =
      (gui_layout_window_apply_tree internal_id_current_window t g).screen := by
  have hc := layoutCalls_counts t g.gui_current_window g.next_window
  rw [apply_tree_calls_eq internal_id_current_window t g h]
  refine ⟨rfl, hc.1, hc.2.1, hc.2.2.1, hc.2.2.2, ?_⟩
  rw [← apply_tree_calls_eq internal_id_current_window t g h]
  exact apply_tree_calls_run internal_id_current_window t g

/-- C24 on the example: the stored tree of the example is replayed on a
screen of one window at address 10, the next window being created at 12. -/
theorem apply_tree_issues_calls_witness :
    (gui_window_switch (gui_window_merge_all exampleGui 10) 10).gui_current_window <
      (gui_window_switch (gui_window_merge_all exampleGui 10) 10).next_window ∧
    gui_layout_window_apply_tree_calls 4 exampleLayout
        (gui_window_switch (gui_window_merge_all exampleGui 10) 10) =
      [WindowCall.split_horizontal 10 50,
       WindowCall.split_vertical 12 30,
       WindowCall.set_layout_plugin_name 13 (some "irc"),
       WindowCall.set_layout_buffer_name 13 (some "#b"),
       WindowCall.switch 12,
       WindowCall.set_layout_plugin_name 12 (some "irc"),
       WindowCall.set_layout_buffer_name 12 (some "#a"),
       WindowCall.switch 10,
       WindowCall.set_layout_plugin_name 10 (some "core"),
       WindowCall.set_layout_buffer_name 10 (some "status")] :=
  ⟨by decide,
   (apply_tree_issues_calls 4 exampleLayout
      (gui_window_switch (gui_window_merge_all exampleGui 10) 10) (by decide)).1.trans
     (by decide)⟩

/-! ## The two reconciliation passes -/

theorem windows_updateWindow (f : GuiWindow → GuiWindow) (t : WindowTree) (id : Nat) :
    (t.updateWindow f id).windows = t.windows.map (fun w => if w.id = id then f w else w) := by
  induction t with
  | null => rfl
  | node w p h c1 c2 ih1 ih2 =>
    simp only [WindowTree.updateWindow, WindowTree.windows, ih1, ih2, List.map_append]
    cases w with
    | none => rfl
    | some x =>
      by_cases hx : x.id = id <;> simp [hx]

theorem windows_foldl_bind (binds : List (Nat × GuiBuffer)) (g : Gui) :
    (binds.foldl (fun g b => gui_window_switch_to_buffer g b.1 b.2) g).gui_windows_tree.windows =
      binds.foldl bindWindow g.gui_windows_tree.windows := by
  induction binds generalizing g with
  | nil => rfl
  | cons b rest ih =>
    simp only [List.foldl_cons]
    rw [ih]
    congr 1
    exact windows_updateWindow _ _ _

theorem showing_id (w : GuiWindow) (b : Option GuiBuffer) : (w.showing b).id = w.id := by
  cases b <;> rfl

/-- The binds computed from the windows of a list with distinct addresses,
one at most per window, made on a list of windows. -/
theorem foldl_bindWindow_filterMap (F : GuiWindow → Option GuiBuffer) (sel ws : List GuiWindow)
    (hnd : (sel.map (fun w => w.id)).Nodup) :
    (sel.filterMap (fun w => (F w).map (fun b => (w.id, b)))).foldl bindWindow ws =
      ws.map (fun w =>
        match sel.find? (fun s => decide (s.id = w.id)) with
        | some s => w.showing (F s)
        | none => w) := by
  induction sel generalizing ws with
  | nil => simp
  | cons x rest ih =>
    simp only [List.map_cons, List.nodup_cons] at hnd
    have hrest : rest.find? (fun s => decide (s.id = x.id)) = none := by
      apply List.find?_eq_none.2
      intro s hs
      simp only [decide_eq_true_eq]
      intro hsw
      apply hnd.1
      rw [← hsw]
      exact List.mem_map_of_mem _ hs
    cases hF : F x with
    | none =>
      simp only [List.filterMap_cons, hF, Option.map_none']
      rw [ih ws hnd.2]
      apply List.map_congr_left
      intro w _
      simp only [List.find?_cons]
      by_cases hwx : w.id = x.id
      · simp only [hwx, decide_True, hF, GuiWindow.showing, hrest]
      · have hxw : ¬ x.id = w.id := fun e => hwx e.symm
        simp only [hxw, decide_False]
    | some b =>
      simp only [List.filterMap_cons, hF, Option.map_some', List.foldl_cons]
      rw [ih _ hnd.2]
      simp only [bindWindow, List.map_map]
      apply List.map_congr_left
      intro w _
      simp only [Function.comp, List.find?_cons]
      by_cases hwx : w.id = x.id
      · simp only [hwx, decide_True, hF, GuiWindow.showing, if_true, hrest]
      · have hxw : ¬ x.id = w.id := fun e => hwx e.symm
        simp only [hxw, decide_False, hwx, if_false]

theorem find?_id_self (ws : List GuiWindow) (w : GuiWindow)
    (hnd : (ws.map (fun w => w.id)).Nodup) (hw : w ∈ ws) :
    ws.find? (fun s => decide (s.id = w.id)) = some w := by
  induction ws with
  | nil => simp at hw
  | cons a rest ih =>
    simp only [List.map_cons, List.nodup_cons] at hnd
    rcases List.mem_cons.1 hw with h1 | h1
    · subst h1
      simp
    · have hne : ¬ a.id = w.id := by
        intro e
        apply hnd.1
        rw [e]
        exact List.mem_map_of_mem _ h1
      simp only [List.find?_cons, hne, decide_False]
      exact ih hnd.2 h1

/-- The binds computed from the windows of a list, made on this list: each
window displays the buffer computed for it. -/
theorem foldl_bindWindow_self (F : GuiWindow → Option GuiBuffer) (ws : List GuiWindow)
    (hnd : (ws.map (fun w => w.id)).Nodup) :
    (ws.filterMap (fun w => (F w).map (fun b => (w.id, b)))).foldl bindWindow ws =
      ws.map (fun w => w.showing (F w)) := by
  rw [foldl_bindWindow_filterMap F ws ws hnd]
  apply List.map_congr_left
  intro w hw
  rw [find?_id_self ws w hnd hw]

theorem check_all_buffers_eq_filterMap (ws : List GuiWindow) (bufs : List GuiBuffer) :
    gui_layout_window_check_all_buffers ws bufs =
      ws.filterMap (fun w => (w.firstBuffer bufs).map (fun b => (w.id, b))) := by
  unfold gui_layout_window_check_all_buffers
  congr 1
  funext w
  unfold GuiWindow.firstBuffer
  cases w.layout_plugin_name <;> cases w.layout_buffer_name <;> try rfl
  simp only
  cases List.find? _ bufs <;> rfl

theorem check_buffer_eq_filterMap (ws : List GuiWindow) (b : GuiBuffer) :
    gui_layout_window_check_buffer ws b =
      ws.filterMap (fun w => (w.bufferIf b).map (fun x => (w.id, x))) := by
  unfold gui_layout_window_check_buffer
  congr 1
  funext w
  unfold GuiWindow.bufferIf
  cases w.layout_plugin_name <;> cases w.layout_buffer_name <;> try rfl
  simp only
  split <;> rfl

theorem map_showing_ids (F : GuiWindow → Option GuiBuffer) (ws : List GuiWindow) :
    (ws.map (fun w => w.showing (F w))).map (fun w => w.id) = ws.map (fun w => w.id) := by
  rw [List.map_map]
  apply List.map_congr_left
  intro w _
  exact showing_id w (F w)

/-- The pass `gui_layout_window_check_buffer` for each buffer of a list in
turn, on windows with distinct addresses: each window goes through the
buffers on its own. -/
theorem check_each_eq_map (bufs : List GuiBuffer) (ws : List GuiWindow)
    (hnd : (ws.map (fun w => w.id)).Nodup) :
    bufs.foldl (fun ws b => (gui_layout_window_check_buffer ws b).foldl bindWindow ws) ws =
      ws.map (fun w => bufs.foldl (fun w b => w.showing (w.bufferIf b)) w) := by
  induction bufs generalizing ws with
  | nil => simp
  | cons b rest ih =>
    simp only [List.foldl_cons]
    rw [check_buffer_eq_filterMap, foldl_bindWindow_self _ ws hnd,
      ih _ (by rw [map_showing_ids]; exact hnd), List.map_map]
    rfl

theorem bufferIf_showing (w : GuiWindow) (x : Option GuiBuffer) (b : GuiBuffer) :
    (w.showing x).bufferIf b = w.bufferIf b := by
  cases x <;> rfl

theorem foldl_bufferIf_none (bufs : List GuiBuffer) (w : GuiWindow)
    (h : ∀ b ∈ bufs, w.bufferIf b = none) :
    bufs.foldl (fun w b => w.showing (w.bufferIf b)) w = w := by
  induction bufs with
  | nil => rfl
  | cons b rest ih =>
    simp only [List.foldl_cons, h b (List.mem_cons_self _ _), GuiWindow.showing]
    exact ih (fun x hx => h x (List.mem_cons_of_mem _ hx))

/-- A window that goes through live buffers with distinct names ends with
the first buffer that has its intended names. -/
theorem foldl_bufferIf_eq_first (bufs : List GuiBuffer) (w : GuiWindow)
    (hnd : (bufs.map (fun b => (b.plugin_name, b.name))).Nodup) :
    bufs.foldl (fun w b => w.showing (w.bufferIf b)) w = w.showing (w.firstBuffer bufs) := by
  induction bufs generalizing w with
  | nil =>
    simp only [List.foldl_nil, GuiWindow.firstBuffer]
    cases w.layout_plugin_name <;> cases w.layout_buffer_name <;> rfl
  | cons b rest ih =>
    simp only [List.map_cons, List.nodup_cons] at hnd
    simp only [List.foldl_cons]
    cases hpn : w.layout_plugin_name with
    | none =>
      have h1 : w.bufferIf b = none := by simp [GuiWindow.bufferIf, hpn]
      have h2 : w.firstBuffer (b :: rest) = none := by simp [GuiWindow.firstBuffer, hpn]
      have h3 : w.firstBuffer rest = none := by simp [GuiWindow.firstBuffer, hpn]
      rw [h1, h2, show w.showing none = w from rfl, ih w hnd.2, h3]
      rfl
    | some pn =>
      cases hbn : w.layout_buffer_name with
      | none =>
        have h1 : w.bufferIf b = none := by simp [GuiWindow.bufferIf, hpn, hbn]
        have h2 : w.firstBuffer (b :: rest) = none := by
          simp [GuiWindow.firstBuffer, hpn, hbn]
        have h3 : w.firstBuffer rest = none := by simp [GuiWindow.firstBuffer, hpn, hbn]
        rw [h1, h2, show w.showing none = w from rfl, ih w hnd.2, h3]
        rfl
      | some bn =>
        by_cases hm : pn = b.plugin_name ∧ bn = b.name
        · have h1 : w.bufferIf b = some b := by simp [GuiWindow.bufferIf, hpn, hbn, hm]
          have h2 : w.firstBuffer (b :: rest) = some b := by
            simp [GuiWindow.firstBuffer, hpn, hbn, hm]
          rw [h1, h2]
          apply foldl_bufferIf_none
          intro x hx
          rw [bufferIf_showing]
          simp only [GuiWindow.bufferIf, hpn, hbn]
          rw [if_neg]
          intro hx2
          apply hnd.1
          rw [← hm.1, ← hm.2, hx2.1, hx2.2]
          exact List.mem_map_of_mem (fun b => (b.plugin_name, b.name)) hx
        · have h1 : w.bufferIf b = none := by simp [GuiWindow.bufferIf, hpn, hbn, hm]
          have h2 : w.firstBuffer (b :: rest) = w.firstBuffer rest := by
            simp only [GuiWindow.firstBuffer, hpn, hbn, List.find?_cons]
            have : (decide (pn = b.plugin_name) && decide (bn = b.name)) = false := by
              simpa using hm
            rw [this]
          rw [h1, h2, show w.showing none = w from rfl]
          exact ih w hnd.2

/-- C28: when the live windows have distinct addresses and no two live
buffers have the same plugin name and name, the pass
`gui_layout_window_check_all_buffers` leaves every window displaying the same
buffer as one pass `gui_layout_window_check_buffer` for each live buffer in
the order of the live list (a bind being the setting of the buffer displayed
by the window): namely the first live buffer that has the intended names of
the window, or the buffer displayed before when there is none. With two live
buffers of the same names the two differ: the window waiting for them ends
with the first one after `gui_layout_window_check_all_buffers`, with the last
one after the passes for each buffer. -/
theorem check_all_eq_check_each (g : Gui)
    (hids : (g.gui_windows_tree.windows.map (fun w => w.id)).Nodup)
    (hbufs : (g.gui_buffers.map (fun b => (b.plugin_name, b.name))).Nodup) :
    ((gui_layout_window_check_all_buffers g.gui_windows_tree.windows g.gui_buffers).foldl
        (fun g b => gui_window_switch_to_buffer g b.1 b.2) g).gui_windows_tree.windows =
      (g.gui_buffers.foldl
        (fun g1 b => (gui_layout_window_check_buffer g1.gui_windows_tree.windows b).foldl
          (fun g b => gui_window_switch_to_buffer g b.1 b.2) g1) g).gui_windows_tree.windows ∧
    ((gui_layout_window_check_all_buffers g.gui_windows_tree.windows g.gui_buffers).foldl
        (fun g b => gui_window_switch_to_buffer g b.1 b.2) g).gui_windows_tree.windows =
      g.gui_windows_tree.windows.map (fun w => w.showing (w.firstBuffer g.gui_buffers)) ∧
    (((gui_layout_window_check_all_buffers twinGui.gui_windows_tree.windows
        twinGui.gui_buffers).foldl
        (fun g b => gui_window_switch_to_buffer g b.1 b.2) twinGui).gui_windows_tree.windows.map
          (fun w => w.buffer.number) = [2] ∧
     (twinGui.gui_buffers.foldl
        (fun g1 b => (gui_layout_window_check_buffer g1.gui_windows_tree.windows b).foldl
          (fun g b => gui_window_switch_to_buffer g b.1 b.2) g1)
        twinGui).gui_windows_tree.windows.map (fun w => w.buffer.number) = [3]) := by
  have hall : ((gui_layout_window_check_all_buffers g.gui_windows_tree.windows
      g.gui_buffers).foldl
        (fun g b => gui_window_switch_to_buffer g b.1 b.2) g).gui_windows_tree.windows =
      g.gui_windows_tree.windows.map (fun w => w.showing (w.firstBuffer g.gui_buffers)) := by
    rw [windows_foldl_bind, check_all_buffers_eq_filterMap]
    exact foldl_bindWindow_self _ _ hids
  have heach : ∀ (bufs : List GuiBuffer) (g1 : Gui),
      (bufs.foldl
        (fun g1 b => (gui_layout_window_check_buffer g1.gui_windows_tree.windows b).foldl
          (fun g b => gui_window_switch_to_buffer g b.1 b.2) g1) g1).gui_windows_tree.windows =
      bufs.foldl (fun ws b => (gui_layout_window_check_buffer ws b).foldl bindWindow ws)
        g1.gui_windows_tree.windows := by
    intro bufs
    induction bufs with
    | nil => intro g1; rfl
    | cons b rest ih =>
      intro g1
      simp only [List.foldl_cons]
      rw [ih, windows_foldl_bind]
  refine ⟨?_, hall, by decide, by decide⟩
  rw [hall, heach, check_each_eq_map _ _ hids]
  apply List.map_congr_left
  intro w _
  exact (foldl_bufferIf_eq_first g.gui_buffers w hbufs).symm

/-- C28 on an example where binds are made: four windows display
`core/status`, two of them wait for `irc/#a`, one for `irc/#b` and one for a
buffer that is not live. The pass `gui_layout_window_check_all_buffers` makes
three binds in the order of the windows, the passes
`gui_layout_window_check_buffer` make the same binds in the order of the
buffers, and both leave the four windows displaying `core/status`, `irc/#a`,
`irc/#b` and `irc/#a`. -/
theorem check_all_eq_check_each_witness :
    (waitingGui.gui_windows_tree.windows.map (fun w => w.id)).Nodup ∧
    (waitingGui.gui_buffers.map (fun b => (b.plugin_name, b.name))).Nodup ∧
    gui_layout_window_check_all_buffers waitingGui.gui_windows_tree.windows
        waitingGui.gui_buffers =
      [(12, mkBuffer "irc" "#a" 3), (13, mkBuffer "irc" "#b" 2), (14, mkBuffer "irc" "#a" 3)] ∧
    waitingGui.gui_buffers.map
        (gui_layout_window_check_buffer waitingGui.gui_windows_tree.windows) =
      [[], [(13, mkBuffer "irc" "#b" 2)],
       [(12, mkBuffer "irc" "#a" 3), (14, mkBuffer "irc" "#a" 3)]] ∧
    ((gui_layout_window_check_all_buffers waitingGui.gui_windows_tree.windows
        waitingGui.gui_buffers).foldl
        (fun g b => gui_window_switch_to_buffer g b.1 b.2)
        waitingGui).gui_windows_tree.windows =
      (waitingGui.gui_buffers.foldl
        (fun g1 b => (gui_layout_window_check_buffer g1.gui_windows_tree.windows b).foldl
          (fun g b => gui_window_switch_to_buffer g b.1 b.2) g1)
        waitingGui).gui_windows_tree.windows ∧
    (waitingGui.gui_buffers.foldl
        (fun g1 b => (gui_layout_window_check_buffer g1.gui_windows_tree.windows b).foldl
          (fun g b => gui_window_switch_to_buffer g b.1 b.2) g1)
        waitingGui).gui_windows_tree.windows.map (fun w => (w.id, w.buffer.name)) =
      [(10, "status"), (12, "#a"), (13, "#b"), (14, "#a")] :=
  ⟨by decide, by decide, by decide, by decide,
   (check_all_eq_check_each waitingGui (by decide) (by decide)).1, by decide⟩

/-! ## Adding a node to the stored tree -/

theorem length_attach (m : List (Option LayoutWindowCell)) (p v : Nat) :
    (Heap.attach m p v).length = m.length := by
  unfold Heap.attach
  split <;> simp

theorem getElem?_attach_ne (m : List (Option LayoutWindowCell)) (p v a : Nat) (h : a ≠ p) :
    (Heap.attach m p v)[a]? = m[a]? := by
  unfold Heap.attach
  split
  · exact List.getElem?_set_ne (Ne.symm h)
  · rfl

theorem getElem?_attach_self (m : List (Option LayoutWindowCell)) (p v : Nat)
    (cell : LayoutWindowCell) (h : m[p]? = some (some cell)) :
    (Heap.attach m p v)[p]? = some (some (Heap.attachCell cell v)) := by
  have hlt : p < m.length := by
    by_contra hcon
    rw [List.getElem?_eq_none (by omega)] at h
    cases h
  unfold Heap.attach
  rw [h]
  exact List.getElem?_set_self hlt

/-- C25, counterexample: in the stored tree of the example the root, at
address 0, has its two children, at addresses 1 and 2. A node added with this
parent is created, at address 5, with the root as parent, but it is not
attached: the children of the root are the same, and the new node is neither
of them. -/
theorem add_to_full_parent_not_attached :
    (exampleWindowStore.memory[0]?).map (Option.map (fun c => (c.child1, c.child2))) =
      some (some (some 1, some 2)) ∧
    (Heap.gui_layout_window_add exampleWindowStore true 9 (some 0) 0 0 none none).2 = some 5 ∧
    ((Heap.gui_layout_window_add exampleWindowStore true 9 (some 0) 0 0 none none).1.memory[5]?).map
        (Option.map (fun c => c.parent_node)) = some (some (some 0)) ∧
    ((Heap.gui_layout_window_add exampleWindowStore true 9 (some 0) 0 0 none none).1.memory[0]?).map
        (Option.map (fun c => (c.child1, c.child2))) = some (some (some 1, some 2)) ∧
    (Heap.gui_layout_window_add exampleWindowStore true 9 (some 0) 0 0 none none).1.tree =
      exampleWindowStore.tree := by
  decide

/-- C25, amended: a successful `gui_layout_window_add` creates the node at a
fresh address, which it returns, with the id, percentage, orientation and
names given, no child, and the given parent as `parent_node`. When no parent
is given the root slot designates the new node and no other node is changed.
When a parent is given, the root slot and the other nodes are unchanged and
the parent gets the new node as `child1` if it has no `child1`, else as
`child2` if it has no `child2`, else it is left as it is: the new node is then
not attached. -/
theorem window_add_attaches (st : LayoutWindowStore) (internal_id : Int) (parent : Option Nat)
    (split_pct split_horiz : Int) (plugin_name buffer_name : Option String) :
    (Heap.gui_layout_window_add st true internal_id parent split_pct split_horiz
      plugin_name buffer_name).2 = some st.memory.length ∧
    (Heap.gui_layout_window_add st true internal_id parent split_pct split_horiz
      plugin_name buffer_name).1.memory.length = st.memory.length + 1 ∧
    (Heap.gui_layout_window_add st true internal_id parent split_pct split_horiz
      plugin_name buffer_name).1.memory[st.memory.length]? =
      some (some { internal_id := internal_id, parent_node := parent, split_pct := split_pct,
                   split_horiz := split_horiz, child1 := none, child2 := none,
                   plugin_name := plugin_name, buffer_name := buffer_name }) ∧
    (parent = none →
      (Heap.gui_layout_window_add st true internal_id parent split_pct split_horiz
        plugin_name buffer_name).1.gui_layout_windows = some st.memory.length ∧
      ∀ a, a < st.memory.length →
        (Heap.gui_layout_window_add st true internal_id parent split_pct split_horiz
          plugin_name buffer_name).1.memory[a]? = st.memory[a]?) ∧
    (∀ p cell, parent = some p → st.memory[p]? = some (some cell) →
      (Heap.gui_layout_window_add st true internal_id parent split_pct split_horiz
        plugin_name buffer_name).1.gui_layout_windows = st.gui_layout_windows ∧
      (∀ a, a < st.memory.length → a ≠ p →
        (Heap.gui_layout_window_add st true internal_id parent split_pct split_horiz
          plugin_name buffer_name).1.memory[a]? = st.memory[a]?) ∧
      (Heap.gui_layout_window_add st true internal_id parent split_pct split_horiz
        plugin_name buffer_name).1.memory[p]? =
        some (some
          (if cell.child1 = none then { cell with child1 := some st.memory.length }
           else if cell.child2 = none then { cell with child2 := some st.memory.length }
           else cell))) := by
  cases parent with
  | none =>
    refine ⟨rfl, by simp [Heap.gui_layout_window_add], ?_, ?_, ?_⟩
    · simp [Heap.gui_layout_window_add]
    · intro _
      refine ⟨rfl, ?_⟩
      intro a ha
      simp only [Heap.gui_layout_window_add, if_true]
      exact List.getElem?_append_left ha
    · intro p cell hp
      cases hp
  | some q =>
    refine ⟨rfl, ?_, ?_, ?_, ?_⟩
    · simp [Heap.gui_layout_window_add, length_attach]
    · simp only [Heap.gui_layout_window_add, if_true]
      rw [List.getElem?_append_right (by rw [length_attach]), length_attach]
      simp
    · intro h
      cases h
    · intro p cell hp hcell
      simp only [Option.some.injEq] at hp
      subst hp
      have hlt : q < st.memory.length := by
        by_contra hcon
        rw [List.getElem?_eq_none (by omega)] at hcell
        cases hcell
      refine ⟨rfl, ?_, ?_⟩
      · intro a ha hne
        simp only [Heap.gui_layout_window_add, if_true]
        rw [List.getElem?_append_left (by rw [length_attach]; exact ha)]
        exact getElem?_attach_ne _ _ _ _ hne
      · simp only [Heap.gui_layout_window_add, if_true]
        rw [List.getElem?_append_left (by rw [length_attach]; exact hlt)]
        rw [getElem?_attach_self _ _ _ cell hcell]
        rfl

/-! ## The tree saved in memory -/

theorem length_layout (base : Nat) (parent : Option Nat) (t : LayoutWindow) :
    (Heap.layout base parent t).length = t.size := by
  induction t generalizing base parent with
  | null => rfl
  | node id pct horiz c1 c2 pn bn ih1 ih2 =>
    simp only [Heap.layout, List.length_cons, List.length_append, ih1, ih2, LayoutWindow.size]
    omega

theorem attach_append_cons (m : List (Option LayoutWindowCell)) (c : LayoutWindowCell)
    (ys : List (Option LayoutWindowCell)) (v : Nat) :
    Heap.attach (m ++ some c :: ys) m.length v = m ++ some (Heap.attachCell c v) :: ys := by
  unfold Heap.attach
  have h : (m ++ some c :: ys)[m.length]? = some (some c) := by
    rw [List.getElem?_append_right (le_refl _)]
    simp
  rw [h]
  simp

theorem length_placed_memory (st : LayoutWindowStore) (parent : Option Nat)
    (r : LayoutWindow × (Int × Int)) :
    (Heap.placed st parent r).memory.length = st.memory.length + r.1.size := by
  cases parent with
  | none => simp [Heap.placed, length_layout]
  | some p =>
    by_cases h : r.1 = .null <;> simp [Heap.placed, length_layout, h, length_attach]

theorem attach_at (m : List (Option LayoutWindowCell)) (c : LayoutWindowCell)
    (ys : List (Option LayoutWindowCell)) (k v : Nat) (hk : k = m.length) :
    Heap.attach (m ++ some c :: ys) k v = m ++ some (Heap.attachCell c v) :: ys := by
  subst hk
  exact attach_append_cons m c ys v

theorem layout_null (base : Nat) (parent : Option Nat) : Heap.layout base parent .null = [] :=
  rfl

theorem size_null : LayoutWindow.size .null = 0 := rfl

theorem rootAt_null (base : Nat) : LayoutWindow.rootAt .null base = none := rfl

theorem rootAt_of_ne (t : LayoutWindow) (base : Nat) (h : t ≠ .null) :
    t.rootAt base = some base := by
  simp [LayoutWindow.rootAt, h]

/-- The memory after the trees of the two children have been placed under a
node that has just been created, at the end of the memory. -/
theorem placed_children_memory (sa : LayoutWindowStore) (m : List (Option LayoutWindowCell))
    (parent : Option Nat) (i pct hz : Int) (pn bn : Option String) (l1 l2 : LayoutWindow)
    (s1 s2 : Int × Int)
    (base : Nat) (hb : m.length = base)
    (hmem : sa.memory = m ++
      [some { internal_id := i, parent_node := parent, split_pct := pct, split_horiz := hz,
              child1 := none, child2 := none, plugin_name := pn, buffer_name := bn }]) :
    (Heap.placed (Heap.placed sa (some base) (l1, s1)) (some base) (l2, s2)).memory =
      m ++ (Heap.layout base parent
        (if l1 = .null then .node i pct hz l2 .null pn bn
         else .node i pct hz l1 l2 pn bn)).map some := by
  subst hb
  have hsalen : sa.memory.length = m.length + 1 := by simp [hmem]
  by_cases hl1 : l1 = .null
  · subst hl1
    have e1 : Heap.placed sa (some m.length) (.null, s1) =
        { sa with gui_layout_internal_id := s1.1,
                  gui_layout_internal_id_current_window := s1.2 } := by
      simp [Heap.placed, layout_null]
    rw [e1]
    by_cases hl2 : l2 = .null
    · subst hl2
      simp [Heap.placed, layout_null, hmem, Heap.layout, rootAt_null]
    · simp only [Heap.placed, hl2, if_false, if_true, hmem, Heap.layout, layout_null,
        rootAt_null, rootAt_of_ne l2 _ hl2, size_null, List.append_nil, List.map_cons,
        List.length_append, List.length_singleton, add_zero]
      rw [attach_at m _ [] _ _ rfl]
      simp [Heap.attachCell]
  · have e1 : (Heap.placed sa (some m.length) (l1, s1)).memory =
        m ++ some ({ internal_id := i, parent_node := parent, split_pct := pct,
                     split_horiz := hz, child1 := some (m.length + 1), child2 := none,
                     plugin_name := pn, buffer_name := bn } : LayoutWindowCell) ::
          (Heap.layout (m.length + 1) (some m.length) l1).map some := by
      simp only [Heap.placed, hl1, if_false, hmem, List.length_append, List.length_singleton]
      rw [attach_at m _ [] _ _ rfl]
      simp [Heap.attachCell]
    have e1len : (Heap.placed sa (some m.length) (l1, s1)).memory.length =
        m.length + 1 + l1.size := by
      rw [length_placed_memory, hsalen]
    by_cases hl2 : l2 = .null
    · subst hl2
      simp only [Heap.placed, if_true, layout_null, List.map_nil, List.append_nil] at e1 ⊢
      rw [e1]
      simp [Heap.layout, hl1, rootAt_null, rootAt_of_ne l1 _ hl1, layout_null]
    · have e2 : (Heap.placed (Heap.placed sa (some m.length) (l1, s1)) (some m.length)
          (l2, s2)).memory =
          Heap.attach (Heap.placed sa (some m.length) (l1, s1)).memory m.length
            (Heap.placed sa (some m.length) (l1, s1)).memory.length ++
          (Heap.layout (Heap.placed sa (some m.length) (l1, s1)).memory.length
            (some m.length) l2).map some := by
        simp [Heap.placed, hl2]
      rw [e2, e1len, e1, attach_at m _ _ _ _ rfl]
      simp [Heap.layout, hl1, rootAt_of_ne l1 _ hl1, rootAt_of_ne l2 _ hl2, Heap.attachCell]

theorem store_ext (a b : LayoutWindowStore) (h1 : a.memory = b.memory)
    (h2 : a.gui_layout_windows = b.gui_layout_windows)
    (h3 : a.gui_layout_internal_id = b.gui_layout_internal_id)
    (h4 : a.gui_layout_internal_id_current_window = b.gui_layout_internal_id_current_window) :
    a = b := by
  cases a
  cases b
  simp only at h1 h2 h3 h4
  simp [h1, h2, h3, h4]

/-- The node created for a live node and the trees placed for its two
children make the tree of the node, placed. -/
theorem placed_children (st sa : LayoutWindowStore) (parent : Option Nat)
    (i pct hz : Int) (pn bn : Option String) (r1 r2 : LayoutWindow × (Int × Int))
    (hroot : sa.gui_layout_windows =
      match parent with
      | some _ => st.gui_layout_windows
      | none => some st.memory.length)
    (hmem : sa.memory =
      (match parent with
       | some p => Heap.attach st.memory p st.memory.length
       | none => st.memory) ++
      [some { internal_id := i, parent_node := parent, split_pct := pct, split_horiz := hz,
              child1 := none, child2 := none, plugin_name := pn, buffer_name := bn }]) :
    Heap.placed (Heap.placed sa (some st.memory.length) r1) (some st.memory.length) r2 =
      Heap.placed st parent
        (if r1.1 = .null then .node i pct hz r2.1 .null pn bn
         else .node i pct hz r1.1 r2.1 pn bn, r2.2) := by
  obtain ⟨l1, s1⟩ := r1
  obtain ⟨l2, s2⟩ := r2
  have hne : (if l1 = LayoutWindow.null then LayoutWindow.node i pct hz l2 .null pn bn
      else .node i pct hz l1 l2 pn bn) ≠ .null := by
    split <;> simp
  apply store_ext
  · rw [placed_children_memory sa _ parent i pct hz pn bn l1 l2 s1 s2 st.memory.length
      (by cases parent <;> simp [length_attach]) hmem]
    simp only [Heap.placed, hne, if_false]
  · simp only [Heap.placed, hroot, hne, if_false]
  · rfl
  · rfl

/-- The function `gui_layout_window_save_tree` on the memory, every allocation successful,
places the tree that the function on trees returns. -/
theorem heap_save_tree_eq (cur : Nat) (t : WindowTree) (parent : Option Nat)
    (st : LayoutWindowStore) :
    Heap.gui_layout_window_save_tree (fun _ => true) cur t parent st =
      Heap.placed st parent
        (gui_layout_window_save_tree cur t
          (st.gui_layout_internal_id, st.gui_layout_internal_id_current_window)) := by
  induction t generalizing parent st with
  | null =>
    obtain ⟨m, r, i, c⟩ := st
    cases parent <;>
      simp [Heap.gui_layout_window_save_tree, gui_layout_window_save_tree, Heap.placed,
        layout_null]
  | node w p h c1 c2 ih1 ih2 =>
    obtain ⟨m, root, i, c⟩ := st
    rw [save_tree_node]
    cases parent with
    | none =>
      cases w with
      | none =>
        simp only [Heap.gui_layout_window_save_tree, Heap.gui_layout_window_add, if_true,
          savedFields]
        rw [ih1, ih2]
        exact placed_children ⟨m, root, i, c⟩ _ none i p h none none _ _ rfl rfl
      | some x =>
        by_cases hx : x.id = cur
        · simp only [Heap.gui_layout_window_save_tree, Heap.gui_layout_window_add, if_true,
            savedFields, hx]
          rw [ih1, ih2]
          exact placed_children ⟨m, root, i, c⟩ _ none i 0 0 _ _ _ _ rfl rfl
        · simp only [Heap.gui_layout_window_save_tree, Heap.gui_layout_window_add, if_true,
            savedFields, hx, if_false]
          rw [ih1, ih2]
          exact placed_children ⟨m, root, i, c⟩ _ none i 0 0 _ _ _ _ rfl rfl
    | some q =>
      cases w with
      | none =>
        simp only [Heap.gui_layout_window_save_tree, Heap.gui_layout_window_add, if_true,
          savedFields]
        rw [ih1, ih2]
        exact placed_children ⟨m, root, i, c⟩ _ (some q) i p h none none _ _ rfl rfl
      | some x =>
        by_cases hx : x.id = cur
        · simp only [Heap.gui_layout_window_save_tree, Heap.gui_layout_window_add, if_true,
            savedFields, hx]
          rw [ih1, ih2]
          exact placed_children ⟨m, root, i, c⟩ _ (some q) i 0 0 _ _ _ _ rfl rfl
        · simp only [Heap.gui_layout_window_save_tree, Heap.gui_layout_window_add, if_true,
            savedFields, hx, if_false]
          rw [ih1, ih2]
          exact placed_children ⟨m, root, i, c⟩ _ (some q) i 0 0 _ _ _ _ rfl rfl

theorem holdsTree_node (m : List (Option LayoutWindowCell)) (a : Nat) (parent : Option Nat)
    (id pct horiz : Int) (c1 c2 : LayoutWindow) (pn bn : Option String) :
    Heap.holdsTree m (some a) parent (.node id pct horiz c1 c2 pn bn) = true ↔
      ∃ cell, m[a]? = some (some cell) ∧
        (cell.internal_id = id ∧ cell.parent_node = parent ∧ cell.split_pct = pct ∧
          cell.split_horiz = horiz ∧ cell.plugin_name = pn ∧ cell.buffer_name = bn) ∧
        Heap.holdsTree m cell.child1 (some a) c1 = true ∧
        Heap.holdsTree m cell.child2 (some a) c2 = true := by
  simp only [Heap.holdsTree]
  cases h : m[a]? with
  | none => simp
  | some o =>
    cases o with
    | none => simp
    | some cell => simp [and_assoc]

theorem holdsTree_null_iff (m : List (Option LayoutWindowCell)) (r parent : Option Nat) :
    Heap.holdsTree m r parent .null = true ↔ r = none := by
  cases r <;> simp [Heap.holdsTree]

/-- A tree placed in memory is held from its first address. -/
theorem layout_holds (t : LayoutWindow) (base : Nat) (parent : Option Nat)
    (pre post : List (Option LayoutWindowCell)) (hpre : pre.length = base) :
    Heap.holdsTree (pre ++ (Heap.layout base parent t).map some ++ post) (t.rootAt base)
      parent t = true := by
  induction t generalizing base parent pre post with
  | null => rfl
  | node id pct horiz c1 c2 pn bn ih1 ih2 =>
    obtain ⟨cell, hcell⟩ : ∃ cell : LayoutWindowCell, cell =
        ({ internal_id := id, parent_node := parent, split_pct := pct, split_horiz := horiz,
           child1 := c1.rootAt (base + 1), child2 := c2.rootAt (base + 1 + c1.size),
           plugin_name := pn, buffer_name := bn } : LayoutWindowCell) := ⟨_, rfl⟩
    have hl : Heap.layout base parent (.node id pct horiz c1 c2 pn bn) =
        cell :: (Heap.layout (base + 1) (some base) c1 ++
          Heap.layout (base + 1 + c1.size) (some base) c2) := by
      rw [hcell]
      rfl
    rw [rootAt_of_ne _ _ (by simp), holdsTree_node, hl]
    refine ⟨cell, ?_, by rw [hcell]; exact ⟨rfl, rfl, rfl, rfl, rfl, rfl⟩, ?_, ?_⟩
    · simp only [List.map_cons, List.append_assoc, List.cons_append]
      rw [← hpre, List.getElem?_append_right (le_refl _)]
      simp
    · have := ih1 (base + 1) (some base) (pre ++ [some cell])
        ((Heap.layout (base + 1 + c1.size) (some base) c2).map some ++ post)
        (by simp [hpre])
      have hc1 : cell.child1 = c1.rootAt (base + 1) := by rw [hcell]
      rw [hc1]
      simpa only [List.map_cons, List.map_append, List.append_assoc,
        List.cons_append, List.singleton_append, List.nil_append] using this
    · have := ih2 (base + 1 + c1.size) (some base)
        (pre ++ some cell :: (Heap.layout (base + 1) (some base) c1).map some) post
        (by simp [hpre, length_layout]; omega)
      have hc2 : cell.child2 = c2.rootAt (base + 1 + c1.size) := by rw [hcell]
      rw [hc2]
      simpa only [List.map_cons, List.map_append, List.append_assoc,
        List.cons_append, List.singleton_append, List.nil_append] using this

theorem addresses_node (m : List (Option LayoutWindowCell)) (a : Nat)
    (id pct horiz : Int) (c1 c2 : LayoutWindow) (pn bn : Option String)
    (cell : LayoutWindowCell) (h : m[a]? = some (some cell)) :
    Heap.addresses m (some a) (.node id pct horiz c1 c2 pn bn) =
      a :: (Heap.addresses m cell.child1 c1 ++ Heap.addresses m cell.child2 c2) := by
  simp only [Heap.addresses, h]

/-- The nodes of a tree placed in memory are at consecutive addresses. -/
theorem layout_addresses (t : LayoutWindow) (base : Nat) (parent : Option Nat)
    (pre post : List (Option LayoutWindowCell)) (hpre : pre.length = base) :
    Heap.addresses (pre ++ (Heap.layout base parent t).map some ++ post) (t.rootAt base) t =
      List.range' base t.size := by
  induction t generalizing base parent pre post with
  | null => rfl
  | node id pct horiz c1 c2 pn bn ih1 ih2 =>
    obtain ⟨cell, hcell⟩ : ∃ cell : LayoutWindowCell, cell =
        ({ internal_id := id, parent_node := parent, split_pct := pct, split_horiz := horiz,
           child1 := c1.rootAt (base + 1), child2 := c2.rootAt (base + 1 + c1.size),
           plugin_name := pn, buffer_name := bn } : LayoutWindowCell) := ⟨_, rfl⟩
    have hl : Heap.layout base parent (.node id pct horiz c1 c2 pn bn) =
        cell :: (Heap.layout (base + 1) (some base) c1 ++
          Heap.layout (base + 1 + c1.size) (some base) c2) := by
      rw [hcell]
      rfl
    have hget : (pre ++ (Heap.layout base parent (.node id pct horiz c1 c2 pn bn)).map some ++
        post)[base]? = some (some cell) := by
      rw [hl]
      simp only [List.map_cons, List.append_assoc, List.cons_append]
      rw [← hpre, List.getElem?_append_right (le_refl _)]
      simp
    rw [rootAt_of_ne _ _ (by simp), addresses_node _ _ _ _ _ _ _ _ _ cell hget, hl]
    have h1 := ih1 (base + 1) (some base) (pre ++ [some cell])
        ((Heap.layout (base + 1 + c1.size) (some base) c2).map some ++ post)
        (by simp [hpre])
    have h2 := ih2 (base + 1 + c1.size) (some base)
        (pre ++ some cell :: (Heap.layout (base + 1) (some base) c1).map some) post
        (by simp [hpre, length_layout]; omega)
    have hc1 : cell.child1 = c1.rootAt (base + 1) := by rw [hcell]
    have hc2 : cell.child2 = c2.rootAt (base + 1 + c1.size) := by rw [hcell]
    simp only [List.map_cons, List.map_append, List.append_assoc,
      List.cons_append, List.singleton_append, List.nil_append] at h1 h2 ⊢
    rw [hc1, hc2, h1, h2, LayoutWindow.size, List.range'_append_1]
    rw [show 1 + c1.size + c2.size = (c1.size + c2.size) + 1 by omega, List.range'_succ,
      Nat.add_comm c2.size c1.size]

/-- The tree read from an address from which the memory holds a tree is this
tree. -/
theorem read_of_holds (t : LayoutWindow) (m : List (Option LayoutWindowCell))
    (r parent : Option Nat) (fuel : Nat) (h : Heap.holdsTree m r parent t = true)
    (hf : t.size ≤ fuel) : Heap.read m fuel r = t := by
  induction t generalizing r parent fuel with
  | null =>
    rw [(holdsTree_null_iff m r parent).1 h]
    cases fuel <;> rfl
  | node id pct horiz c1 c2 pn bn ih1 ih2 =>
    cases r with
    | none => simp [Heap.holdsTree] at h
    | some a =>
      obtain ⟨cell, hcell, ⟨e1, _, e3, e4, e5, e6⟩, hh1, hh2⟩ := (holdsTree_node _ _ _ _ _ _ _ _ _ _).1 h
      simp only [LayoutWindow.size] at hf
      cases fuel with
      | zero => omega
      | succ f =>
        simp only [Heap.read, hcell]
        rw [ih1 _ _ f hh1 (by omega), ih2 _ _ f hh2 (by omega), e1, e3, e4, e5, e6]

/-- What the memory holds from an address depends on the cells at the
addresses of the tree only. -/
theorem holdsTree_frame (t : LayoutWindow) (m m2 : List (Option LayoutWindowCell))
    (r parent : Option Nat) (h : ∀ x ∈ Heap.addresses m r t, m2[x]? = m[x]?) :
    Heap.holdsTree m2 r parent t = Heap.holdsTree m r parent t ∧
    Heap.addresses m2 r t = Heap.addresses m r t := by
  induction t generalizing r parent with
  | null => cases r <;> exact ⟨rfl, rfl⟩
  | node id pct horiz c1 c2 pn bn ih1 ih2 =>
    cases r with
    | none => exact ⟨rfl, rfl⟩
    | some a =>
      have ha : m2[a]? = m[a]? := by
        apply h
        simp only [Heap.addresses]
        split <;> simp
      cases hm : m[a]? with
      | none => simp [Heap.holdsTree, Heap.addresses, ha, hm]
      | some o =>
        cases o with
        | none => simp [Heap.holdsTree, Heap.addresses, ha, hm]
        | some cell =>
          rw [addresses_node _ _ _ _ _ _ _ _ _ cell hm] at h
          have i1 := ih1 cell.child1 (some a) (fun x hx => h x (by simp [hx]))
          have i2 := ih2 cell.child2 (some a) (fun x hx => h x (by simp [hx]))
          rw [hm] at ha
          simp only [Heap.holdsTree, Heap.addresses, ha, hm, i1.1, i1.2, i2.1, i2.2, and_self]

theorem length_window_remove (fuel : Nat) (m : List (Option LayoutWindowCell)) (a : Nat) :
    (Heap.gui_layout_window_remove fuel m a).length = m.length := by
  induction fuel generalizing m a with
  | zero => rfl
  | succ f ih =>
    simp only [Heap.gui_layout_window_remove]
    split
    · rename_i cell _
      simp only [List.length_set]
      have h1 : (match cell.child1 with
          | some child1 => Heap.gui_layout_window_remove f m child1
          | none => m).length = m.length := by
        split
        · exact ih _ _
        · rfl
      split
      · split
        · rw [ih, h1]
        · exact h1
      · exact h1
    · rfl

/-- The function `gui_layout_window_remove`, with a depth of recursion that is at least
the number of nodes, frees the cells of the tree held from the address given
and no other cell. -/
theorem window_remove_frees (t : LayoutWindow) (m : List (Option LayoutWindowCell))
    (r parent : Option Nat) (fuel : Nat) (h : Heap.holdsTree m r parent t = true)
    (hnd : (Heap.addresses m r t).Nodup) (hf : t.size ≤ fuel) :
    ∀ x, (match r with
          | some a => Heap.gui_layout_window_remove fuel m a
          | none => m)[x]? =
      if x ∈ Heap.addresses m r t then some none else m[x]? := by
  induction t generalizing m r parent fuel with
  | null =>
    rw [(holdsTree_null_iff m r parent).1 h]
    intro x
    simp [Heap.addresses]
  | node id pct horiz c1 c2 pn bn ih1 ih2 =>
    cases r with
    | none => simp [Heap.holdsTree] at h
    | some a =>
      obtain ⟨cell, hcell, _, hh1, hh2⟩ := (holdsTree_node _ _ _ _ _ _ _ _ _ _).1 h
      rw [addresses_node _ _ _ _ _ _ _ _ _ cell hcell] at hnd ⊢
      simp only [List.nodup_cons, List.mem_append, not_or, List.nodup_append] at hnd
      obtain ⟨⟨ha1, ha2⟩, hnd1, hnd2, hdisj⟩ := hnd
      simp only [LayoutWindow.size] at hf
      cases fuel with
      | zero => omega
      | succ f =>
        have i1 := ih1 m cell.child1 (some a) f hh1 hnd1 (by omega)
        have hm1a : (match cell.child1 with
            | some child1 => Heap.gui_layout_window_remove f m child1
            | none => m)[a]? = some (some cell) := by
          rw [i1 a, if_neg ha1, hcell]
        have hframe := holdsTree_frame c2 m
          (match cell.child1 with
            | some child1 => Heap.gui_layout_window_remove f m child1
            | none => m) cell.child2 (some a)
          (fun x hx => by
            rw [i1 x, if_neg]
            intro hx1
            exact hdisj hx1 hx)
        have i2 := ih2 _ cell.child2 (some a) f (by rw [hframe.1]; exact hh2)
          (by rw [hframe.2]; exact hnd2) (by omega)
        rw [hframe.2] at i2
        intro x
        simp only [Heap.gui_layout_window_remove, hcell, hm1a]
        by_cases hxa : x = a
        · subst hxa
          have hlt : x < m.length := by
            by_contra hcon
            rw [List.getElem?_eq_none (by omega)] at hcell
            cases hcell
          rw [List.getElem?_set_self]
          · simp
          · have hl1 : (match cell.child1 with
                | some child1 => Heap.gui_layout_window_remove f m child1
                | none => m).length = m.length := by
              split
              · exact length_window_remove _ _ _
              · rfl
            have hl2 : (match cell.child2 with
                | some child2 => Heap.gui_layout_window_remove f
                    (match cell.child1 with
                      | some child1 => Heap.gui_layout_window_remove f m child1
                      | none => m) child2
                | none => (match cell.child1 with
                      | some child1 => Heap.gui_layout_window_remove f m child1
                      | none => m)).length = m.length := by
              split
              · rw [length_window_remove]; exact hl1
              · exact hl1
            rw [hl2]
            exact hlt
        · rw [List.getElem?_set_ne (Ne.symm hxa), i2 x, i1 x]
          simp only [List.mem_cons, List.mem_append, hxa, false_or]
          by_cases h1 : x ∈ Heap.addresses m cell.child1 c1 <;>
            by_cases h2 : x ∈ Heap.addresses m cell.child2 c2 <;> simp [h1, h2]

theorem window_remove_all_root (st : LayoutWindowStore) :
    (Heap.gui_layout_window_remove_all st).gui_layout_windows = none := by
  unfold Heap.gui_layout_window_remove_all
  cases h : st.gui_layout_windows with
  | none => exact h
  | some r => rfl

theorem read_none (m : List (Option LayoutWindowCell)) (fuel : Nat) :
    Heap.read m fuel none = .null := by
  cases fuel <;> rfl

/-- The store after `gui_layout_window_save`, every allocation successful: the tree that
the function on trees returns, placed after the cells of the memory. -/
theorem heap_save_eq (st : LayoutWindowStore) (t : WindowTree) (cur : Nat) :
    Heap.gui_layout_window_save st (fun _ => true) t cur =
      (Heap.placed
        { Heap.gui_layout_window_remove_all st with
          gui_layout_internal_id := 1, gui_layout_internal_id_current_window := -1 }
        none (gui_layout_window_save_tree cur t (1, -1)),
       (gui_layout_window_save_tree cur t (1, -1)).2.2) := by
  simp only [Heap.gui_layout_window_save]
  rw [heap_save_tree_eq]
  rfl

/-- A tree placed in the root slot of a store whose root slot is empty is
the tree of the store, which is well formed. -/
theorem placed_root_tree (st : LayoutWindowStore) (r : LayoutWindow × (Int × Int))
    (hroot : st.gui_layout_windows = none) :
    (Heap.placed st none r).tree = r.1 ∧ (Heap.placed st none r).wellFormed r.1 = true := by
  have hr : (Heap.placed st none r).gui_layout_windows = r.1.rootAt st.memory.length := by
    simp only [Heap.placed, LayoutWindow.rootAt, hroot]
  have hm : (Heap.placed st none r).memory =
      st.memory ++ (Heap.layout st.memory.length none r.1).map some ++ [] := by
    simp [Heap.placed]
  have hh := layout_holds r.1 st.memory.length none st.memory [] rfl
  have ha := layout_addresses r.1 st.memory.length none st.memory [] rfl
  constructor
  · unfold LayoutWindowStore.tree
    rw [hr]
    apply read_of_holds r.1 _ _ none
    · rw [hm]; exact hh
    · rw [length_placed_memory]; omega
  · unfold LayoutWindowStore.wellFormed
    rw [hr, hm, hh, ha]
    simp [List.nodup_range']

/-- C22: the result of `gui_layout_window_save`, every allocation successful,
depends on the live tree of windows and on the current window only. Whatever
the store before (its memory, the tree it held, the values of the id counter
and of the id of the current window), the tree of the store after the save is
the tree that the function on trees gives for the live tree and the current
window, and the id returned is the same; so the saves from two different
stores give equal trees and equal ids, and a second save right after the
first one gives the same tree and the same id. The store after the save is
well formed. -/
theorem window_save_depends_on_live_tree (st st2 : LayoutWindowStore) (globals : LayoutGlobals)
    (gui_windows_tree : WindowTree) (gui_current_window : Nat) :
    (Heap.gui_layout_window_save st (fun _ => true) gui_windows_tree gui_current_window).1.tree =
      (gui_layout_window_save globals gui_windows_tree gui_current_window).1.gui_layout_windows ∧
    (Heap.gui_layout_window_save st (fun _ => true) gui_windows_tree gui_current_window).2 =
      (gui_layout_window_save globals gui_windows_tree gui_current_window).2 ∧
    (Heap.gui_layout_window_save st2 (fun _ => true) gui_windows_tree gui_current_window).1.tree =
      (Heap.gui_layout_window_save st (fun _ => true) gui_windows_tree
        gui_current_window).1.tree ∧
    (Heap.gui_layout_window_save st2 (fun _ => true) gui_windows_tree gui_current_window).2 =
      (Heap.gui_layout_window_save st (fun _ => true) gui_windows_tree gui_current_window).2 ∧
    (Heap.gui_layout_window_save
        (Heap.gui_layout_window_save st (fun _ => true) gui_windows_tree gui_current_window).1
        (fun _ => true) gui_windows_tree gui_current_window).1.tree =
      (Heap.gui_layout_window_save st (fun _ => true) gui_windows_tree
        gui_current_window).1.tree ∧
    (Heap.gui_layout_window_save
        (Heap.gui_layout_window_save st (fun _ => true) gui_windows_tree gui_current_window).1
        (fun _ => true) gui_windows_tree gui_current_window).2 =
      (Heap.gui_layout_window_save st (fun _ => true) gui_windows_tree gui_current_window).2 ∧
    (Heap.gui_layout_window_save st (fun _ => true) gui_windows_tree
        gui_current_window).1.wellFormed
      (Heap.gui_layout_window_save st (fun _ => true) gui_windows_tree
        gui_current_window).1.tree = true := by
  have key : ∀ s : LayoutWindowStore,
      (Heap.gui_layout_window_save s (fun _ => true) gui_windows_tree
        gui_current_window).1.tree =
        (gui_layout_window_save_tree gui_current_window gui_windows_tree (1, -1)).1 ∧
      (Heap.gui_layout_window_save s (fun _ => true) gui_windows_tree gui_current_window).2 =
        (gui_layout_window_save_tree gui_current_window gui_windows_tree (1, -1)).2.2 ∧
      (Heap.gui_layout_window_save s (fun _ => true) gui_windows_tree
        gui_current_window).1.wellFormed
        (gui_layout_window_save_tree gui_current_window gui_windows_tree (1, -1)).1 = true := by
    intro s
    rw [heap_save_eq]
    have := placed_root_tree
      { Heap.gui_layout_window_remove_all s with
        gui_layout_internal_id := 1, gui_layout_internal_id_current_window := -1 }
      (gui_layout_window_save_tree gui_current_window gui_windows_tree (1, -1))
      (window_remove_all_root s)
    exact ⟨this.1, rfl, this.2⟩
  have k1 := key st
  have k2 := key st2
  have k3 := key
    (Heap.gui_layout_window_save st (fun _ => true) gui_windows_tree gui_current_window).1
  refine ⟨k1.1, k1.2.1, by rw [k1.1, k2.1], by rw [k1.2.1, k2.2.1], by rw [k3.1, k1.1],
    by rw [k3.2.1, k1.2.1], ?_⟩
  rw [k1.1]
  exact k1.2.2

/-! ## Reset of the layout of windows -/

theorem addresses_length_lt (t : LayoutWindow) (m : List (Option LayoutWindowCell))
    (r parent : Option Nat) (h : Heap.holdsTree m r parent t = true) :
    (Heap.addresses m r t).length = t.size ∧ ∀ x ∈ Heap.addresses m r t, x < m.length := by
  induction t generalizing r parent with
  | null =>
    rw [(holdsTree_null_iff m r parent).1 h]
    simp [Heap.addresses, LayoutWindow.size]
  | node id pct horiz c1 c2 pn bn ih1 ih2 =>
    cases r with
    | none => simp [Heap.holdsTree] at h
    | some a =>
      obtain ⟨cell, hcell, _, hh1, hh2⟩ := (holdsTree_node _ _ _ _ _ _ _ _ _ _).1 h
      rw [addresses_node _ _ _ _ _ _ _ _ _ cell hcell]
      have i1 := ih1 _ _ hh1
      have i2 := ih2 _ _ hh2
      constructor
      · simp only [List.length_cons, List.length_append, i1.1, i2.1, LayoutWindow.size]
        omega
      · intro x hx
        simp only [List.mem_cons, List.mem_append] at hx
        rcases hx with hx | hx | hx
        · subst hx
          by_contra hcon
          rw [List.getElem?_eq_none (by omega)] at hcell
          cases hcell
        · exact i1.2 x hx
        · exact i2.2 x hx

theorem size_le_memory (st : LayoutWindowStore) (t : LayoutWindow)
    (h : st.wellFormed t = true) : t.size ≤ st.memory.length := by
  simp only [LayoutWindowStore.wellFormed, Bool.and_eq_true, decide_eq_true_eq] at h
  have hl := addresses_length_lt t st.memory _ _ h.1
  have hsub : Heap.addresses st.memory st.gui_layout_windows t ⊆ List.range st.memory.length :=
    fun x hx => List.mem_range.2 (hl.2 x hx)
  have := (List.subperm_of_subset h.2 hsub).length_le
  rw [hl.1] at this
  simpa using this

theorem resetWindow_eq (w : GuiWindow) :
    resetWindow w = { w with layout_plugin_name := none, layout_buffer_name := none } := by
  obtain ⟨id, b, pn, bn⟩ := w
  cases pn <;> cases bn <;> rfl

theorem windows_mapWindows (f : GuiWindow → GuiWindow) (t : WindowTree) :
    (t.mapWindows f).windows = t.windows.map f := by
  induction t with
  | null => rfl
  | node w p h c1 c2 ih1 ih2 =>
    simp only [WindowTree.mapWindows, WindowTree.windows, ih1, ih2, List.map_append]
    cases w <;> rfl

/-- C29: after `gui_layout_window_reset` on a well formed store, the root
slot is `NULL`, so the stored tree is empty, and the cells of the tree that
was stored are freed, no other cell being changed; every live window has
neither an intended plugin name nor an intended buffer name, while the
windows, the buffer each one displays, the shape of the live tree, the current
window and the live buffers are the same. -/
theorem window_reset_clears (st : LayoutWindowStore) (t : LayoutWindow) (g : Gui)
    (h : st.wellFormed t = true) :
    (Heap.gui_layout_window_reset st g).1.gui_layout_windows = none ∧
    (Heap.gui_layout_window_reset st g).1.tree = .null ∧
    (∀ a, (Heap.gui_layout_window_reset st g).1.memory[a]? =
      if a ∈ Heap.addresses st.memory st.gui_layout_windows t then some none
      else st.memory[a]?) ∧
    (∀ w ∈ (Heap.gui_layout_window_reset st g).2.gui_windows_tree.windows,
      w.layout_plugin_name = none ∧ w.layout_buffer_name = none) ∧
    (Heap.gui_layout_window_reset st g).2.gui_windows_tree.windows.map
        (fun w => (w.id, w.buffer)) =
      g.gui_windows_tree.windows.map (fun w => (w.id, w.buffer)) ∧
    (Heap.gui_layout_window_reset st g).2.gui_windows_tree =
      g.gui_windows_tree.mapWindows
        (fun w => { w with layout_plugin_name := none, layout_buffer_name := none }) ∧
    (Heap.gui_layout_window_reset st g).2.gui_current_window = g.gui_current_window ∧
    (Heap.gui_layout_window_reset st g).2.gui_buffers = g.gui_buffers := by
  have hroot := window_remove_all_root st
  have hfun : resetWindow =
      fun w => { w with layout_plugin_name := none, layout_buffer_name := none } :=
    funext resetWindow_eq
  refine ⟨hroot, ?_, ?_, ?_, ?_, ?_, rfl, rfl⟩
  · show (Heap.gui_layout_window_remove_all st).tree = .null
    unfold LayoutWindowStore.tree
    rw [hroot]
    exact read_none _ _
  · intro a
    show (Heap.gui_layout_window_remove_all st).memory[a]? = _
    have hw := h
    simp only [LayoutWindowStore.wellFormed, Bool.and_eq_true, decide_eq_true_eq] at hw
    have hrem := window_remove_frees t st.memory st.gui_layout_windows none st.memory.length
      hw.1 hw.2 (size_le_memory st t h) a
    unfold Heap.gui_layout_window_remove_all
    cases hr : st.gui_layout_windows with
    | none =>
      rw [hr] at hrem
      exact hrem
    | some r =>
      rw [hr] at hrem
      exact hrem
  · intro w hw
    simp only [Heap.gui_layout_window_reset, windows_mapWindows, List.mem_map] at hw
    obtain ⟨w0, _, rfl⟩ := hw
    rw [resetWindow_eq]
    exact ⟨rfl, rfl⟩
  · simp only [Heap.gui_layout_window_reset, windows_mapWindows, List.map_map]
    apply List.map_congr_left
    intro w _
    simp only [Function.comp, resetWindow_eq]
  · simp only [Heap.gui_layout_window_reset, hfun]

/-- C29 on the example: the stored tree of the example is reset, with the
live screen of the example, where the window at address 10 waits for
`irc/#old`. -/
theorem window_reset_clears_witness :
    exampleWindowStore.wellFormed exampleLayout = true ∧
    (Heap.gui_layout_window_reset exampleWindowStore exampleGui).1.gui_layout_windows = none ∧
    (Heap.gui_layout_window_reset exampleWindowStore exampleGui).1.memory =
      [none, none, none, none, none] ∧
    (Heap.gui_layout_window_reset exampleWindowStore exampleGui).2.gui_windows_tree.windows =
      [mkWindow 10 (mkBuffer "core" "status" 1), mkWindow 11 (mkBuffer "irc" "#b" 3)] :=
  ⟨by decide,
   (window_reset_clears exampleWindowStore exampleLayout exampleGui (by decide)).1,
   by decide, by decide⟩

/-! ## Failure of the allocation of a node -/

/-- C21, on the failing input: the windows of the example are saved, the
allocation failing for the node of the second split (the node that gets the id
3) and for no other. The nodes of the two windows under this split are created
without a parent, each one being written in the root slot: at the end the root
slot designates the node of `irc/#b`, at address 3, which has no parent and
no child, and the stored tree is this leaf alone. The node created for the
root of the live tree is at address 0, with the node of `core/status` as only
child, and nothing designates it. When the allocation fails for the node of a
leaf instead (the id 2), the root slot designates the node of the live root. -/
theorem failed_split_node_replaces_root :
    (Heap.gui_layout_window_save emptyWindowStore (fun _ => true) exampleTree 3).1.tree =
      exampleLayout ∧
    (Heap.gui_layout_window_save emptyWindowStore (fun _ => true)
      exampleTree 3).1.gui_layout_windows = some 0 ∧
    (Heap.gui_layout_window_save emptyWindowStore (fun id => decide (id ≠ 3))
      exampleTree 3).1.gui_layout_windows = some 3 ∧
    (Heap.gui_layout_window_save emptyWindowStore (fun id => decide (id ≠ 3))
      exampleTree 3).1.tree =
      .node 5 0 0 .null .null (some "irc") (some "#b") ∧
    ((Heap.gui_layout_window_save emptyWindowStore (fun id => decide (id ≠ 3))
      exampleTree 3).1.memory.map
        (Option.map (fun c => (c.internal_id, c.parent_node, c.child1, c.child2)))) =
      [some (1, none, some 1, none), some (2, some 0, none, none),
       some (4, none, none, none), some (5, none, none, none)] ∧
    (Heap.gui_layout_window_save emptyWindowStore (fun id => decide (id ≠ 2))
      exampleTree 3).1.gui_layout_windows = some 0 := by
  decide

/-- C25 amended, on the example: a node is added under the node of
`core/status`, at address 1, which has no child; it is created at address 5
and becomes the `child1` of its parent. -/
theorem window_add_attaches_witness :
    (Heap.gui_layout_window_add exampleWindowStore true 9 (some 1) 0 0 none none).2 = some 5 ∧
    (Heap.gui_layout_window_add exampleWindowStore true 9 (some 1) 0 0 none none).1.memory[1]? =
      some (some { internal_id := 2, parent_node := some 0, split_pct := 0, split_horiz := 0,
                   child1 := some 5, child2 := none,
                   plugin_name := some "core", buffer_name := some "status" }) :=
  ⟨(window_add_attaches exampleWindowStore 9 (some 1) 0 0 none none).1,
   ((window_add_attaches exampleWindowStore 9 (some 1) 0 0 none none).2.2.2.2 1
      { internal_id := 2, parent_node := some 0, split_pct := 0, split_horiz := 0,
        child1 := none, child2 := none,
        plugin_name := some "core", buffer_name := some "status" } rfl (by decide)).2.2.trans
     (by decide)⟩

end GuiLayout
